import Mathlib

/-!
# Calendar manager (`src/DSA_PROJECT.cpp`): shallow embedding and verified properties

Conventions of the embedding.

* `time_t` and `int` values are modelled as `Int`.  Signed overflow is undefined behaviour in
  C++, so the model is exact on every run in which no `int` / `time_t` computation overflows
  (fewer than `2^31 - 1` constructed events, instants far below `2^63`).
* `std::vector<Event>` is a `List Event`; a pointer into the vector returned by `findEvent`
  is modelled by the value found together with a write-back at the same position.
* `std::sort` is library code.  It is a parameter `sort` of the embedding, constrained only by
  what the C++ standard promises for it (`StdSortContract`): the result is a permutation of the
  input and no later element compares less than an earlier one.  The standard does not promise
  that equivalent elements keep their order.  Where the order of equivalent elements matters,
  the code is run with `libstdcxxSort`, the algorithm of GNU libstdc++.
* the C library (`get_time`, `mktime`, `localtime`, `strftime`, `time`) is a parameter: `LibC`
  for parsing and formatting, `CTime` for `localtime` and `mktime` on `struct tm`.  There are
  two models of `CTime` after the C standard: `zoneCTime offset`, a zone at a fixed offset
  from UTC that never changes its clocks (exact for UTC), and `dstCTime zone`, a zone with
  daylight saving, in which `localtime` sets `tm_isdst` and `mktime` reads it.
* standard input is the list of the lines still to be read; reading past the end of input
  yields the empty string for ever, as `getline` on a failed stream does.  What the program
  prints is not modelled.
-/

namespace CalendarApp

/-! ## Enums and the Event class -/

inductive Priority where
  | LOW | MEDIUM | HIGH
deriving DecidableEq, Repr

inductive Color where
  | RED | BLUE | GREEN | YELLOW | PURPLE | ORANGE | GRAY | DEFAULT
deriving DecidableEq, Repr

structure Event where
  id : Int
  title : String
  start_time : Int
  end_time : Int
  color : Color
  priority : Priority
  description : String
  location : String
  attendees : List String
  is_all_day : Bool
  is_recurring : Bool
  recurrence_pattern : String
deriving DecidableEq, Repr

/-- Constructor `Event::Event`: takes the id from the static counter `next_id` and
post-increments the counter.  Returns the event and the new counter value. -/
def Event.ctor (next_id : Int) (title : String) (start end_ : Int) (color : Color)
    (priority : Priority) (desc loc : String) (att : List String) (all_day recurring : Bool)
    (recur_pattern : String) : Event × Int :=
  ({ id := next_id, title := title, start_time := start, end_time := end_, color := color,
     priority := priority, description := desc, location := loc, attendees := att,
     is_all_day := all_day, is_recurring := recurring, recurrence_pattern := recur_pattern },
   next_id + 1)

/-- Method `Event::isBetween`. -/
def Event.isBetween (e : Event) (start end_ : Int) : Bool :=
  (decide (e.start_time ≥ start) && decide (e.start_time ≤ end_)) ||
  (decide (e.end_time ≥ start) && decide (e.end_time ≤ end_)) ||
  (decide (e.start_time ≤ start) && decide (e.end_time ≥ end_))

/-- Method `Event::isAtTime`. -/
def Event.isAtTime (e : Event) (time : Int) : Bool :=
  decide (e.start_time ≤ time) && decide (e.end_time ≥ time)

/-! ## The Calendar class -/

structure Calendar where
  events : List Event
  name : String
  owner : String
deriving DecidableEq, Repr

/-- The freshly constructed `Calendar`. -/
def Calendar.empty (name owner : String) : Calendar :=
  { events := [], name := name, owner := owner }

/-- The comparison lambda handed to `std::sort` in `Calendar::sortEvents`. -/
def byStartTime (a b : Event) : Bool := decide (a.start_time < b.start_time)

/-- What the C++ standard guarantees of `std::sort` called with the comparison of
`sortEvents`: the range afterwards is a permutation of the range before, and it is sorted with
respect to the comparison (no element compares less than one that precedes it). -/
def StdSortContract (sort : (Event → Event → Bool) → List Event → List Event) : Prop :=
  ∀ l : List Event,
    (sort byStartTime l).Perm l ∧
    (sort byStartTime l).Pairwise (fun a b => byStartTime b a = false)

/-- Method `Calendar::sortEvents`. -/
def Calendar.sortEvents (sort : (Event → Event → Bool) → List Event → List Event)
    (c : Calendar) : Calendar :=
  { c with events := sort byStartTime c.events }

/-- Method `Calendar::addEvent`: `push_back` then `sortEvents`. -/
def Calendar.addEvent (sort : (Event → Event → Bool) → List Event → List Event)
    (c : Calendar) (event : Event) : Calendar :=
  Calendar.sortEvents sort { c with events := c.events ++ [event] }

/-- Method `Calendar::deleteEvent`.  `std::remove_if` moves the elements that do not satisfy
the predicate to the front, in their order, and returns the position after them; it differs
from `end()` exactly when fewer elements were kept than the vector holds, and then the tail is
erased.  Otherwise the vector is left as it is. -/
def Calendar.deleteEvent (c : Calendar) (id : Int) : Calendar × Bool :=
  let kept := c.events.filter (fun e => !(decide (e.id = id)))
  if kept.length ≠ c.events.length then ({ c with events := kept }, true) else (c, false)

/-- The loop of `Calendar::findEvent` over the vector. -/
def findEventIn (id : Int) : List Event → Option Event
  | [] => none
  | e :: es => if e.id = id then some e else findEventIn id es

/-- Method `Calendar::findEvent`; `none` is the null pointer. -/
def Calendar.findEvent (c : Calendar) (id : Int) : Option Event :=
  findEventIn id c.events

/-- Method `Calendar::getEventsBetween`: the loop pushes matching events to `result`. -/
def Calendar.getEventsBetween (c : Calendar) (start end_ : Int) : List Event :=
  c.events.foldl (fun result e => if e.isBetween start end_ then result ++ [e] else result) []

/-! ## Utility functions -/

/-- The characters that `trim` strips: blank, tab, newline, carriage return. -/
def isTrimChar (c : Char) : Bool :=
  c = ' ' || c = Char.ofNat 9 || c = Char.ofNat 10 || c = Char.ofNat 13

/-- Function `trim`: the substring from the first to the last character that is not
stripped, or the empty string when there is none. -/
def trim (str : String) : String :=
  let cs := str.data
  match cs.findIdx? (fun c => !isTrimChar c) with
  | none => ""
  | some first =>
    let last := cs.length - 1 - cs.reverse.findIdx (fun c => !isTrimChar c)
    String.mk ((cs.drop first).take (last - first + 1))

/-- Function `toLower`: `tolower` on every character (the letters `A` to `Z`). -/
def toLower (str : String) : String := String.mk (str.data.map Char.toLower)

/-- The characters `std::stoi` skips in front of the number (`isspace`). -/
def isSpaceChar (c : Char) : Bool :=
  c = ' ' || c = Char.ofNat 9 || c = Char.ofNat 10 || c = Char.ofNat 11 ||
  c = Char.ofNat 12 || c = Char.ofNat 13

/-- Library function `std::stoi` in base 10: leading white space, an optional sign, then the
longest run of digits; `none` stands for the exception thrown when there is no digit or the
value does not fit an `int`. -/
def stoi (input : String) : Option Int :=
  let cs := input.data.dropWhile isSpaceChar
  let signed : Bool × List Char :=
    match cs with
    | '-' :: r => (true, r)
    | '+' :: r => (false, r)
    | r => (false, r)
  let digs := signed.2.takeWhile Char.isDigit
  if digs = [] then none
  else
    let n : Int := digs.foldl (fun acc c => 10 * acc + ((c.toNat : Int) - 48)) 0
    let v : Int := if signed.1 then -n else n
    if v < -2147483648 ∨ 2147483647 < v then none else some v

/-- Function `safeStoi`. -/
def safeStoi (input : String) (fallback : Int) : Int :=
  match stoi input with
  | some v => v
  | none => fallback

/-- Function `getInput` (the prompt is output and is not modelled): read a line, trim it.
At the end of input `getline` fails and the line read is empty. -/
def getInput : List String → String × List String
  | [] => ("", [])
  | l :: rest => (trim l, rest)

/-- Function `waitForEnter`: `cin.ignore` discards the input up to and including the next
newline. -/
def waitForEnter (ins : List String) : List String := ins.drop 1

/-- The C library as seen by this program. -/
structure LibC where
  /-- The pair `ss >> get_time(&timeinfo, format)`, `mktime(&timeinfo)` on the text and
  format given: `none` when the stream fails. -/
  parseTime : String → String → Option Int
  /-- The call `strftime(buffer, size, format, localtime(&t))`. -/
  formatTime : Int → String → String
  /-- The call `mktime(localtime(&t))`. -/
  mktimeLocal : Int → Int

/-- Function `stringToTime`. -/
def stringToTime (libc : LibC) (date_str : String) (format : String) : Int :=
  match libc.parseTime date_str format with
  | none => 0
  | some t => t

/-- Function `timeToString` (global). -/
def timeToString (libc : LibC) (t : Int) (format : String) : String :=
  libc.formatTime t format

/-- Function `dateToString`. -/
def dateToString (libc : LibC) (t : Int) : String := timeToString libc t "%Y-%m-%d"

/-- Function `getTimePart`. -/
def getTimePart (libc : LibC) (t : Int) : String := timeToString libc t "%H:%M"

/-! ## The CalendarUI class -/

/-- The state of the program: the static counter `Event::next_id` and the members of
`CalendarUI`. -/
structure CalendarUI where
  next_id : Int
  calendar : Calendar
  current_date : Int
deriving DecidableEq, Repr

/-- State at program start: `Event::next_id = 1`, and the constructor `CalendarUI()`. -/
def CalendarUI.init (now : Int) : CalendarUI :=
  { next_id := 1, calendar := Calendar.empty "My Calendar" "User", current_date := now }

/-- Method `CalendarUI::promptPriority`. -/
def promptPriority : List String → Priority × List String
  | [] => (Priority.MEDIUM, [])
  | l :: rest =>
    let input := toLower (trim l)
    if input = "high" then (Priority.HIGH, rest)
    else if input = "low" then (Priority.LOW, rest)
    else if input = "" ∨ input = "medium" then (Priority.MEDIUM, rest)
    else promptPriority rest

/-- Method `CalendarUI::promptAttendees`. -/
def promptAttendees : List String → List String × List String
  | [] => ([], [])
  | l :: rest =>
    let name := trim l
    if name = "" then ([], rest)
    else ((name :: (promptAttendees rest).1), (promptAttendees rest).2)

/-- The title prompt of `CalendarUI::addEvent`: read until the title is not empty.  `none`:
the loop never exits (the input has ended, every further read is empty). -/
def promptTitle : List String → Option (String × List String)
  | [] => none
  | l :: rest => if trim l = "" then promptTitle rest else some (trim l, rest)

/-- The loop `while (end == 0 || difftime(end, start) <= 0)` of `CalendarUI::addEvent`, entered
with the current value of `end`.  `difftime(end, start) <= 0` holds exactly when
`end - start <= 0` (the difference of two instants is converted to `double` without changing its
sign).  `none`: the loop never exits. -/
def promptEndLoop (libc : LibC) (start : Int) : Int → List String → Option (Int × List String)
  | end_, [] =>
    if end_ = 0 ∨ end_ - start ≤ 0 then
      (if stringToTime libc "" "%Y-%m-%d %H:%M" = 0 ∨
          stringToTime libc "" "%Y-%m-%d %H:%M" - start ≤ 0 then none
       else some (stringToTime libc "" "%Y-%m-%d %H:%M", []))
    else some (end_, [])
  | end_, l :: rest =>
    if end_ = 0 ∨ end_ - start ≤ 0 then
      promptEndLoop libc start (stringToTime libc (trim l) "%Y-%m-%d %H:%M") rest
    else some (end_, l :: rest)

/-- The start-time prompt shared by the `LOW` and `MEDIUM` branches of `addEvent`: a time of
day for the current date; an empty or unparsable answer keeps the current time. -/
def promptStartOfDay (libc : LibC) (start : Int) (ins : List String) : Int × List String :=
  let start_date := dateToString libc start
  let time_input := (getInput ins).1
  let start' :=
    if time_input ≠ "" then
      (if stringToTime libc (start_date ++ " " ++ time_input) "%Y-%m-%d %H:%M" ≠ 0 then
         stringToTime libc (start_date ++ " " ++ time_input) "%Y-%m-%d %H:%M"
       else start)
    else start
  (start', (getInput ins).2)

/-- The start prompt of the `HIGH` branch of `addEvent`: a full date and time; an empty or
unparsable answer keeps the current time. -/
def promptStartFull (libc : LibC) (start : Int) (ins : List String) : Int × List String :=
  let start_input := (getInput ins).1
  let start' :=
    if start_input ≠ "" then
      (if stringToTime libc start_input "%Y-%m-%d %H:%M" ≠ 0 then
         stringToTime libc start_input "%Y-%m-%d %H:%M"
       else start)
    else start
  (start', (getInput ins).2)

/-- The priority branches of `CalendarUI::addEvent` (source lines 571 to 630): the start and
end instants of the new event. -/
def promptTimes (libc : LibC) (priority : Priority) (start : Int) (ins : List String) :
    Option ((Int × Int) × List String) :=
  match priority with
  | Priority.LOW =>
    let r := promptStartOfDay libc start ins
    some ((r.1, r.1 + 3600), r.2)
  | Priority.MEDIUM =>
    let r := promptStartOfDay libc start ins
    some ((r.1, r.1 + 7200), r.2)
  | Priority.HIGH =>
    let r := promptStartFull libc start ins
    let end_input := (getInput r.2).1
    let ins2 := (getInput r.2).2
    if end_input ≠ "" then
      match promptEndLoop libc r.1 (stringToTime libc end_input "%Y-%m-%d %H:%M") ins2 with
      | none => none
      | some (end_, ins3) => some ((r.1, end_), ins3)
    else some ((r.1, r.1 + 3600), ins2)

/-- The colour that `addEvent` and `editEvent` derive from a priority. -/
def colorOfPriority : Priority → Color
  | Priority.LOW => Color.BLUE
  | Priority.MEDIUM => Color.GREEN
  | Priority.HIGH => Color.RED

/-- Method `CalendarUI::addEvent`, with `now` the value of `time(nullptr)`.  Returns the new
state, the event constructed and the input left; `none` when a prompt loop never exits. -/
def CalendarUI.addEvent (libc : LibC) (sort : (Event → Event → Bool) → List Event → List Event)
    (now : Int) (ui : CalendarUI) (ins : List String) :
    Option (CalendarUI × Event × List String) :=
  match promptTitle ins with
  | none => none
  | some (title, ins1) =>
    let start := libc.mktimeLocal now
    let pr := promptPriority ins1
    match promptTimes libc pr.1 start pr.2 with
    | none => none
    | some (times, ins3) =>
      let desc := (getInput ins3).1
      let loc := (getInput (getInput ins3).2).1
      let ins5 := (getInput (getInput ins3).2).2
      let color := colorOfPriority pr.1
      let att := promptAttendees ins5
      let made := Event.ctor ui.next_id title times.1 times.2 color pr.1 desc loc att.1
        false false ""
      some ({ ui with next_id := made.2, calendar := ui.calendar.addEvent sort made.1 },
            made.1, waitForEnter att.2)

/-- Write through the pointer returned by `findEvent`: the first event with the id is
replaced. -/
def writeBack (id : Int) (event : Event) : List Event → List Event
  | [] => []
  | e :: es => if e.id = id then event :: es else e :: writeBack id event es

/-- The step "Edit title" of `editEvent`. -/
def editTitle (event : Event) (ins : List String) : Event × List String :=
  let new_title := (getInput ins).1
  (if new_title ≠ "" then { event with title := new_title } else event, (getInput ins).2)

/-- The step "Edit start time" of `editEvent`: a valid new start moves the event and keeps
its duration. -/
def editStartTime (libc : LibC) (event : Event) (ins : List String) : Event × List String :=
  let start_input := (getInput ins).1
  let event' :=
    if start_input ≠ "" then
      let new_start := stringToTime libc start_input
        (if event.is_all_day then "%Y-%m-%d" else "%Y-%m-%d %H:%M")
      if new_start ≠ 0 then
        let duration := event.end_time - event.start_time
        { event with start_time := new_start, end_time := new_start + duration }
      else event
    else event
  (event', (getInput ins).2)

/-- The step "Edit end time (if not all-day)" of `editEvent`. -/
def editEndTime (libc : LibC) (event : Event) (ins : List String) : Event × List String :=
  if event.is_all_day then (event, ins)
  else
    let end_input := (getInput ins).1
    let event' :=
      if end_input ≠ "" then
        let new_end := stringToTime libc end_input "%Y-%m-%d %H:%M"
        if new_end ≠ 0 ∧ new_end > event.start_time then { event with end_time := new_end }
        else event
      else event
    (event', (getInput ins).2)

/-- The step "Edit priority and color" of `editEvent`. -/
def editPriority (event : Event) (ins : List String) : Event × List String :=
  let priority_input := (getInput ins).1
  if toLower priority_input = "y" then
    let old_priority := event.priority
    let pr := promptPriority (getInput ins).2
    let event1 := { event with priority := pr.1 }
    (if event1.priority ≠ old_priority then
       { event1 with color := colorOfPriority event1.priority }
     else event1, pr.2)
  else (event, (getInput ins).2)

/-- The step "Edit description" of `editEvent`. -/
def editDescription (event : Event) (ins : List String) : Event × List String :=
  let new_desc := (getInput ins).1
  (if new_desc ≠ "" then { event with description := new_desc } else event, (getInput ins).2)

/-- The step "Edit location" of `editEvent`. -/
def editLocation (event : Event) (ins : List String) : Event × List String :=
  let new_loc := (getInput ins).1
  (if new_loc ≠ "" then { event with location := new_loc } else event, (getInput ins).2)

/-- The step "Edit attendees" of `editEvent`. -/
def editAttendees (event : Event) (ins : List String) : Event × List String :=
  let att_input := (getInput ins).1
  if toLower att_input = "y" then
    let att := promptAttendees (getInput ins).2
    ({ event with attendees := att.1 }, att.2)
  else (event, (getInput ins).2)

/-- The step "Edit all-day status" of `editEvent`. -/
def editAllDay (event : Event) (ins : List String) : Event × List String :=
  let all_day_input := (getInput ins).1
  (if all_day_input ≠ "" then
     { event with is_all_day := decide (toLower all_day_input = "y") }
   else event, (getInput ins).2)

/-- The step "Edit recurrence" of `editEvent`. -/
def editRecurrence (event : Event) (ins : List String) : Event × List String :=
  let recur_input := (getInput ins).1
  let ins1 := (getInput ins).2
  if event.is_recurring then
    (if toLower recur_input = "y" then
       ({ event with recurrence_pattern := (getInput ins1).1 }, (getInput ins1).2)
     else (event, ins1))
  else
    (if toLower recur_input = "y" then
       ({ event with is_recurring := true, recurrence_pattern := (getInput ins1).1 },
        (getInput ins1).2)
     else (event, ins1))

/-- The state of `editEvent` when it reaches the end-time step. -/
def editUpToStart (libc : LibC) (event : Event) (ins : List String) : Event × List String :=
  let s1 := editTitle event ins
  editStartTime libc s1.1 s1.2

/-- The state of `editEvent` when it reaches the priority step. -/
def editUpToEnd (libc : LibC) (event : Event) (ins : List String) : Event × List String :=
  let s2 := editUpToStart libc event ins
  editEndTime libc s2.1 s2.2

/-- The state of `editEvent` when it reaches the description step. -/
def editUpToPriority (libc : LibC) (event : Event) (ins : List String) : Event × List String :=
  let s3 := editUpToEnd libc event ins
  editPriority s3.1 s3.2

/-- The state of `editEvent` when it reaches the location step. -/
def editUpToDescription (libc : LibC) (event : Event) (ins : List String) :
    Event × List String :=
  let s4 := editUpToPriority libc event ins
  editDescription s4.1 s4.2

/-- The state of `editEvent` when it reaches the attendees step. -/
def editUpToLocation (libc : LibC) (event : Event) (ins : List String) : Event × List String :=
  let s5 := editUpToDescription libc event ins
  editLocation s5.1 s5.2

/-- The state of `editEvent` when it reaches the all-day step. -/
def editUpToAttendees (libc : LibC) (event : Event) (ins : List String) :
    Event × List String :=
  let s6 := editUpToLocation libc event ins
  editAttendees s6.1 s6.2

/-- The state of `editEvent` when it reaches the recurrence step. -/
def editUpToAllDay (libc : LibC) (event : Event) (ins : List String) : Event × List String :=
  let s7 := editUpToAttendees libc event ins
  editAllDay s7.1 s7.2

/-- The body of `editEvent` after the event was found (source lines 671 to 760): the steps in
the order of the source, each on the event the previous one left. -/
def editFields (libc : LibC) (event : Event) (ins : List String) : Event × List String :=
  let s8 := editUpToAllDay libc event ins
  editRecurrence s8.1 s8.2

/-- Method `CalendarUI::editEvent`. -/
def CalendarUI.editEvent (libc : LibC) (ui : CalendarUI) (ins : List String) :
    CalendarUI × List String :=
  let id := safeStoi (getInput ins).1 (-1)
  match ui.calendar.findEvent id with
  | none => (ui, waitForEnter (getInput ins).2)
  | some event =>
    let r := editFields libc event (getInput ins).2
    ({ ui with calendar := { ui.calendar with events := writeBack id r.1 ui.calendar.events } },
     waitForEnter r.2)

/-! ## Broken-down time: `struct tm`, `localtime`, `mktime` -/

/-- The C structure `tm`. -/
structure Tm where
  tm_sec : Int
  tm_min : Int
  tm_hour : Int
  tm_mday : Int
  tm_mon : Int
  tm_year : Int
  tm_wday : Int
  tm_yday : Int
  tm_isdst : Int
deriving DecidableEq, Repr

/-- The functions of `<ctime>` on broken-down time as seen by this program: `localtime(&t)`
gives the structure, `mktime(&tm)` gives the structure as rewritten by the call and the value
returned. -/
structure CTime where
  localtime : Int → Tm
  mktime : Tm → Tm × Int

/-- Method `Event::isSameDay`. -/
def Event.isSameDay (ct : CTime) (e : Event) (day : Int) : Bool :=
  let t1 := ct.localtime e.start_time
  let t2 := ct.localtime day
  decide (t1.tm_year = t2.tm_year) && decide (t1.tm_mon = t2.tm_mon) &&
    decide (t1.tm_mday = t2.tm_mday)

/-- Method `Calendar::getEventsForDay`: the loop pushes matching events to `result`. -/
def Calendar.getEventsForDay (ct : CTime) (c : Calendar) (day : Int) : List Event :=
  c.events.foldl (fun result e => if e.isSameDay ct day then result ++ [e] else result) []

/-! ### Week view -/

/-- The vector `week_days` of `Calendar::displayWeek` (source lines 315 to 324). -/
def weekDays (ct : CTime) (reference_day : Int) : List Tm :=
  let ref0 := ct.localtime reference_day
  let ref := (ct.mktime { ref0 with tm_mday := ref0.tm_mday - ref0.tm_wday }).1
  (List.range 7).map (fun (i : Nat) => (ct.mktime { ref with tm_mday := ref.tm_mday + (i : Int) }).1)

/-- The loop over the events in a cell of the hourly grid: the first event that is at the
time, if there is one (the loop breaks there). -/
def firstEventAt (current_time : Int) : List Event → Option Event
  | [] => none
  | e :: es => if e.isAtTime current_time then some e else firstEventAt current_time es

/-- One row of the hourly grid: for each day `current_time = mktime(&day) + hour * 3600` and
the event shown in the cell (`none` is the empty cell); `mktime` rewrites `day` in place. -/
def weekRow (ct : CTime) (c : Calendar) (hour : Int) :
    List Tm → List (Int × Option Event) × List Tm
  | [] => ([], [])
  | day :: days =>
    let r := ct.mktime day
    let current_time := r.2 + hour * 3600
    ((current_time, firstEventAt current_time c.events) :: (weekRow ct c hour days).1,
     r.1 :: (weekRow ct c hour days).2)

/-- The rows of the hourly grid for the hours given, top to bottom. -/
def weekRows (ct : CTime) (c : Calendar) : List Int → List Tm → List (List (Int × Option Event))
  | [], _ => []
  | hour :: hours, days =>
    (weekRow ct c hour days).1 :: weekRows ct c hours (weekRow ct c hour days).2

/-- The hourly grid of `Calendar::displayWeek` (source lines 341 to 361): one row for each
hour from 8 to 20, one cell for each day of `week_days`; a cell holds the instant tested and
the event whose title is printed.  The title line, which calls `mktime` on the first and the
last day before the grid, and the list of all-day events below the grid are not modelled. -/
def weekGrid (ct : CTime) (c : Calendar) (reference_day : Int) :
    List (List (Int × Option Event)) :=
  weekRows ct c ((List.range 13).map (fun (k : Nat) => (8 : Int) + (k : Int))) (weekDays ct reference_day)

/-! ### Month view -/

/-- What `Calendar::displayMonth` prints in the grid: a blank cell, a day cell (marked or
not), or the line break that ends a row. -/
inductive MonthItem where
  | blank
  | day (d : Int) (has_event : Bool)
  | rowBreak
deriving DecidableEq, Repr

/-- The values computed by `Calendar::displayMonth` and the grid it prints. -/
structure MonthView where
  first_day : Int
  days_in_month : Int
  month_start : Int
  month_end : Int
  items : List MonthItem
deriving DecidableEq, Repr

/-- The loop over `month_events` for one day cell: `has_event` and the structure `t` as the
calls `mktime(&t)` leave it. -/
def hasEventLoop (ct : CTime) : Tm → List Event → Bool × Tm
  | t, [] => (false, t)
  | t, e :: es =>
    if e.isSameDay ct (ct.mktime t).2 then (true, (ct.mktime t).1)
    else hasEventLoop ct (ct.mktime t).1 es

/-- The loop `for (int day = 1; day <= days_in_month; ++day)` of `displayMonth`, with the
number of iterations left, the current `day` and the structure `t`. -/
def monthDayLoop (ct : CTime) (month_events : List Event) (first_day : Int) :
    Nat → Int → Tm → List MonthItem
  | 0, _, _ => []
  | n + 1, day, t =>
    let r := hasEventLoop ct (ct.mktime { t with tm_mday := day }).1 month_events
    [MonthItem.day day r.1] ++
      (if (day + first_day) % 7 = 0 then [MonthItem.rowBreak] else []) ++
      monthDayLoop ct month_events first_day n (day + 1) r.2

/-- Method `Calendar::displayMonth` (source lines 385 to 427). -/
def Calendar.displayMonth (ct : CTime) (c : Calendar) (current_date : Int) : MonthView :=
  let t0 := ct.localtime current_date
  let t1 := (ct.mktime { t0 with tm_mday := 1 }).1
  let first_day := t1.tm_wday
  let t2 := (ct.mktime { t1 with tm_mon := t1.tm_mon + 1, tm_mday := 0 }).1
  let days_in_month := t2.tm_mday
  let r3 := ct.mktime t2
  let r4 := ct.mktime { r3.1 with tm_mday := days_in_month }
  let month_events := c.getEventsBetween r3.2 r4.2
  { first_day := first_day, days_in_month := days_in_month, month_start := r3.2,
    month_end := r4.2,
    items := List.replicate first_day.toNat MonthItem.blank ++
      monthDayLoop ct month_events first_day days_in_month.toNat 1 r4.1 }

/-- A grid item without its mark. -/
def MonthItem.layout : MonthItem → MonthItem
  | MonthItem.day d _ => MonthItem.day d false
  | other => other

/-- Is the item a blank cell. -/
def MonthItem.isBlank : MonthItem → Bool
  | MonthItem.blank => true
  | _ => false

/-- Is the item a day cell. -/
def MonthItem.isDay : MonthItem → Bool
  | MonthItem.day _ _ => true
  | _ => false

/-! ### Agenda view -/

/-- Function `getDayName`. -/
def getDayName (libc : LibC) (t : Int) : String := timeToString libc t "%A"

/-- What `Calendar::displayAgenda` prints below the title: the notice that there is no
event, a date-group header, or the summary of an event. -/
inductive AgendaItem where
  | noEvents
  | header (date : String) (day_name : String)
  | entry (e : Event)
deriving DecidableEq, Repr

/-- The loop of `Calendar::displayAgenda` over `agenda_events`, with the value of
`current_date`. -/
def agendaLoop (libc : LibC) : String → List Event → List AgendaItem
  | _, [] => []
  | current_date, e :: es =>
    if dateToString libc e.start_time ≠ current_date then
      AgendaItem.header (dateToString libc e.start_time) (getDayName libc e.start_time) ::
        AgendaItem.entry e :: agendaLoop libc (dateToString libc e.start_time) es
    else AgendaItem.entry e :: agendaLoop libc current_date es

/-- Method `Calendar::displayAgenda` (source lines 435 to 456). -/
def Calendar.displayAgenda (libc : LibC) (c : Calendar) (start end_ : Int) : List AgendaItem :=
  let agenda_events := c.getEventsBetween start end_
  if agenda_events = [] then [AgendaItem.noEvents] else agendaLoop libc "" agenda_events

/-- The dates of the headers printed, in order. -/
def agendaHeaders : List AgendaItem → List String
  | [] => []
  | AgendaItem.header date _ :: rest => date :: agendaHeaders rest
  | _ :: rest => agendaHeaders rest

/-- The events printed, in order. -/
def agendaEntries : List AgendaItem → List Event
  | [] => []
  | AgendaItem.entry e :: rest => e :: agendaEntries rest
  | _ :: rest => agendaEntries rest

/-- Every event printed stands under a header of its own start date: `current` is the date
of the last header above. -/
def underOwnHeader (libc : LibC) : String → List AgendaItem → Prop
  | _, [] => True
  | _, AgendaItem.header date _ :: rest => underOwnHeader libc date rest
  | current, AgendaItem.entry e :: rest =>
    dateToString libc e.start_time = current ∧ underOwnHeader libc current rest
  | current, AgendaItem.noEvents :: rest => underOwnHeader libc current rest

/-! ## The Gregorian calendar and a C library for a zone at a fixed offset from UTC

The model of `localtime` and `mktime` follows the C standard: `mktime` accepts fields outside
their ranges, computes the calendar time of the date and time they denote, and rewrites the
structure with all fields forced to their ranges and `tm_wday`, `tm_yday` set.  Local time is
UTC plus `offset` seconds, without daylight saving: `localtime` always leaves `tm_isdst` at 0
and `mktime` has nothing to read from it.  This is the library of a zone such as UTC; for a
zone that changes its clocks see `dstCTime` below, of which this one is the case without a
daylight-saving period (`dstLocaltime_standard`, `dstMktime_standard`). -/

/-- Gregorian leap year. -/
def isLeapYear (y : Int) : Bool := (y % 4 = 0 ∧ y % 100 ≠ 0) ∨ y % 400 = 0

/-- Number of days of month `m` (1 is January) of year `y` in the Gregorian calendar. -/
def daysInMonth (y m : Int) : Int :=
  if m = 2 then (if isLeapYear y then 29 else 28)
  else if m = 4 ∨ m = 6 ∨ m = 9 ∨ m = 11 then 30
  else 31

/-- Day of a 400-year era (0 is 1 March of its first year) to the year of the era and the
day within that year, years running from 1 March. -/
def splitEra (doe : Int) : Int × Int :=
  let n100 := min (doe / 36524) 3
  let r100 := doe - n100 * 36524
  let n4 := r100 / 1461
  let r4 := r100 % 1461
  let n1 := min (r4 / 365) 3
  (n100 * 100 + n4 * 4 + n1, r4 - n1 * 365)

/-- Year of the era and day of the year to the day of the era. -/
def joinEra (yoe doy : Int) : Int := yoe * 365 + yoe / 4 - yoe / 100 + doy

/-- Day of a year that runs from 1 March to the month (1 is January) and the day of the
month. -/
def splitYear (doy : Int) : Int × Int :=
  let mp := (5 * doy + 2) / 153
  (if mp < 10 then mp + 3 else mp - 9, doy - (153 * mp + 2) / 5 + 1)

/-- Month and day of the month to the day of the year that runs from 1 March; `d` may lie
outside the month and is counted on from its first day. -/
def joinYear (m d : Int) : Int := (153 * ((m + 9) % 12) + 2) / 5 + d - 1

/-- The year from 1 March of year `yoe` of an era has 365 days plus this. -/
def leapFlag (yoe : Int) : Int := if yoe % 4 = 3 ∧ (yoe % 100 ≠ 99 ∨ yoe = 399) then 1 else 0

/-- Days from 1970-01-01 to the date `y`-`m`-`d` (month 1 to 12). -/
def civilToDays (y m d : Int) : Int :=
  let y1 := if m ≤ 2 then y - 1 else y
  (y1 / 400) * 146097 + joinEra (y1 % 400) (joinYear m d) - 719468

/-- The date (year, month 1 to 12, day) that lies `z` days after 1970-01-01. -/
def daysToCivil (z : Int) : Int × Int × Int :=
  let era := (z + 719468) / 146097
  let yd := splitEra ((z + 719468) % 146097)
  let md := splitYear yd.2
  (yd.1 + era * 400 + (if md.1 ≤ 2 then 1 else 0), md.1, md.2)

/-- Day of the week of the day that lies `z` days after 1970-01-01 (a Thursday); 0 is
Sunday. -/
def weekdayOfDay (z : Int) : Int := (z + 4) % 7

/-- The call `localtime` in the zone at `offset` seconds east of UTC. -/
def zoneLocaltime (offset : Int) (t : Int) : Tm :=
  let z := (t + offset) / 86400
  let r := (t + offset) % 86400
  let c := daysToCivil z
  { tm_sec := r % 60, tm_min := r / 60 % 60, tm_hour := r / 3600, tm_mday := c.2.2,
    tm_mon := c.2.1 - 1, tm_year := c.1 - 1900, tm_wday := weekdayOfDay z,
    tm_yday := z - civilToDays c.1 1 1, tm_isdst := 0 }

/-- The calendar time that `mktime` computes from the fields of the structure, none of them
restricted to its range. -/
def zoneTimeOf (offset : Int) (tm : Tm) : Int :=
  civilToDays (tm.tm_year + 1900 + tm.tm_mon / 12) (tm.tm_mon % 12 + 1) tm.tm_mday * 86400 +
    tm.tm_hour * 3600 + tm.tm_min * 60 + tm.tm_sec - offset

/-- The call `mktime` in the zone at `offset` seconds east of UTC. -/
def zoneMktime (offset : Int) (tm : Tm) : Tm × Int :=
  (zoneLocaltime offset (zoneTimeOf offset tm), zoneTimeOf offset tm)

/-- The `<ctime>` functions of the zone at `offset` seconds east of UTC. -/
def zoneCTime (offset : Int) : CTime :=
  { localtime := zoneLocaltime offset, mktime := zoneMktime offset }

/-- The broken-down time of the day `z` days after 1970-01-01 at `r` seconds after
midnight. -/
def tmAt (z r : Int) : Tm :=
  { tm_sec := r % 60, tm_min := r / 60 % 60, tm_hour := r / 3600,
    tm_mday := (daysToCivil z).2.2, tm_mon := (daysToCivil z).2.1 - 1,
    tm_year := (daysToCivil z).1 - 1900, tm_wday := weekdayOfDay z,
    tm_yday := z - civilToDays (daysToCivil z).1 1 1, tm_isdst := 0 }

/-! ## A C library for a zone with daylight saving

`localtime` sets `tm_isdst` to 1 while daylight-saving time is in force and to 0 otherwise.
`mktime` reads `tm_isdst` (C standard, POSIX): a positive value makes it take the fields as
daylight-saving time, zero as standard time, and a negative value leaves the choice to
`mktime`.  When the fields, read that way, denote an instant at which the other kind of time is
in force, the structure is rewritten to the local time of that instant, which is an hour away
from the fields handed in; this is what glibc does.  The zone keeps daylight-saving time from
one instant to another, which is one year of a zone such as US Eastern time. -/

/-- A zone that is `std_offset` seconds east of UTC in standard time and `saving` seconds
more from the instant `dst_begin` up to, not including, the instant `dst_end`. -/
structure DstZone where
  std_offset : Int
  saving : Int
  dst_begin : Int
  dst_end : Int

/-- Is daylight-saving time in force at the instant `t`. -/
def DstZone.isDst (z : DstZone) (t : Int) : Bool :=
  decide (z.dst_begin ≤ t) && decide (t < z.dst_end)

/-- The call `localtime` in the zone. -/
def dstLocaltime (z : DstZone) (t : Int) : Tm :=
  if z.isDst t then { zoneLocaltime (z.std_offset + z.saving) t with tm_isdst := 1 }
  else zoneLocaltime z.std_offset t

/-- The calendar time that `mktime` computes from the fields of the structure, `tm_isdst`
among them. -/
def dstTimeOf (z : DstZone) (tm : Tm) : Int :=
  if tm.tm_isdst > 0 then zoneTimeOf (z.std_offset + z.saving) tm
  else if tm.tm_isdst = 0 then zoneTimeOf z.std_offset tm
  else if z.isDst (zoneTimeOf (z.std_offset + z.saving) tm) then
    zoneTimeOf (z.std_offset + z.saving) tm
  else zoneTimeOf z.std_offset tm

/-- The call `mktime` in the zone. -/
def dstMktime (z : DstZone) (tm : Tm) : Tm × Int :=
  (dstLocaltime z (dstTimeOf z tm), dstTimeOf z tm)

/-- The `<ctime>` functions of the zone. -/
def dstCTime (z : DstZone) : CTime :=
  { localtime := dstLocaltime z, mktime := dstMktime z }

/-- Year, month (1 to 12), day, hour, minute and `tm_isdst` of a broken-down time. -/
def tmDate (t : Tm) : Int × Int × Int × Int × Int × Int :=
  (t.tm_year + 1900, t.tm_mon + 1, t.tm_mday, t.tm_hour, t.tm_min, t.tm_isdst)

/-! ## A sort that meets the contract of `std::sort` -/

/-- Insert `x` in front of the first element that `x` compares less than. -/
def insertByComp (comp : Event → Event → Bool) (x : Event) : List Event → List Event
  | [] => [x]
  | y :: ys => if comp x y then x :: y :: ys else y :: insertByComp comp x ys

/-- Insertion sort, left to right: a conforming `std::sort` that keeps ties in input order. -/
def insertionSortBy (comp : Event → Event → Bool) (l : List Event) : List Event :=
  l.foldl (fun acc x => insertByComp comp x acc) []

/-! ## The `std::sort` of GNU libstdc++

The algorithm of `bits/stl_algo.h` and `bits/stl_heap.h`, function by function, on the vector
as a list with positions counted from `begin()`.  A range of at most 16 elements is sorted by
insertion alone; a longer one first goes through `__introsort_loop` (median-of-three
partitioning, heap sort once the depth limit is used up).  The loops of the library that have
no structural bound get one here (`fuel`); `pushHeap_fuel` and `adjustHeapLoop_fuel` show
that the bound handed to them is never used up.  The model meets the contract of `std::sort`
(`libstdcxxSort_contract`) and does not keep equivalent elements in order. -/

/-- The call `comp(first + i, first + j)` on the vector `l`, positions counted from `begin()`.
The library never compares a position outside the vector when `comp` is a strict weak
ordering; the model answers `false` there. -/
def compAt {α : Type} (comp : α → α → Bool) (l : List α) (i j : Nat) : Bool :=
  match l[i]?, l[j]? with
  | some x, some y => comp x y
  | _, _ => false

/-- Function `std::iter_swap` on two positions of the vector. -/
def iterSwap {α : Type} (l : List α) (i j : Nat) : List α :=
  match l[i]?, l[j]? with
  | some x, some y => (l.set i y).set j x
  | _, _ => l

/-- Function `std::__move_median_to_first`. -/
def moveMedianToFirst {α : Type} (comp : α → α → Bool) (l : List α) (result a b c : Nat) :
    List α :=
  if compAt comp l a b then
    if compAt comp l b c then iterSwap l result b
    else if compAt comp l a c then iterSwap l result c
    else iterSwap l result a
  else if compAt comp l a c then iterSwap l result a
  else if compAt comp l b c then iterSwap l result c
  else iterSwap l result b

/-- The loop `while (comp(first, pivot)) ++first` of `std::__unguarded_partition`.  The
third argument is the part of the vector from `first` on: the loop of the model stops at the
end of the vector, which the loop of the library does not reach. -/
def skipUp {α : Type} (comp : α → α → Bool) (l : List α) (pivot : Nat) : List α → Nat → Nat
  | [], first => first
  | _ :: rest, first =>
    if compAt comp l first pivot then skipUp comp l pivot rest (first + 1) else first

/-- The loop of `std::__unguarded_partition`, entered at the statement `--last` with `first`
already moved up; the first argument is the value of `last` before the decrement. -/
def partitionDown {α : Type} (comp : α → α → Bool) (pivot : Nat) :
    Nat → List α → Nat → List α × Nat
  | 0, l, first => (l, first)
  | last + 1, l, first =>
    if compAt comp l pivot last then partitionDown comp pivot last l first
    else if first < last then
      let l1 := iterSwap l first last
      partitionDown comp pivot last l1 (skipUp comp l1 pivot (l1.drop (first + 1)) (first + 1))
    else (l, first)

/-- Function `std::__unguarded_partition`: `first` is moved up, then the loop is entered. -/
def unguardedPartition {α : Type} (comp : α → α → Bool) (l : List α) (first last pivot : Nat) :
    List α × Nat :=
  partitionDown comp pivot last l (skipUp comp l pivot (l.drop first) first)

/-- Function `std::__unguarded_partition_pivot`: the list after partitioning and the cut. -/
def unguardedPartitionPivot {α : Type} (comp : α → α → Bool) (l : List α) (first last : Nat) :
    List α × Nat :=
  let mid := first + (last - first) / 2
  unguardedPartition comp (moveMedianToFirst comp l first (first + 1) mid (last - 1))
    (first + 1) last first

/-- Function `std::__push_heap` on the heap that starts at position `first`.  The loop halves
`holeIndex` in every round; `fuel` bounds the number of rounds. -/
def pushHeap {α : Type} (comp : α → α → Bool) (first topIndex : Nat) (value : α) :
    Nat → List α → Nat → List α
  | 0, l, holeIndex => l.set (first + holeIndex) value
  | fuel + 1, l, holeIndex =>
    let parent := (holeIndex - 1) / 2
    match l[first + parent]? with
    | some p =>
      if holeIndex > topIndex ∧ comp p value = true then
        pushHeap comp first topIndex value fuel (l.set (first + holeIndex) p) parent
      else l.set (first + holeIndex) value
    | none => l.set (first + holeIndex) value

/-- The first loop of `std::__adjust_heap`, in which `holeIndex` and `secondChild` are equal
at the start of every round: `hole` is their value.  `fuel` bounds the number of rounds. -/
def adjustHeapLoop {α : Type} (comp : α → α → Bool) (first len : Nat) :
    Nat → List α → Nat → List α × Nat
  | 0, l, hole => (l, hole)
  | fuel + 1, l, hole =>
    if hole < (len - 1) / 2 then
      let sc := 2 * (hole + 1)
      let sc1 := if compAt comp l (first + sc) (first + (sc - 1)) then sc - 1 else sc
      match l[first + sc1]? with
      | some x => adjustHeapLoop comp first len fuel (l.set (first + hole) x) sc1
      | none => (l, hole)
    else (l, hole)

/-- Function `std::__adjust_heap`. -/
def adjustHeap {α : Type} (comp : α → α → Bool) (l : List α) (first holeIndex len : Nat)
    (value : α) : List α :=
  let r := adjustHeapLoop comp first len len l holeIndex
  let r2 : List α × Nat :=
    if len % 2 = 0 ∧ r.2 = (len - 2) / 2 then
      match r.1[first + (2 * (r.2 + 1) - 1)]? with
      | some x => (r.1.set (first + r.2) x, 2 * (r.2 + 1) - 1)
      | none => r
    else r
  pushHeap comp first holeIndex value r2.2 r2.1 r2.2

/-- Function `std::__pop_heap`. -/
def popHeap {α : Type} (comp : α → α → Bool) (l : List α) (first last result : Nat) : List α :=
  match l[result]?, l[first]? with
  | some value, some top => adjustHeap comp (l.set result top) first 0 (last - first) value
  | _, _ => l

/-- Function `std::__make_heap`: `parent` runs from `(len - 2) / 2` down to 0. -/
def makeHeap {α : Type} (comp : α → α → Bool) (l : List α) (first last : Nat) : List α :=
  if last - first < 2 then l
  else
    (List.range ((last - first - 2) / 2 + 1)).reverse.foldl
      (fun (acc : List α) (parent : Nat) =>
        match acc[first + parent]? with
        | some value => adjustHeap comp acc first parent (last - first) value
        | none => acc) l

/-- Function `std::__sort_heap`: `last` runs down to `first + 1`. -/
def sortHeap {α : Type} (comp : α → α → Bool) (l : List α) (first last : Nat) : List α :=
  (List.range' (first + 1) (last - first - 1)).reverse.foldl
    (fun (acc : List α) (k : Nat) => popHeap comp acc first k k) l

/-- Function `std::__partial_sort(first, last, last)`, the heap sort of the range; with
`middle == last` the loop of `std::__heap_select` after `__make_heap` is empty. -/
def partialSort {α : Type} (comp : α → α → Bool) (l : List α) (first last : Nat) : List α :=
  sortHeap comp (makeHeap comp l first last) first last

/-- Function `std::__introsort_loop`: the recursive call on the part from the cut on, then
the next round of the loop on the part before the cut, both with the decremented depth
limit. -/
def introsortLoop {α : Type} (comp : α → α → Bool) : Nat → List α → Nat → Nat → List α
  | 0, l, first, last => if last - first > 16 then partialSort comp l first last else l
  | depth_limit + 1, l, first, last =>
    if last - first > 16 then
      let p := unguardedPartitionPivot comp l first last
      introsortLoop comp depth_limit (introsortLoop comp depth_limit p.1 p.2 last) first p.2
    else l

/-- Function `std::__unguarded_linear_insert(last, comp)`: `val` is the element taken from
position `last`, the second argument is `last`, and `next` is `last - 1`.  The loop of the
model stops at `begin()`, which the loop of the library does not pass. -/
def unguardedLinearInsert {α : Type} (comp : α → α → Bool) (val : α) : List α → Nat → List α
  | l, 0 => l.set 0 val
  | l, next + 1 =>
    match l[next]? with
    | some x =>
      if comp val x then unguardedLinearInsert comp val (l.set (next + 1) x) next
      else l.set (next + 1) val
    | none => l.set (next + 1) val

/-- One round of the loop of `std::__insertion_sort`. -/
def insertionSortStep {α : Type} (comp : α → α → Bool) (l : List α) (i : Nat) : List α :=
  match l[i]?, l[0]? with
  | some val, some front =>
    if comp val front then val :: l.eraseIdx i else unguardedLinearInsert comp val l i
  | _, _ => l

/-- Function `std::__insertion_sort(first, first + n)` with `first` at `begin()`. -/
def insertionSort {α : Type} (comp : α → α → Bool) (l : List α) (n : Nat) : List α :=
  (List.range' 1 (n - 1)).foldl (insertionSortStep comp) l

/-- Function `std::__unguarded_insertion_sort(first + start, first + n)`. -/
def unguardedInsertionSort {α : Type} (comp : α → α → Bool) (l : List α) (start n : Nat) :
    List α :=
  (List.range' start (n - start)).foldl
    (fun (acc : List α) (i : Nat) =>
      match acc[i]? with
      | some val => unguardedLinearInsert comp val acc i
      | none => acc) l

/-- Function `std::__final_insertion_sort`. -/
def finalInsertionSort {α : Type} (comp : α → α → Bool) (l : List α) : List α :=
  if l.length > 16 then unguardedInsertionSort comp (insertionSort comp l 16) 16 l.length
  else insertionSort comp l l.length

/-- The loop behind `std::__lg`. -/
def lgLoop : Nat → Nat → Nat
  | 0, _ => 0
  | fuel + 1, n => if n ≤ 1 then 0 else lgLoop fuel (n / 2) + 1

/-- Function `std::__lg(n)`: the position of the highest bit set in `n`. -/
def lg (n : Nat) : Nat := lgLoop n n

/-- Function `std::sort(begin, end, comp)` as GNU libstdc++ implements it (`std::__sort`): the
partitioning loop, then the final insertion sort. -/
def libstdcxxSort {α : Type} (comp : α → α → Bool) (l : List α) : List α :=
  if l.length = 0 then l
  else finalInsertionSort comp (introsortLoop comp (lg l.length * 2) l 0 l.length)

/-- What `std::__unguarded_linear_insert` computes, as a function on lists: `val` is put into
the part of the vector before it, given last element first, behind every element that it
compares less than, up to the first one that it does not compare less than. -/
def insertFromRight {α : Type} (comp : α → α → Bool) (val : α) : List α → List α
  | [] => [val]
  | x :: pre => if comp val x then x :: insertFromRight comp val pre else val :: x :: pre

/-! ## Construct-and-add, and sequences of store operations -/

/-- The arguments of one call of the constructor `Event::Event`. -/
structure EventArgs where
  title : String
  start : Int
  end_ : Int
  color : Color
  priority : Priority
  desc : String
  loc : String
  att : List String
  all_day : Bool
  recurring : Bool
  recur_pattern : String

/-- Construct a new `Event` (its id comes from `next_id`) and `addEvent` it, as
`CalendarUI::addEvent` does in its last two statements. -/
def CalendarUI.createAndAdd (sort : (Event → Event → Bool) → List Event → List Event)
    (ui : CalendarUI) (a : EventArgs) : CalendarUI :=
  let made := Event.ctor ui.next_id a.title a.start a.end_ a.color a.priority a.desc a.loc
    a.att a.all_day a.recurring a.recur_pattern
  { ui with next_id := made.2, calendar := ui.calendar.addEvent sort made.1 }

/-- One operation on the store: construct and add an event, or delete by id. -/
inductive StoreOp where
  | create (a : EventArgs)
  | delete (id : Int)

/-- Is the operation a construction. -/
def StoreOp.isCreate : StoreOp → Bool
  | StoreOp.create _ => true
  | StoreOp.delete _ => false

/-- Perform one store operation. -/
def StoreOp.apply (sort : (Event → Event → Bool) → List Event → List Event)
    (ui : CalendarUI) : StoreOp → CalendarUI
  | StoreOp.create a => ui.createAndAdd sort a
  | StoreOp.delete id => { ui with calendar := (ui.calendar.deleteEvent id).1 }

/-- Perform a sequence of store operations, first to last. -/
def runStoreOps (sort : (Event → Event → Bool) → List Event → List Event)
    (ui : CalendarUI) (ops : List StoreOp) : CalendarUI :=
  ops.foldl (StoreOp.apply sort) ui

/-! ## A concrete C library: UTC, zero-padded input

Used to run the model on examples.  It accepts exactly the zero-padded texts
`YYYY-MM-DD HH:MM` and `YYYY-MM-DD`, and local time is UTC. -/

/-- Days from 1970-01-01 to the given date of the proleptic Gregorian calendar. -/
def daysFromCivil (y m d : Nat) : Int :=
  let y1 : Int := if m ≤ 2 then (y : Int) - 1 else (y : Int)
  let era : Int := (if 0 ≤ y1 then y1 else y1 - 399) / 400
  let yoe : Int := y1 - era * 400
  let mp : Int := if 2 < m then (m : Int) - 3 else (m : Int) + 9
  let doy : Int := (153 * mp + 2) / 5 + (d : Int) - 1
  let doe : Int := yoe * 365 + yoe / 4 - yoe / 100 + doy
  era * 146097 + doe - 719468

/-- The instant of `y-m-d hh:mm` in UTC, in seconds since the epoch. -/
def utcInstant (y m d hh mm : Nat) : Int :=
  daysFromCivil y m d * 86400 + (hh : Int) * 3600 + (mm : Int) * 60

/-- Year, month and day of the date that lies `z` days after 1970-01-01. -/
def civilFromDays (z : Nat) : Nat × Nat × Nat :=
  let z1 := z + 719468
  let era := z1 / 146097
  let doe := z1 - era * 146097
  let yoe := (doe - doe / 1460 + doe / 36524 - doe / 146096) / 365
  let doy := doe - (365 * yoe + yoe / 4 - yoe / 100)
  let mp := (5 * doy + 2) / 153
  let d := doy - (153 * mp + 2) / 5 + 1
  let m := if mp < 10 then mp + 3 else mp - 9
  (if m ≤ 2 then yoe + era * 400 + 1 else yoe + era * 400, m, d)

/-- A non-empty run of decimal digits as a number. -/
def readNat (cs : List Char) : Option Nat :=
  if cs ≠ [] ∧ cs.all Char.isDigit = true then
    some (cs.foldl (fun acc c => 10 * acc + (c.toNat - 48)) 0)
  else none

/-- The decimal digits of `n`, zero-padded to `width` characters (lowest `width` digits). -/
def padNat : Nat → Nat → List Char
  | 0, _ => []
  | width + 1, n => padNat width (n / 10) ++ [Char.ofNat (48 + n % 10)]

/-- Parse `YYYY-MM-DD` to the instant of that day at 00:00 UTC. -/
def parseDate (cs : List Char) : Option Int :=
  if cs.length = 10 ∧ cs.get? 4 = some '-' ∧ cs.get? 7 = some '-' then
    match readNat (cs.take 4), readNat ((cs.drop 5).take 2), readNat (cs.drop 8) with
    | some y, some m, some d =>
      if 1 ≤ m ∧ m ≤ 12 ∧ 1 ≤ d ∧ d ≤ 31 then some (utcInstant y m d 0 0) else none
    | _, _, _ => none
  else none

/-- Parse `HH:MM` to seconds since midnight. -/
def parseClock (cs : List Char) : Option Int :=
  if cs.length = 5 ∧ cs.get? 2 = some ':' then
    match readNat (cs.take 2), readNat (cs.drop 3) with
    | some h, some mi => if h ≤ 23 ∧ mi ≤ 59 then some ((h : Int) * 3600 + (mi : Int) * 60) else none
    | _, _ => none
  else none

/-- Parsing in the concrete library. -/
def utcParseTime (text format : String) : Option Int :=
  if format = "%Y-%m-%d %H:%M" then
    (if text.data.length = 16 ∧ text.data.get? 10 = some ' ' then
       match parseDate (text.data.take 10), parseClock (text.data.drop 11) with
       | some day, some secs => some (day + secs)
       | _, _ => none
     else none)
  else if format = "%Y-%m-%d" then parseDate text.data
  else none

/-- The text `YYYY-MM-DD` of an instant at or after the epoch. -/
def utcDateText (t : Int) : List Char :=
  let c := civilFromDays (t.toNat / 86400)
  padNat 4 c.1 ++ ['-'] ++ padNat 2 c.2.1 ++ ['-'] ++ padNat 2 c.2.2

/-- The text `HH:MM` of an instant at or after the epoch. -/
def utcClockText (t : Int) : List Char :=
  let secs := t.toNat % 86400
  padNat 2 (secs / 3600) ++ [':'] ++ padNat 2 (secs % 3600 / 60)

/-- Formatting in the concrete library. -/
def utcFormatTime (t : Int) (format : String) : String :=
  if format = "%Y-%m-%d" then String.mk (utcDateText t)
  else if format = "%H:%M" then String.mk (utcClockText t)
  else if format = "%Y-%m-%d %H:%M" then String.mk (utcDateText t ++ [' '] ++ utcClockText t)
  else ""

/-- The concrete library: UTC. -/
def utcLibC : LibC :=
  { parseTime := utcParseTime, formatTime := utcFormatTime, mktimeLocal := fun t => t }

/-! ## Sample data -/

/-- Event A of the overlap scenario: 2024-03-10 09:00 to 10:00, priority High, id 1. -/
def sampleA : Event :=
  (Event.ctor 1 "A" (utcInstant 2024 3 10 9 0) (utcInstant 2024 3 10 10 0) Color.RED
    Priority.HIGH "" "" [] false false "").1

/-- Event B of the overlap scenario: 2024-03-10 09:30 to 09:45, id 2. -/
def sampleB : Event :=
  (Event.ctor 2 "B" (utcInstant 2024 3 10 9 30) (utcInstant 2024 3 10 9 45) Color.GREEN
    Priority.MEDIUM "" "" [] false false "").1

/-- The arguments from which `sampleA` is constructed. -/
def argsA : EventArgs :=
  { title := "A", start := utcInstant 2024 3 10 9 0, end_ := utcInstant 2024 3 10 10 0,
    color := Color.RED, priority := Priority.HIGH, desc := "", loc := "", att := [],
    all_day := false, recurring := false, recur_pattern := "" }

/-- The arguments from which `sampleB` is constructed. -/
def argsB : EventArgs :=
  { title := "B", start := utcInstant 2024 3 10 9 30, end_ := utcInstant 2024 3 10 9 45,
    color := Color.GREEN, priority := Priority.MEDIUM, desc := "", loc := "", att := [],
    all_day := false, recurring := false, recur_pattern := "" }

/-- The state after A and B were created, in this order, from the initial state. -/
def sampleUI : CalendarUI :=
  runStoreOps insertionSortBy (CalendarUI.init 0) [StoreOp.create argsA, StoreOp.create argsB]

/-- US Eastern time in 2024 (`TZ=America/New_York`): UTC-5, and UTC-4 from 2024-03-10 02:00
EST (07:00 UTC) to 2024-11-03 02:00 EDT (06:00 UTC). -/
def easternZone2024 : DstZone :=
  { std_offset := -18000, saving := 3600, dst_begin := utcInstant 2024 3 10 7 0,
    dst_end := utcInstant 2024 11 3 6 0 }

/-- The lines typed to `editEvent` to move event 1 to 2024-03-12 09:00: the id, a blank
title, the new start, then a blank answer to every further prompt and to the final wait. -/
def moveStartInput : List String :=
  ["1", "", "2024-03-12 09:00", "", "", "", "", "", "", "", ""]

/-- An event on 2024-03-12, the third day of the agenda scenario, id 3. -/
def sampleDay3 : Event :=
  (Event.ctor 3 "C" (utcInstant 2024 3 12 16 0) (utcInstant 2024 3 12 17 0) Color.BLUE
    Priority.LOW "" "" [] false false "").1

/-- A store with A and B on 2024-03-10 and C on 2024-03-12. -/
def agendaCalendar : Calendar :=
  { events := [sampleA, sampleB, sampleDay3], name := "My Calendar", owner := "User" }

/-! ## Sequences of calls -/

/-- The store is in non-decreasing `start_time` order. -/
def SortedByStart (l : List Event) : Prop :=
  l.Pairwise (fun a b => a.start_time ≤ b.start_time)

instance (l : List Event) : Decidable (SortedByStart l) := by
  unfold SortedByStart; infer_instance

/-- One call on a `Calendar`. -/
inductive CalOp where
  | add (e : Event)
  | delete (id : Int)

/-- Perform one call. -/
def CalOp.apply (sort : (Event → Event → Bool) → List Event → List Event)
    (c : Calendar) : CalOp → Calendar
  | CalOp.add e => c.addEvent sort e
  | CalOp.delete id => (c.deleteEvent id).1

/-- Perform a sequence of calls, first to last. -/
def runOps (sort : (Event → Event → Bool) → List Event → List Event)
    (c : Calendar) (ops : List CalOp) : Calendar :=
  ops.foldl (CalOp.apply sort) c

/-- The ids held by the store are positive, below the counter `next_id`, and pairwise
distinct. -/
def IdsFresh (ui : CalendarUI) : Prop :=
  (∀ e ∈ ui.calendar.events, 1 ≤ e.id ∧ e.id < ui.next_id) ∧
  (ui.calendar.events.map Event.id).Nodup

/-! ## Lemmas on the sorting contract -/

theorem pairwise_comp_iff (l : List Event) :
    l.Pairwise (fun a b => byStartTime b a = false) ↔ SortedByStart l := by
  unfold SortedByStart
  constructor <;> intro h <;> refine h.imp ?_ <;> intro a b hab <;>
    simpa [byStartTime] using hab

theorem insertByComp_perm (comp : Event → Event → Bool) (x : Event) :
    ∀ l : List Event, (insertByComp comp x l).Perm (x :: l)
  | [] => by simp [insertByComp]
  | y :: ys => by
    unfold insertByComp
    split
    · exact List.Perm.refl _
    · exact ((insertByComp_perm comp x ys).cons y).trans (List.Perm.swap x y ys)

theorem insertByComp_sorted (x : Event) :
    ∀ l : List Event, SortedByStart l → SortedByStart (insertByComp byStartTime x l)
  | [], _ => by simp [insertByComp, SortedByStart]
  | y :: ys, h => by
    have hy : ∀ b ∈ ys, y.start_time ≤ b.start_time := (List.pairwise_cons.mp h).1
    have hys : SortedByStart ys := (List.pairwise_cons.mp h).2
    unfold insertByComp
    split
    · rename_i hlt
      have hxy : x.start_time < y.start_time := by simpa [byStartTime] using hlt
      refine List.pairwise_cons.mpr ⟨?_, h⟩
      intro b hb
      rcases List.mem_cons.mp hb with rfl | hb
      · exact le_of_lt hxy
      · exact le_trans (le_of_lt hxy) (hy b hb)
    · rename_i hlt
      have hyx : y.start_time ≤ x.start_time := by simpa [byStartTime] using hlt
      refine List.pairwise_cons.mpr ⟨?_, insertByComp_sorted x ys hys⟩
      intro b hb
      rcases List.mem_cons.mp ((insertByComp_perm byStartTime x ys).mem_iff.mp hb) with rfl | hb
      · exact hyx
      · exact hy b hb

theorem foldl_insert_perm (comp : Event → Event → Bool) :
    ∀ (l acc : List Event),
      (l.foldl (fun acc x => insertByComp comp x acc) acc).Perm (acc ++ l)
  | [], acc => by simp
  | x :: xs, acc => by
    simp only [List.foldl_cons]
    refine (foldl_insert_perm comp xs (insertByComp comp x acc)).trans ?_
    refine ((insertByComp_perm comp x acc).append_right xs).trans ?_
    exact (@List.perm_middle _ x acc xs).symm

theorem foldl_insert_sorted :
    ∀ (l acc : List Event), SortedByStart acc →
      SortedByStart (l.foldl (fun acc x => insertByComp byStartTime x acc) acc)
  | [], _, h => by simpa using h
  | x :: xs, acc, h => by
    simp only [List.foldl_cons]
    exact foldl_insert_sorted xs _ (insertByComp_sorted x acc h)

theorem insertionSortBy_contract : StdSortContract insertionSortBy := by
  intro l
  refine ⟨?_, (pairwise_comp_iff _).mpr ?_⟩
  · simpa [insertionSortBy] using foldl_insert_perm byStartTime l []
  · exact foldl_insert_sorted l [] List.Pairwise.nil

/-! ## Lemmas on the model of the library sort: the bounds on the loops are never used up -/

theorem lgLoop_eq_log2 : ∀ fuel n : Nat, n ≤ fuel → lgLoop fuel n = Nat.log2 n
  | 0, n, h => by
    have hn : n = 0 := by omega
    subst hn
    rw [Nat.log2]
    simp [lgLoop]
  | fuel + 1, n, h => by
    rw [Nat.log2]
    unfold lgLoop
    by_cases h1 : n ≤ 1
    · have h2 : ¬ n ≥ 2 := by omega
      rw [if_pos h1, if_neg h2]
    · have h2 : n ≥ 2 := by omega
      rw [if_neg h1, if_pos h2, lgLoop_eq_log2 fuel (n / 2) (by omega)]

theorem lg_eq_log2 (n : Nat) : lg n = Nat.log2 n := lgLoop_eq_log2 n n (le_refl n)

theorem pushHeap_fuel {α : Type} (comp : α → α → Bool) (first topIndex : Nat) (value : α) :
    ∀ (fuel : Nat) (l : List α) (holeIndex : Nat), holeIndex ≤ fuel →
      pushHeap comp first topIndex value (fuel + 1) l holeIndex =
        pushHeap comp first topIndex value fuel l holeIndex
  | 0, l, holeIndex, h => by
    have h0 : holeIndex = 0 := by omega
    subst h0
    simp only [pushHeap]
    split
    · rw [if_neg (by omega)]
    · rfl
  | fuel + 1, l, holeIndex, h => by
    rw [pushHeap]
    conv_rhs => rw [pushHeap]
    split
    · split_ifs with hc
      · exact pushHeap_fuel comp first topIndex value fuel _ _ (by omega)
      · rfl
    · rfl

theorem adjustHeapLoop_fuel {α : Type} (comp : α → α → Bool) (first len : Nat) :
    ∀ (fuel : Nat) (l : List α) (hole : Nat), len ≤ hole + fuel →
      adjustHeapLoop comp first len (fuel + 1) l hole =
        adjustHeapLoop comp first len fuel l hole
  | 0, l, hole, h => by
    have hc : ¬ hole < (len - 1) / 2 := by omega
    simp [adjustHeapLoop, hc]
  | fuel + 1, l, hole, h => by
    rw [adjustHeapLoop]
    conv_rhs => rw [adjustHeapLoop]
    by_cases hc : hole < (len - 1) / 2
    · rw [if_pos hc, if_pos hc]
      dsimp only
      split
      · apply adjustHeapLoop_fuel comp first len fuel
        split_ifs <;> omega
      · rfl
    · rw [if_neg hc, if_neg hc]

/-! ## The model of the library sort meets the contract of `std::sort`

Every function of the model permutes the vector, and the final insertion sort leaves it sorted
whatever the partitioning loop did before: in the model the insertion loops stop at `begin()`. -/

theorem set_cons_perm {α : Type} (a y : α) :
    ∀ (t : List α) (j : Nat), t[j]? = some y → (y :: t.set j a).Perm (a :: t)
  | [], j, h => by simp at h
  | b :: t, 0, h => by
    simp only [List.getElem?_cons_zero, Option.some.injEq] at h
    subst h
    exact List.Perm.swap _ _ _
  | b :: t, j + 1, h => by
    simp only [List.getElem?_cons_succ] at h
    simp only [List.set_cons_succ]
    exact (List.Perm.swap _ _ _).trans
      (((set_cons_perm a y t j h).cons b).trans (List.Perm.swap _ _ _))

theorem set_set_perm {α : Type} :
    ∀ (m : List α) (i j : Nat) (x y : α), m[i]? = some x → m[j]? = some y →
      ((m.set i y).set j x).Perm m
  | [], i, j, x, y, hi, hj => by simp at hi
  | a :: t, 0, 0, x, y, hi, hj => by
    simp only [List.getElem?_cons_zero, Option.some.injEq] at hi hj
    subst hi
    simp
  | a :: t, 0, j + 1, x, y, hi, hj => by
    simp only [List.getElem?_cons_zero, Option.some.injEq] at hi
    simp only [List.getElem?_cons_succ] at hj
    subst hi
    simp only [List.set_cons_zero, List.set_cons_succ]
    exact set_cons_perm a y t j hj
  | a :: t, i + 1, 0, x, y, hi, hj => by
    simp only [List.getElem?_cons_zero, Option.some.injEq] at hj
    simp only [List.getElem?_cons_succ] at hi
    subst hj
    simp only [List.set_cons_zero, List.set_cons_succ]
    exact set_cons_perm a x t i hi
  | a :: t, i + 1, j + 1, x, y, hi, hj => by
    simp only [List.getElem?_cons_succ] at hi hj
    simp only [List.set_cons_succ]
    exact (set_set_perm t i j x y hi hj).cons a

theorem iterSwap_perm {α : Type} (l : List α) (i j : Nat) : (iterSwap l i j).Perm l := by
  unfold iterSwap
  split
  · next x y hx hy => exact set_set_perm l i j x y hx hy
  · exact List.Perm.refl _

theorem iterSwap_length {α : Type} (l : List α) (i j : Nat) :
    (iterSwap l i j).length = l.length := (iterSwap_perm l i j).length_eq

theorem moveMedianToFirst_perm {α : Type} (comp : α → α → Bool) (l : List α)
    (result a b c : Nat) : (moveMedianToFirst comp l result a b c).Perm l := by
  unfold moveMedianToFirst
  split_ifs <;> exact iterSwap_perm _ _ _

theorem partitionDown_perm {α : Type} (comp : α → α → Bool) (pivot : Nat) :
    ∀ (last : Nat) (l : List α) (first : Nat), (partitionDown comp pivot last l first).1.Perm l
  | 0, l, first => List.Perm.refl _
  | last + 1, l, first => by
    rw [partitionDown]
    split_ifs
    · exact partitionDown_perm comp pivot last l first
    · exact (partitionDown_perm comp pivot last _ _).trans (iterSwap_perm _ _ _)
    · exact List.Perm.refl _

theorem unguardedPartitionPivot_perm {α : Type} (comp : α → α → Bool) (l : List α)
    (first last : Nat) : (unguardedPartitionPivot comp l first last).1.Perm l := by
  unfold unguardedPartitionPivot unguardedPartition
  exact (partitionDown_perm comp _ _ _ _).trans (moveMedianToFirst_perm _ _ _ _ _ _)

theorem set_same {α : Type} :
    ∀ (l : List α) (i : Nat) (v : α), l[i]? = some v → l.set i v = l
  | [], _, _, h => by simp at h
  | a :: t, 0, v, h => by
    simp only [List.getElem?_cons_zero, Option.some.injEq] at h
    subst h
    rfl
  | a :: t, i + 1, v, h => by
    simp only [List.getElem?_cons_succ] at h
    simp only [List.set_cons_succ, set_same t i v h]

theorem set_move_perm {α : Type} (l : List α) (i j : Nat) (value p : α) (hi : i < l.length)
    (hj : l[j]? = some p) (hne : i ≠ j) :
    ((l.set i p).set j value).Perm (l.set i value) := by
  have h := set_set_perm (l.set i value) i j value p
    (by rw [List.getElem?_set_self hi])
    (by rw [List.getElem?_set_ne hne]; exact hj)
  rw [List.set_set] at h
  exact h

theorem pushHeap_perm {α : Type} (comp : α → α → Bool) (first topIndex : Nat) (value : α) :
    ∀ (fuel : Nat) (l : List α) (holeIndex : Nat), first + holeIndex < l.length →
      (pushHeap comp first topIndex value fuel l holeIndex).Perm
        (l.set (first + holeIndex) value)
  | 0, l, holeIndex, _ => List.Perm.refl _
  | fuel + 1, l, holeIndex, h => by
    rw [pushHeap]
    split
    · next p hp =>
      split_ifs with hc
      · have hpar : (holeIndex - 1) / 2 < holeIndex := by omega
        refine (pushHeap_perm comp first topIndex value fuel _ _
          (by rw [List.length_set]; omega)).trans ?_
        exact set_move_perm l _ _ value p h hp (by omega)
      · exact List.Perm.refl _
    · exact List.Perm.refl _

theorem adjustHeapLoop_perm {α : Type} (comp : α → α → Bool) (first len : Nat) (value : α) :
    ∀ (fuel : Nat) (l : List α) (hole : Nat), first + hole < l.length →
      ((adjustHeapLoop comp first len fuel l hole).1.set
          (first + (adjustHeapLoop comp first len fuel l hole).2) value).Perm
        (l.set (first + hole) value) ∧
      first + (adjustHeapLoop comp first len fuel l hole).2 <
        (adjustHeapLoop comp first len fuel l hole).1.length
  | 0, l, hole, h => ⟨List.Perm.refl _, h⟩
  | fuel + 1, l, hole, h => by
    rw [adjustHeapLoop]
    split_ifs with hc
    · dsimp only
      split
      · next x hx =>
        have hlt : first + (if compAt comp l (first + 2 * (hole + 1))
            (first + (2 * (hole + 1) - 1)) = true then 2 * (hole + 1) - 1
            else 2 * (hole + 1)) < l.length := by
          by_contra hcon
          rw [List.getElem?_eq_none (by omega)] at hx
          exact Option.noConfusion hx
        have ih := adjustHeapLoop_perm comp first len value fuel (l.set (first + hole) x) _
          (by rw [List.length_set]; exact hlt)
        refine ⟨ih.1.trans ?_, ih.2⟩
        exact set_move_perm l _ _ value x h hx (by split_ifs <;> omega)
      · exact ⟨List.Perm.refl _, h⟩
    · exact ⟨List.Perm.refl _, h⟩

theorem adjustHeap_perm {α : Type} (comp : α → α → Bool) (l : List α)
    (first holeIndex len : Nat) (value : α) (h : first + holeIndex < l.length) :
    (adjustHeap comp l first holeIndex len value).Perm (l.set (first + holeIndex) value) := by
  have hloop := adjustHeapLoop_perm comp first len value len l holeIndex h
  unfold adjustHeap
  dsimp only
  split_ifs with hc
  · split
    · next x hx =>
      dsimp only
      have hlt : first + (2 * ((adjustHeapLoop comp first len len l holeIndex).2 + 1) - 1) <
          (adjustHeapLoop comp first len len l holeIndex).1.length := by
        by_contra hcon
        rw [List.getElem?_eq_none (by omega)] at hx
        exact Option.noConfusion hx
      refine (pushHeap_perm comp first holeIndex value _ _ _
        (by rw [List.length_set]; exact hlt)).trans ?_
      refine (set_move_perm _ _ _ value x hloop.2 hx (by omega)).trans hloop.1
    · exact (pushHeap_perm comp first holeIndex value _ _ _ hloop.2).trans hloop.1
  · exact (pushHeap_perm comp first holeIndex value _ _ _ hloop.2).trans hloop.1

theorem popHeap_perm {α : Type} (comp : α → α → Bool) (l : List α) (first last result : Nat) :
    (popHeap comp l first last result).Perm l := by
  unfold popHeap
  split
  · next value top hv ht =>
    have hf : first < l.length := by
      by_contra hcon
      rw [List.getElem?_eq_none (by omega)] at ht
      exact Option.noConfusion ht
    refine (adjustHeap_perm comp _ first 0 _ value
      (by rw [List.length_set]; simpa using hf)).trans ?_
    simp only [Nat.add_zero]
    exact set_set_perm l result first value top hv ht
  · exact List.Perm.refl _

theorem makeHeap_perm {α : Type} (comp : α → α → Bool) (l : List α) (first last : Nat) :
    (makeHeap comp l first last).Perm l := by
  unfold makeHeap
  split_ifs
  · exact List.Perm.refl _
  · generalize (List.range ((last - first - 2) / 2 + 1)).reverse = ps
    induction ps generalizing l with
    | nil => exact List.Perm.refl _
    | cons p ps ih =>
      rw [List.foldl_cons]
      refine (ih _).trans ?_
      split
      · next value hv =>
        have hlt : first + p < l.length := by
          by_contra hcon
          rw [List.getElem?_eq_none (by omega)] at hv
          exact Option.noConfusion hv
        refine (adjustHeap_perm comp l first p _ value hlt).trans ?_
        rw [set_same l _ value hv]
      · exact List.Perm.refl _

theorem sortHeap_perm {α : Type} (comp : α → α → Bool) (l : List α) (first last : Nat) :
    (sortHeap comp l first last).Perm l := by
  unfold sortHeap
  generalize (List.range' (first + 1) (last - first - 1)).reverse = ks
  induction ks generalizing l with
  | nil => exact List.Perm.refl _
  | cons k ks ih =>
    rw [List.foldl_cons]
    exact (ih _).trans (popHeap_perm comp l first k k)

theorem partialSort_perm {α : Type} (comp : α → α → Bool) (l : List α) (first last : Nat) :
    (partialSort comp l first last).Perm l :=
  (sortHeap_perm comp _ first last).trans (makeHeap_perm comp l first last)

theorem introsortLoop_perm {α : Type} (comp : α → α → Bool) :
    ∀ (depth_limit : Nat) (l : List α) (first last : Nat),
      (introsortLoop comp depth_limit l first last).Perm l
  | 0, l, first, last => by
    rw [introsortLoop]
    split_ifs
    · exact partialSort_perm comp l first last
    · exact List.Perm.refl _
  | depth_limit + 1, l, first, last => by
    rw [introsortLoop]
    split_ifs
    · dsimp only
      exact (introsortLoop_perm comp depth_limit _ _ _).trans
        ((introsortLoop_perm comp depth_limit _ _ _).trans
          (unguardedPartitionPivot_perm comp l first last))
    · exact List.Perm.refl _

theorem insertFromRight_perm {α : Type} (comp : α → α → Bool) (val : α) :
    ∀ pre : List α, (insertFromRight comp val pre).Perm (val :: pre)
  | [] => List.Perm.refl _
  | x :: pre => by
    unfold insertFromRight
    split_ifs
    · exact ((insertFromRight_perm comp val pre).cons x).trans (List.Perm.swap _ _ _)
    · exact List.Perm.refl _

theorem unguardedLinearInsert_eq {α : Type} (comp : α → α → Bool) (val : α) :
    ∀ (pre : List α) (h : α) (post : List α),
      unguardedLinearInsert comp val (pre.reverse ++ h :: post) pre.length =
        (insertFromRight comp val pre).reverse ++ post
  | [], h, post => by
    simp [unguardedLinearInsert, insertFromRight]
  | x :: pre, h, post => by
    have hlen : (x :: pre).length = pre.length + 1 := rfl
    rw [hlen, unguardedLinearInsert]
    have hx : ((x :: pre).reverse ++ h :: post)[pre.length]? = some x := by
      have e : (x :: pre).reverse ++ h :: post = pre.reverse ++ x :: h :: post := by simp
      rw [e, List.getElem?_append_right (by simp)]
      simp
    rw [hx]
    dsimp only
    have hset : ∀ v : α, ((x :: pre).reverse ++ h :: post).set (pre.length + 1) v =
        pre.reverse ++ x :: v :: post := by
      intro v
      simp [List.set_append]
    rw [hset, hset]
    unfold insertFromRight
    split_ifs
    · rw [unguardedLinearInsert_eq comp val pre x (x :: post)]
      simp
    · simp

theorem insertFromRight_sorted {α : Type} (comp : α → α → Bool)
    (hasym : ∀ a b, comp a b = true → comp b a = false)
    (htrans : ∀ a b c, comp b a = false → comp c b = false → comp c a = false) (val : α) :
    ∀ pre : List α, pre.Pairwise (fun a b => comp a b = false) →
      (insertFromRight comp val pre).Pairwise (fun a b => comp a b = false)
  | [], _ => by simp [insertFromRight]
  | x :: pre, hs => by
    unfold insertFromRight
    have hs' := List.pairwise_cons.mp hs
    split_ifs with hc
    · refine List.pairwise_cons.mpr ⟨?_, insertFromRight_sorted comp hasym htrans val pre hs'.2⟩
      intro b hb
      rcases List.mem_cons.mp ((insertFromRight_perm comp val pre).mem_iff.mp hb) with hb | hb
      · rw [hb]; exact hasym _ _ hc
      · exact hs'.1 b hb
    · have hc' : comp val x = false := by simpa using hc
      refine List.pairwise_cons.mpr ⟨?_, hs⟩
      intro b hb
      rcases List.mem_cons.mp hb with hb | hb
      · rw [hb]; exact hc'
      · exact htrans b x val (hs'.1 b hb) hc'

theorem insertionSortStep_spec {α : Type} (comp : α → α → Bool)
    (hasym : ∀ a b, comp a b = true → comp b a = false)
    (htrans : ∀ a b c, comp b a = false → comp c b = false → comp c a = false)
    (A : List α) (h : α) (post : List α) (hA : A ≠ []) :
    ∃ A', insertionSortStep comp (A ++ h :: post) A.length = A' ++ post ∧
      A'.Perm (A ++ [h]) ∧
      (A.Pairwise (fun a b => comp b a = false) → A'.Pairwise (fun a b => comp b a = false)) := by
  cases A with
  | nil => exact absurd rfl hA
  | cons front A0 =>
    have hi : ((front :: A0) ++ h :: post)[(front :: A0).length]? = some h := by
      rw [List.getElem?_append_right (le_refl _)]
      simp
    have h0 : ((front :: A0) ++ h :: post)[0]? = some front := by simp
    unfold insertionSortStep
    rw [hi, h0]
    dsimp only
    split_ifs with hc
    · refine ⟨h :: front :: A0, ?_, ?_, ?_⟩
      · rw [List.eraseIdx_append_of_length_le (le_refl _)]
        simp
      · exact (List.perm_append_singleton h (front :: A0)).symm
      · intro hs
        refine List.pairwise_cons.mpr ⟨?_, hs⟩
        intro b hb
        have hfb : comp b front = false := by
          rcases List.mem_cons.mp hb with hb | hb
          · rw [hb]
            cases hff : comp front front with
            | false => rfl
            | true => rw [hasym _ _ hff] at hff; exact Bool.noConfusion hff
          · exact (List.pairwise_cons.mp hs).1 b hb
        exact htrans h front b (hasym _ _ hc) hfb
    · refine ⟨(insertFromRight comp h (front :: A0).reverse).reverse, ?_, ?_, ?_⟩
      · have e := unguardedLinearInsert_eq comp h (front :: A0).reverse h post
        rw [List.reverse_reverse, List.length_reverse] at e
        exact e
      · refine (List.reverse_perm _).trans ((insertFromRight_perm comp h _).trans ?_)
        exact ((List.reverse_perm _).cons h).trans (List.perm_append_singleton h _).symm
      · intro hs
        rw [List.pairwise_reverse]
        refine insertFromRight_sorted comp hasym htrans h _ ?_
        rw [List.pairwise_reverse]
        exact hs

theorem unguardedStep_spec {α : Type} (comp : α → α → Bool)
    (hasym : ∀ a b, comp a b = true → comp b a = false)
    (htrans : ∀ a b c, comp b a = false → comp c b = false → comp c a = false)
    (A : List α) (h : α) (post : List α) :
    ∃ A', (match (A ++ h :: post)[A.length]? with
        | some val => unguardedLinearInsert comp val (A ++ h :: post) A.length
        | none => A ++ h :: post) = A' ++ post ∧
      A'.Perm (A ++ [h]) ∧
      (A.Pairwise (fun a b => comp b a = false) → A'.Pairwise (fun a b => comp b a = false)) := by
  have hi : (A ++ h :: post)[A.length]? = some h := by
    rw [List.getElem?_append_right (le_refl _)]
    simp
  rw [hi]
  dsimp only
  refine ⟨(insertFromRight comp h A.reverse).reverse, ?_, ?_, ?_⟩
  · have e := unguardedLinearInsert_eq comp h A.reverse h post
    rw [List.reverse_reverse, List.length_reverse] at e
    exact e
  · refine (List.reverse_perm _).trans ((insertFromRight_perm comp h _).trans ?_)
    exact ((List.reverse_perm _).cons h).trans (List.perm_append_singleton h _).symm
  · intro hs
    rw [List.pairwise_reverse]
    refine insertFromRight_sorted comp hasym htrans h _ ?_
    rw [List.pairwise_reverse]
    exact hs

theorem foldl_insert_steps {α : Type} (comp : α → α → Bool) (f : List α → Nat → List α)
    (hf : ∀ (A : List α) (h : α) (post : List α), A ≠ [] →
      ∃ A', f (A ++ h :: post) A.length = A' ++ post ∧ A'.Perm (A ++ [h]) ∧
        (A.Pairwise (fun a b => comp b a = false) →
          A'.Pairwise (fun a b => comp b a = false))) :
    ∀ (k : Nat) (rest A : List α), A ≠ [] → k ≤ rest.length →
      ∃ A', (List.range' A.length k).foldl f (A ++ rest) = A' ++ rest.drop k ∧
        A'.Perm (A ++ rest.take k) ∧
        (A.Pairwise (fun a b => comp b a = false) →
          A'.Pairwise (fun a b => comp b a = false))
  | 0, rest, A, _, _ => ⟨A, by simp, by simp, fun h => h⟩
  | k + 1, [], A, _, hk => by simp at hk
  | k + 1, h :: post, A, hA, hk => by
    obtain ⟨A1, e1, p1, s1⟩ := hf A h post hA
    have hA1 : A1 ≠ [] := by
      intro hnil
      rw [hnil] at p1
      have := p1.length_eq
      simp at this
    have hlen : A1.length = A.length + 1 := by
      have := p1.length_eq
      simpa using this
    obtain ⟨A2, e2, p2, s2⟩ := foldl_insert_steps comp f hf k post A1 hA1
      (by simpa using hk)
    refine ⟨A2, ?_, ?_, fun hs => s2 (s1 hs)⟩
    · rw [List.range'_succ, List.foldl_cons, e1, ← hlen]
      simpa using e2
    · refine p2.trans ?_
      simp only [List.take_succ_cons]
      exact (List.Perm.append_right _ p1).trans (by simp)

theorem finalInsertionSort_spec {α : Type} (comp : α → α → Bool)
    (hasym : ∀ a b, comp a b = true → comp b a = false)
    (htrans : ∀ a b c, comp b a = false → comp c b = false → comp c a = false)
    (l : List α) :
    (finalInsertionSort comp l).Perm l ∧
    (finalInsertionSort comp l).Pairwise (fun a b => comp b a = false) := by
  cases l with
  | nil => simp [finalInsertionSort, insertionSort]
  | cons a rest =>
    have hstep := insertionSortStep_spec comp hasym htrans
    have hsingle : [a].Pairwise (fun x y => comp y x = false) := List.pairwise_singleton _ _
    unfold finalInsertionSort
    split_ifs with hlen
    · have hlen' : 15 ≤ rest.length := by
        simp only [List.length_cons] at hlen
        omega
      obtain ⟨A1, e1, p1, s1⟩ := foldl_insert_steps comp (insertionSortStep comp) hstep 15 rest
        [a] (by simp) hlen'
      have e1' : insertionSort comp (a :: rest) 16 = A1 ++ rest.drop 15 := e1
      have hA1len : A1.length = 16 := by
        have := p1.length_eq
        simp only [List.length_append, List.length_singleton, List.length_take] at this
        omega
      have hA1 : A1 ≠ [] := by
        intro hnil
        rw [hnil] at hA1len
        simp at hA1len
      obtain ⟨A2, e2, p2, s2⟩ := foldl_insert_steps comp
        (fun (acc : List α) (i : Nat) =>
          match acc[i]? with
          | some val => unguardedLinearInsert comp val acc i
          | none => acc)
        (fun A h post _ => unguardedStep_spec comp hasym htrans A h post)
        (rest.drop 15).length (rest.drop 15) A1 hA1 (le_refl _)
      have hcount : (a :: rest).length - 16 = (rest.drop 15).length := by
        simp only [List.length_cons, List.length_drop]
        omega
      have e2' : unguardedInsertionSort comp (A1 ++ rest.drop 15) 16 (a :: rest).length =
          A2 := by
        unfold unguardedInsertionSort
        rw [hcount, ← hA1len]
        exact e2.trans (by rw [List.drop_of_length_le (le_refl _), List.append_nil])
      rw [e1', e2']
      refine ⟨?_, s2 (s1 hsingle)⟩
      refine p2.trans ?_
      rw [List.take_of_length_le (le_refl _)]
      refine (List.Perm.append_right _ p1).trans ?_
      simp
    · obtain ⟨A1, e1, p1, s1⟩ := foldl_insert_steps comp (insertionSortStep comp) hstep
        rest.length rest [a] (by simp) (le_refl _)
      have e1' : insertionSort comp (a :: rest) (a :: rest).length = A1 := by
        have : (a :: rest).length - 1 = rest.length := by simp
        unfold insertionSort
        rw [this]
        simpa using e1
      rw [e1']
      refine ⟨?_, s1 hsingle⟩
      simpa using p1

theorem libstdcxxSort_spec {α : Type} (comp : α → α → Bool)
    (hasym : ∀ a b, comp a b = true → comp b a = false)
    (htrans : ∀ a b c, comp b a = false → comp c b = false → comp c a = false)
    (l : List α) :
    (libstdcxxSort comp l).Perm l ∧
    (libstdcxxSort comp l).Pairwise (fun a b => comp b a = false) := by
  unfold libstdcxxSort
  split_ifs with h0
  · have : l = [] := List.length_eq_zero.mp h0
    subst this
    exact ⟨List.Perm.refl _, List.Pairwise.nil⟩
  · have hf := finalInsertionSort_spec comp hasym htrans
      (introsortLoop comp (lg l.length * 2) l 0 l.length)
    exact ⟨hf.1.trans (introsortLoop_perm comp _ l 0 l.length), hf.2⟩

theorem libstdcxxSort_contract : StdSortContract libstdcxxSort := by
  intro l
  refine libstdcxxSort_spec byStartTime ?_ ?_ l
  · intro a b h
    simp only [byStartTime, decide_eq_true_eq, decide_eq_false_iff_not] at h ⊢
    omega
  · intro a b c h1 h2
    simp only [byStartTime, decide_eq_false_iff_not] at h1 h2 ⊢
    omega

/-! ## Lemmas on the Calendar methods -/

theorem addEvent_events_perm (sort : (Event → Event → Bool) → List Event → List Event)
    (hs : StdSortContract sort) (c : Calendar) (e : Event) :
    (c.addEvent sort e).events.Perm (c.events ++ [e]) :=
  (hs (c.events ++ [e])).1

theorem addEvent_events_sorted (sort : (Event → Event → Bool) → List Event → List Event)
    (hs : StdSortContract sort) (c : Calendar) (e : Event) :
    SortedByStart (c.addEvent sort e).events :=
  (pairwise_comp_iff _).mp (hs (c.events ++ [e])).2

theorem deleteEvent_events (c : Calendar) (id : Int) :
    (c.deleteEvent id).1.events = c.events.filter (fun e => !(decide (e.id = id))) := by
  unfold Calendar.deleteEvent
  dsimp only
  split_ifs with h
  · rfl
  · simp only [ne_eq, not_not] at h
    exact (List.filter_eq_self.mpr (List.filter_length_eq_length.mp h)).symm

theorem deleteEvent_events_sorted (c : Calendar) (id : Int) (h : SortedByStart c.events) :
    SortedByStart (c.deleteEvent id).1.events := by
  rw [deleteEvent_events]
  exact List.Pairwise.filter _ h

theorem findEventIn_eq_none (id : Int) :
    ∀ l : List Event, (∀ e ∈ l, e.id ≠ id) → findEventIn id l = none
  | [], _ => rfl
  | e :: es, h => by
    have he : e.id ≠ id := h e (List.mem_cons_self e es)
    simp only [findEventIn, he, if_false]
    exact findEventIn_eq_none id es (fun x hx => h x (List.mem_cons_of_mem e hx))

theorem findEventIn_eq_some (ev : Event) :
    ∀ l : List Event, ev ∈ l → (∀ x ∈ l, x.id = ev.id → x = ev) →
      findEventIn ev.id l = some ev
  | [], h, _ => by cases h
  | e :: es, h, hu => by
    unfold findEventIn
    split_ifs with he
    · rw [hu e (List.mem_cons_self e es) he]
    · have hne : ev ≠ e := fun hh => he (by rw [hh])
      have hmem : ev ∈ es := by
        rcases List.mem_cons.mp h with h1 | h1
        · exact absurd h1 hne
        · exact h1
      exact findEventIn_eq_some ev es hmem (fun x hx => hu x (List.mem_cons_of_mem e hx))

theorem getEventsBetween_loop (start end_ : Int) :
    ∀ (l acc : List Event),
      l.foldl (fun result e => if e.isBetween start end_ then result ++ [e] else result) acc =
        acc ++ l.filter (fun e => e.isBetween start end_)
  | [], acc => by simp
  | e :: es, acc => by
    simp only [List.foldl_cons, List.filter_cons]
    split_ifs with h
    · rw [getEventsBetween_loop start end_ es (acc ++ [e])]; simp
    · rw [getEventsBetween_loop start end_ es acc]

theorem runOps_sorted (sort : (Event → Event → Bool) → List Event → List Event)
    (hs : StdSortContract sort) :
    ∀ (ops : List CalOp) (c : Calendar), SortedByStart c.events →
      SortedByStart (runOps sort c ops).events
  | [], _, h => h
  | op :: ops, c, h => by
    have hstep : SortedByStart (CalOp.apply sort c op).events := by
      cases op with
      | add e => exact addEvent_events_sorted sort hs c e
      | delete id => exact deleteEvent_events_sorted c id h
    exact runOps_sorted sort hs ops _ hstep

theorem sorted_perm_pair (a b : Event) (hab : a.start_time < b.start_time) (l : List Event)
    (hp : l.Perm [a, b]) (hsrt : SortedByStart l) : l = [a, b] := by
  have hlen : l.length = 2 := hp.length_eq
  match l, hlen with
  | [x, y], _ =>
    have hx : x ∈ [a, b] := hp.mem_iff.mp (by simp)
    have hy : y ∈ [a, b] := hp.mem_iff.mp (by simp)
    have hxy : x.start_time ≤ y.start_time := by
      have := List.pairwise_cons.mp hsrt
      exact this.1 y (by simp)
    have ha : a ∈ [x, y] := hp.mem_iff.mpr (by simp)
    have hb : b ∈ [x, y] := hp.mem_iff.mpr (by simp)
    simp only [List.mem_cons, List.mem_singleton, List.not_mem_nil, or_false] at hx hy ha hb
    rcases hx with rfl | rfl <;> rcases hy with rfl | rfl
    · rcases hb with rfl | rfl <;> exact absurd hab (lt_irrefl _)
    · rfl
    · exact absurd hab (not_lt.mpr hxy)
    · rcases ha with rfl | rfl <;> exact absurd hab (lt_irrefl _)

set_option maxRecDepth 100000

/-! ## Claims -/

/-- C1: sortedness is an invariant of `Calendar::addEvent` and `Calendar::deleteEvent`.  For
every `std::sort` meeting its contract and every finite sequence of `addEvent` and
`deleteEvent` calls on an initially empty `Calendar`, the events vector is in non-decreasing
`start_time` order after each call, that is after every prefix of the sequence. -/
theorem sortedness_invariant (sort : (Event → Event → Bool) → List Event → List Event)
    (hs : StdSortContract sort) (name owner : String) (ops : List CalOp) (k : Nat) :
    SortedByStart (runOps sort (Calendar.empty name owner) (ops.take k)).events :=
  runOps_sorted sort hs (ops.take k) (Calendar.empty name owner) List.Pairwise.nil

/-- Witness of C1: three calls run with insertion sort; the store after the second one. -/
theorem sortedness_invariant_witness :
    StdSortContract insertionSortBy ∧
    SortedByStart (runOps insertionSortBy (Calendar.empty "My Calendar" "User")
      ([CalOp.add sampleB, CalOp.add sampleA, CalOp.delete 2].take 2)).events :=
  ⟨insertionSortBy_contract,
   sortedness_invariant insertionSortBy insertionSortBy_contract "My Calendar" "User"
     [CalOp.add sampleB, CalOp.add sampleA, CalOp.delete 2] 2⟩

/-- C3: `deleteEvent(id)` leaves the store equal to the previous event sequence with exactly
the events of that id removed, the others in their previous relative order; it returns true iff
at least one event was removed; `findEvent(id)` afterwards is not-found; and for an id that is
not in the store it returns false and leaves the collection unchanged. -/
theorem deleteEvent_spec (c : Calendar) (id : Int) :
    (c.deleteEvent id).1.events = c.events.filter (fun e => decide (e.id ≠ id)) ∧
    (c.deleteEvent id).1.events.Sublist c.events ∧
    ((c.deleteEvent id).2 = true ↔ ∃ e ∈ c.events, e.id = id) ∧
    ((c.deleteEvent id).2 = true ↔ (c.deleteEvent id).1.events.length < c.events.length) ∧
    (c.deleteEvent id).1.findEvent id = none ∧
    ((∀ e ∈ c.events, e.id ≠ id) → (c.deleteEvent id).2 = false ∧ c.deleteEvent id = (c, false))
    := by
  have hev := deleteEvent_events c id
  have hret : (c.deleteEvent id).2 = true ↔ ∃ e ∈ c.events, e.id = id := by
    unfold Calendar.deleteEvent
    dsimp only
    split_ifs with h
    · simp only [true_iff]
      by_contra hcon
      push_neg at hcon
      exact h (List.filter_length_eq_length.mpr (fun a ha => by simpa using hcon a ha))
    · simp only [ne_eq, not_not] at h
      have := List.filter_length_eq_length.mp h
      simp only [Bool.false_eq_true, false_iff, not_exists, not_and]
      intro e he
      simpa using this e he
  refine ⟨?_, ?_, hret, ?_, ?_, ?_⟩
  · rw [hev]; congr 1; funext e; simp
  · rw [hev]; exact List.filter_sublist _
  · rw [hret, hev, List.length_filter_lt_length_iff_exists]
    simp
  · unfold Calendar.findEvent
    rw [hev]
    refine findEventIn_eq_none id _ ?_
    intro e he
    simpa using (List.mem_filter.mp he).2
  · intro hno
    have hfalse : (c.deleteEvent id).2 = false := by
      cases hb : (c.deleteEvent id).2
      · rfl
      · obtain ⟨e, he, hid⟩ := hret.mp hb
        exact absurd hid (hno e he)
    refine ⟨hfalse, ?_⟩
    unfold Calendar.deleteEvent at hfalse ⊢
    dsimp only at hfalse ⊢
    split_ifs at hfalse ⊢ with h
    rfl

/-- C4: for an event with `start_time <= end_time` and a range with `start <= end`,
`isBetween(start, end)` is true iff the closed span of the event overlaps the closed range
(`start_time <= end` and `end_time >= start`); in particular an event that strictly contains
the range matches although neither of its endpoints lies inside the range. -/
theorem isBetween_iff_overlap (e : Event) (start end_ : Int)
    (he : e.start_time ≤ e.end_time) (hr : start ≤ end_) :
    (e.isBetween start end_ = true ↔ (e.start_time ≤ end_ ∧ e.end_time ≥ start)) ∧
    ((e.start_time < start ∧ end_ < e.end_time) → e.isBetween start end_ = true) := by
  simp only [Event.isBetween, Bool.or_eq_true, Bool.and_eq_true, decide_eq_true_eq]
  constructor
  · constructor
    · intro h; omega
    · intro h; omega
  · intro h; omega

/-- Witness of C4: event A (09:00 to 10:00) against the range 09:30 to 09:45 that it
contains. -/
theorem isBetween_iff_overlap_witness :
    (sampleA.isBetween (utcInstant 2024 3 10 9 30) (utcInstant 2024 3 10 9 45) = true ↔
      (sampleA.start_time ≤ utcInstant 2024 3 10 9 45 ∧
        sampleA.end_time ≥ utcInstant 2024 3 10 9 30)) ∧
    ((sampleA.start_time < utcInstant 2024 3 10 9 30 ∧
        utcInstant 2024 3 10 9 45 < sampleA.end_time) →
      sampleA.isBetween (utcInstant 2024 3 10 9 30) (utcInstant 2024 3 10 9 45) = true) :=
  isBetween_iff_overlap sampleA (utcInstant 2024 3 10 9 30) (utcInstant 2024 3 10 9 45)
    (by decide) (by decide)

/-- C5: `getEventsBetween(start, end)` returns exactly the stored events for which
`isBetween(start, end)` holds, each once and in the order of the store, so the result is sorted
by `start_time` whenever the store is.  Scenario: with A = 2024-03-10 09:00-10:00 and
B = 2024-03-10 09:30-09:45 added, the query over 2024-03-10 00:00 to 23:59 returns `[A, B]`,
and both satisfy `isBetween(09:00, 10:00)`. -/
theorem getEventsBetween_spec (sort : (Event → Event → Bool) → List Event → List Event)
    (hs : StdSortContract sort) (c : Calendar) (start end_ : Int) :
    c.getEventsBetween start end_ = c.events.filter (fun e => e.isBetween start end_) ∧
    (c.getEventsBetween start end_).Sublist c.events ∧
    (SortedByStart c.events → SortedByStart (c.getEventsBetween start end_)) ∧
    (((Calendar.empty "My Calendar" "User").addEvent sort sampleA).addEvent sort
        sampleB).getEventsBetween
        (utcInstant 2024 3 10 0 0) (utcInstant 2024 3 10 23 59) = [sampleA, sampleB] ∧
    sampleA.isBetween (utcInstant 2024 3 10 9 0) (utcInstant 2024 3 10 10 0) = true ∧
    sampleB.isBetween (utcInstant 2024 3 10 9 0) (utcInstant 2024 3 10 10 0) = true := by
  have hf : ∀ c : Calendar,
      c.getEventsBetween start end_ = c.events.filter (fun e => e.isBetween start end_) := by
    intro c
    unfold Calendar.getEventsBetween
    rw [getEventsBetween_loop]; simp
  refine ⟨hf c, ?_, ?_, ?_, by decide, by decide⟩
  · rw [hf c]; exact List.filter_sublist _
  · intro h; rw [hf c]; exact List.Pairwise.filter _ h
  · have h1 : ((Calendar.empty "My Calendar" "User").addEvent sort sampleA).events =
        [sampleA] := by
      have hp := addEvent_events_perm sort hs (Calendar.empty "My Calendar" "User") sampleA
      simpa [Calendar.empty] using hp
    have h2 : (((Calendar.empty "My Calendar" "User").addEvent sort sampleA).addEvent sort
        sampleB).events = [sampleA, sampleB] := by
      refine sorted_perm_pair sampleA sampleB (by decide) _ ?_
        (addEvent_events_sorted sort hs _ sampleB)
      have hp := addEvent_events_perm sort hs
        ((Calendar.empty "My Calendar" "User").addEvent sort sampleA) sampleB
      rw [h1] at hp
      simpa using hp
    unfold Calendar.getEventsBetween
    rw [h2]
    decide

/-- Witness of C5: the store holding A and B, queried over the whole day, with insertion
sort. -/
theorem getEventsBetween_spec_witness :
    StdSortContract insertionSortBy ∧
    sampleUI.calendar.getEventsBetween (utcInstant 2024 3 10 0 0) (utcInstant 2024 3 10 23 59) =
      sampleUI.calendar.events.filter
        (fun e => e.isBetween (utcInstant 2024 3 10 0 0) (utcInstant 2024 3 10 23 59)) :=
  ⟨insertionSortBy_contract,
   (getEventsBetween_spec insertionSortBy insertionSortBy_contract sampleUI.calendar
      (utcInstant 2024 3 10 0 0) (utcInstant 2024 3 10 23 59)).1⟩

/-! ### Ids -/

theorem createAndAdd_next_id (sort : (Event → Event → Bool) → List Event → List Event)
    (ui : CalendarUI) (a : EventArgs) : (ui.createAndAdd sort a).next_id = ui.next_id + 1 := rfl

theorem createAndAdd_events_perm (sort : (Event → Event → Bool) → List Event → List Event)
    (hs : StdSortContract sort) (ui : CalendarUI) (a : EventArgs) :
    (ui.createAndAdd sort a).calendar.events.Perm
      (ui.calendar.events ++ [(Event.ctor ui.next_id a.title a.start a.end_ a.color a.priority
        a.desc a.loc a.att a.all_day a.recurring a.recur_pattern).1]) :=
  addEvent_events_perm sort hs ui.calendar _

theorem createAndAdd_fresh (sort : (Event → Event → Bool) → List Event → List Event)
    (hs : StdSortContract sort) (ui : CalendarUI) (a : EventArgs) (hpos : 1 ≤ ui.next_id)
    (h : IdsFresh ui) : IdsFresh (ui.createAndAdd sort a) := by
  have hp := createAndAdd_events_perm sort hs ui a
  constructor
  · intro e he
    rw [createAndAdd_next_id]
    rcases List.mem_append.mp (hp.mem_iff.mp he) with h1 | h1
    · have := h.1 e h1
      omega
    · rw [List.mem_singleton] at h1
      subst h1
      simp only [Event.ctor]
      omega
  · rw [(hp.map Event.id).nodup_iff, List.map_append, List.nodup_append]
    refine ⟨h.2, by simp, ?_⟩
    intro i hi1 hi2
    obtain ⟨e, he, rfl⟩ := List.mem_map.mp hi1
    have hlt := (h.1 e he).2
    simp only [Event.ctor, List.map_cons, List.map_nil, List.mem_singleton] at hi2
    omega

theorem delete_fresh (ui : CalendarUI) (id : Int) (h : IdsFresh ui) :
    IdsFresh { ui with calendar := (ui.calendar.deleteEvent id).1 } := by
  constructor
  · intro e he
    simp only [deleteEvent_events] at he
    exact h.1 e (List.mem_filter.mp he).1
  · simp only [deleteEvent_events]
    exact List.Nodup.sublist ((List.filter_sublist _).map Event.id) h.2

theorem runStoreOps_next_id (sort : (Event → Event → Bool) → List Event → List Event) :
    ∀ (ops : List StoreOp) (ui : CalendarUI),
      (runStoreOps sort ui ops).next_id = ui.next_id + (ops.countP StoreOp.isCreate : Nat)
  | [], ui => by simp [runStoreOps]
  | op :: ops, ui => by
    have ih := runStoreOps_next_id sort ops (StoreOp.apply sort ui op)
    simp only [runStoreOps, List.foldl_cons] at ih ⊢
    rw [ih]
    cases op with
    | create a =>
      simp only [StoreOp.apply, createAndAdd_next_id, List.countP_cons, StoreOp.isCreate]
      push_cast
      ring
    | delete id =>
      simp [StoreOp.apply, List.countP_cons, StoreOp.isCreate]

theorem runStoreOps_fresh (sort : (Event → Event → Bool) → List Event → List Event)
    (hs : StdSortContract sort) :
    ∀ (ops : List StoreOp) (ui : CalendarUI), 1 ≤ ui.next_id → IdsFresh ui →
      IdsFresh (runStoreOps sort ui ops)
  | [], _, _, h => h
  | op :: ops, ui, hpos, h => by
    simp only [runStoreOps, List.foldl_cons]
    cases op with
    | create a =>
      refine runStoreOps_fresh sort hs ops _ ?_ (createAndAdd_fresh sort hs ui a hpos h)
      simp only [StoreOp.apply, createAndAdd_next_id]
      omega
    | delete id =>
      exact runStoreOps_fresh sort hs ops _ hpos (delete_fresh ui id h)

theorem init_fresh (now : Int) : IdsFresh (CalendarUI.init now) := by
  constructor
  · intro e he
    simp [CalendarUI.init, Calendar.empty] at he
  · simp [CalendarUI.init, Calendar.empty]

/-- C2: in every state reached from the initial one by constructions-with-add and deletions,
constructing a new event and adding it makes `findEvent` of its id return that very event, every
field equal to what was supplied.  The ids in the store are positive, below the counter and
pairwise distinct, and the counter is one plus the number of constructions so far, whatever was
deleted, so that an id is never used twice. -/
theorem add_then_find (sort : (Event → Event → Bool) → List Event → List Event)
    (hs : StdSortContract sort) (now : Int) (ops : List StoreOp) (a : EventArgs)
    (ui : CalendarUI) (hui : ui = runStoreOps sort (CalendarUI.init now) ops) :
    (ui.createAndAdd sort a).calendar.findEvent ui.next_id =
      some { id := ui.next_id, title := a.title, start_time := a.start, end_time := a.end_,
             color := a.color, priority := a.priority, description := a.desc,
             location := a.loc, attendees := a.att, is_all_day := a.all_day,
             is_recurring := a.recurring, recurrence_pattern := a.recur_pattern } ∧
    ui.next_id = 1 + (ops.countP StoreOp.isCreate : Nat) ∧
    (∀ e ∈ ui.calendar.events, 1 ≤ e.id ∧ e.id < ui.next_id) ∧
    ((ui.createAndAdd sort a).calendar.events.map Event.id).Nodup := by
  have hcount : ui.next_id = 1 + (ops.countP StoreOp.isCreate : Nat) := by
    rw [hui, runStoreOps_next_id]; rfl
  have hpos : 1 ≤ ui.next_id := by omega
  have hfresh : IdsFresh ui := by
    rw [hui]
    exact runStoreOps_fresh sort hs ops _ (by simp [CalendarUI.init]) (init_fresh now)
  have hp := createAndAdd_events_perm sort hs ui a
  refine ⟨?_, hcount, hfresh.1, (createAndAdd_fresh sort hs ui a hpos hfresh).2⟩
  unfold Calendar.findEvent
  refine findEventIn_eq_some
    (Event.ctor ui.next_id a.title a.start a.end_ a.color a.priority a.desc a.loc a.att
      a.all_day a.recurring a.recur_pattern).1 _ ?_ ?_
  · exact hp.mem_iff.mpr (by simp)
  · intro x hx hid
    rcases List.mem_append.mp (hp.mem_iff.mp hx) with h1 | h1
    · have := (hfresh.1 x h1).2
      simp only [Event.ctor] at hid
      omega
    · exact List.mem_singleton.mp h1

/-- Witness of C2: after A and B were created and A deleted, a third event is created. -/
theorem add_then_find_witness :
    StdSortContract insertionSortBy ∧
    ((runStoreOps insertionSortBy (CalendarUI.init 0)
        [StoreOp.create argsA, StoreOp.create argsB, StoreOp.delete 1]).createAndAdd
          insertionSortBy argsA).calendar.findEvent 3 =
      some { sampleA with id := 3 } :=
  ⟨insertionSortBy_contract,
   (add_then_find insertionSortBy insertionSortBy_contract 0
      [StoreOp.create argsA, StoreOp.create argsB, StoreOp.delete 1] argsA _ rfl).1⟩

/-- C6, the claim as stated fails with the `std::sort` of GNU libstdc++, which meets the
contract of `std::sort`.  Seventeen events with the arguments of A, all starting at 2024-03-10
09:00, are constructed and added one after the other from the initial state; the constructor
numbers them 1 to 17 in the order of insertion.  After sixteen calls the store is in insertion
order.  The seventeenth call sorts a range of more than sixteen elements, which goes through
the partitioning loop: it leaves the event inserted ninth in front of all others, the event
inserted last second, and the event inserted first in the tenth place. -/
theorem addEvent_tie_order_counterexample :
    StdSortContract libstdcxxSort ∧
    (∀ e ∈ (runStoreOps libstdcxxSort (CalendarUI.init 0)
        (List.replicate 17 (StoreOp.create argsA))).calendar.events,
      e.start_time = utcInstant 2024 3 10 9 0) ∧
    (runStoreOps libstdcxxSort (CalendarUI.init 0)
        (List.replicate 16 (StoreOp.create argsA))).calendar.events.map Event.id =
      [1, 2, 3, 4, 5, 6, 7, 8, 9, 10, 11, 12, 13, 14, 15, 16] ∧
    (runStoreOps libstdcxxSort (CalendarUI.init 0)
        (List.replicate 17 (StoreOp.create argsA))).calendar.events.map Event.id =
      [9, 17, 16, 15, 14, 13, 12, 11, 10, 1, 8, 7, 6, 5, 4, 3, 2] :=
  ⟨libstdcxxSort_contract, by decide, by decide, by decide⟩

/-- C6 as amended: `addEvent` leaves the store a permutation of the previous store and the
new event, in non-decreasing `start_time` order: whenever `x` is stored before `y`,
`x.start_time <= y.start_time`, so two events of different `start_time` are stored in the order
of their start times.  Nothing is promised on the order of events of equal `start_time`. -/
theorem addEvent_sorted_permutation
    (sort : (Event → Event → Bool) → List Event → List Event)
    (hs : StdSortContract sort) (c : Calendar) (e : Event) :
    (c.addEvent sort e).events.Perm (c.events ++ [e]) ∧
    SortedByStart (c.addEvent sort e).events ∧
    (∀ x y, [x, y].Sublist (c.addEvent sort e).events → x.start_time ≤ y.start_time) ∧
    (∀ x y, [x, y].Sublist (c.addEvent sort e).events → x.start_time ≠ y.start_time →
      x.start_time < y.start_time) := by
  have hsorted := addEvent_events_sorted sort hs c e
  have hsub : ∀ x y, [x, y].Sublist (c.addEvent sort e).events →
      x.start_time ≤ y.start_time := by
    intro x y hxy
    have := List.Pairwise.sublist hxy hsorted
    exact (List.pairwise_cons.mp this).1 y (by simp)
  exact ⟨addEvent_events_perm sort hs c e, hsorted, hsub,
    fun x y hxy hne => lt_of_le_of_ne (hsub x y hxy) hne⟩

/-- Witness of C6 as amended: B added to the store that holds A, with the `std::sort` of
GNU libstdc++. -/
theorem addEvent_sorted_permutation_witness :
    StdSortContract libstdcxxSort ∧
    SortedByStart (((Calendar.empty "My Calendar" "User").addEvent libstdcxxSort
      sampleA).addEvent libstdcxxSort sampleB).events :=
  ⟨libstdcxxSort_contract,
   (addEvent_sorted_permutation libstdcxxSort libstdcxxSort_contract
      ((Calendar.empty "My Calendar" "User").addEvent libstdcxxSort sampleA) sampleB).2.1⟩

/-! ### The steps of `editEvent`: the fields each step leaves alone -/

theorem editTitle_keeps (event : Event) (ins : List String) :
    (editTitle event ins).1.id = event.id ∧
    (editTitle event ins).1.start_time = event.start_time ∧
    (editTitle event ins).1.end_time = event.end_time ∧
    (editTitle event ins).1.priority = event.priority ∧
    (editTitle event ins).1.color = event.color ∧
    (editTitle event ins).1.description = event.description ∧
    (editTitle event ins).1.location = event.location ∧
    (editTitle event ins).1.attendees = event.attendees ∧
    (editTitle event ins).1.is_all_day = event.is_all_day := by
  unfold editTitle
  dsimp only
  split_ifs <;> simp

theorem editStartTime_keeps (libc : LibC) (event : Event) (ins : List String) :
    (editStartTime libc event ins).1.id = event.id ∧
    (editStartTime libc event ins).1.title = event.title ∧
    (editStartTime libc event ins).1.priority = event.priority ∧
    (editStartTime libc event ins).1.color = event.color ∧
    (editStartTime libc event ins).1.description = event.description ∧
    (editStartTime libc event ins).1.location = event.location ∧
    (editStartTime libc event ins).1.attendees = event.attendees ∧
    (editStartTime libc event ins).1.is_all_day = event.is_all_day := by
  unfold editStartTime
  dsimp only
  split_ifs <;> simp

theorem editEndTime_keeps (libc : LibC) (event : Event) (ins : List String) :
    (editEndTime libc event ins).1.id = event.id ∧
    (editEndTime libc event ins).1.title = event.title ∧
    (editEndTime libc event ins).1.start_time = event.start_time ∧
    (editEndTime libc event ins).1.priority = event.priority ∧
    (editEndTime libc event ins).1.color = event.color ∧
    (editEndTime libc event ins).1.description = event.description ∧
    (editEndTime libc event ins).1.location = event.location ∧
    (editEndTime libc event ins).1.attendees = event.attendees ∧
    (editEndTime libc event ins).1.is_all_day = event.is_all_day := by
  unfold editEndTime
  dsimp only
  split_ifs <;> simp

theorem editPriority_keeps (event : Event) (ins : List String) :
    (editPriority event ins).1.id = event.id ∧
    (editPriority event ins).1.title = event.title ∧
    (editPriority event ins).1.start_time = event.start_time ∧
    (editPriority event ins).1.end_time = event.end_time ∧
    (editPriority event ins).1.description = event.description ∧
    (editPriority event ins).1.location = event.location ∧
    (editPriority event ins).1.attendees = event.attendees ∧
    (editPriority event ins).1.is_all_day = event.is_all_day := by
  unfold editPriority
  dsimp only
  split_ifs <;> simp

theorem editDescription_keeps (event : Event) (ins : List String) :
    (editDescription event ins).1.id = event.id ∧
    (editDescription event ins).1.title = event.title ∧
    (editDescription event ins).1.start_time = event.start_time ∧
    (editDescription event ins).1.end_time = event.end_time ∧
    (editDescription event ins).1.priority = event.priority ∧
    (editDescription event ins).1.color = event.color ∧
    (editDescription event ins).1.location = event.location ∧
    (editDescription event ins).1.attendees = event.attendees ∧
    (editDescription event ins).1.is_all_day = event.is_all_day := by
  unfold editDescription
  dsimp only
  split_ifs <;> simp

theorem editLocation_keeps (event : Event) (ins : List String) :
    (editLocation event ins).1.id = event.id ∧
    (editLocation event ins).1.title = event.title ∧
    (editLocation event ins).1.start_time = event.start_time ∧
    (editLocation event ins).1.end_time = event.end_time ∧
    (editLocation event ins).1.priority = event.priority ∧
    (editLocation event ins).1.color = event.color ∧
    (editLocation event ins).1.description = event.description ∧
    (editLocation event ins).1.attendees = event.attendees ∧
    (editLocation event ins).1.is_all_day = event.is_all_day := by
  unfold editLocation
  dsimp only
  split_ifs <;> simp

theorem editAttendees_keeps (event : Event) (ins : List String) :
    (editAttendees event ins).1.id = event.id ∧
    (editAttendees event ins).1.title = event.title ∧
    (editAttendees event ins).1.start_time = event.start_time ∧
    (editAttendees event ins).1.end_time = event.end_time ∧
    (editAttendees event ins).1.priority = event.priority ∧
    (editAttendees event ins).1.color = event.color ∧
    (editAttendees event ins).1.description = event.description ∧
    (editAttendees event ins).1.location = event.location ∧
    (editAttendees event ins).1.is_all_day = event.is_all_day := by
  unfold editAttendees
  dsimp only
  split_ifs <;> simp

theorem editAllDay_keeps (event : Event) (ins : List String) :
    (editAllDay event ins).1.id = event.id ∧
    (editAllDay event ins).1.title = event.title ∧
    (editAllDay event ins).1.start_time = event.start_time ∧
    (editAllDay event ins).1.end_time = event.end_time ∧
    (editAllDay event ins).1.priority = event.priority ∧
    (editAllDay event ins).1.color = event.color ∧
    (editAllDay event ins).1.description = event.description ∧
    (editAllDay event ins).1.location = event.location ∧
    (editAllDay event ins).1.attendees = event.attendees := by
  unfold editAllDay
  dsimp only
  split_ifs <;> simp

theorem editRecurrence_keeps (event : Event) (ins : List String) :
    (editRecurrence event ins).1.id = event.id ∧
    (editRecurrence event ins).1.title = event.title ∧
    (editRecurrence event ins).1.start_time = event.start_time ∧
    (editRecurrence event ins).1.end_time = event.end_time ∧
    (editRecurrence event ins).1.priority = event.priority ∧
    (editRecurrence event ins).1.color = event.color ∧
    (editRecurrence event ins).1.description = event.description ∧
    (editRecurrence event ins).1.location = event.location ∧
    (editRecurrence event ins).1.attendees = event.attendees ∧
    (editRecurrence event ins).1.is_all_day = event.is_all_day := by
  unfold editRecurrence
  dsimp only
  split_ifs <;> simp

/-! ### The steps of `editEvent`: what a step does to its own fields -/

theorem editTitle_rest (event : Event) (ins : List String) :
    (editTitle event ins).2 = (getInput ins).2 := rfl

theorem editStartTime_rest (libc : LibC) (event : Event) (ins : List String) :
    (editStartTime libc event ins).2 = (getInput ins).2 := rfl

theorem editTitle_blank (event : Event) (ins : List String) (h : (getInput ins).1 = "") :
    (editTitle event ins).1 = event := by
  unfold editTitle
  simp [h]

theorem editStartTime_blank (libc : LibC) (event : Event) (ins : List String)
    (h : (getInput ins).1 = "") : (editStartTime libc event ins).1 = event := by
  unfold editStartTime
  simp [h]

theorem editStartTime_duration (libc : LibC) (event : Event) (ins : List String) :
    (editStartTime libc event ins).1.end_time - (editStartTime libc event ins).1.start_time =
      event.end_time - event.start_time := by
  unfold editStartTime
  dsimp only
  split_ifs <;> simp

theorem editEndTime_skip (libc : LibC) (event : Event) (ins : List String)
    (h : event.is_all_day = true ∨ (getInput ins).1 = "") :
    (editEndTime libc event ins).1 = event := by
  unfold editEndTime
  rcases h with h | h
  · simp [h]
  · split_ifs
    · rfl
    · simp [h]

theorem editEndTime_rejected (libc : LibC) (event : Event) (ins : List String)
    (h : stringToTime libc (getInput ins).1 "%Y-%m-%d %H:%M" = 0 ∨
      stringToTime libc (getInput ins).1 "%Y-%m-%d %H:%M" ≤ event.start_time) :
    (editEndTime libc event ins).1 = event := by
  unfold editEndTime
  dsimp only
  have hno : ¬ (stringToTime libc (getInput ins).1 "%Y-%m-%d %H:%M" ≠ 0 ∧
      stringToTime libc (getInput ins).1 "%Y-%m-%d %H:%M" > event.start_time) := by
    rintro ⟨h0, h1⟩
    rcases h with h | h
    · exact h0 h
    · exact absurd h1 (not_lt.mpr h)
  split_ifs <;> rfl

theorem editEndTime_order (libc : LibC) (event : Event) (ins : List String)
    (h : event.start_time < event.end_time) :
    (editEndTime libc event ins).1.start_time < (editEndTime libc event ins).1.end_time := by
  unfold editEndTime
  dsimp only
  split_ifs with h1 h2 h3
  · exact h
  · exact h3.2
  · exact h
  · exact h

theorem editPriority_blank (event : Event) (ins : List String) (h : (getInput ins).1 = "") :
    (editPriority event ins).1 = event := by
  unfold editPriority
  have hl : ¬ toLower "" = "y" := by decide
  simp [h, hl]

theorem editDescription_blank (event : Event) (ins : List String)
    (h : (getInput ins).1 = "") : (editDescription event ins).1 = event := by
  unfold editDescription
  simp [h]

theorem editLocation_blank (event : Event) (ins : List String) (h : (getInput ins).1 = "") :
    (editLocation event ins).1 = event := by
  unfold editLocation
  simp [h]

theorem editAttendees_blank (event : Event) (ins : List String) (h : (getInput ins).1 = "") :
    (editAttendees event ins).1 = event := by
  unfold editAttendees
  have hl : ¬ toLower "" = "y" := by decide
  simp [h, hl]

theorem editAllDay_blank (event : Event) (ins : List String) (h : (getInput ins).1 = "") :
    (editAllDay event ins).1 = event := by
  unfold editAllDay
  simp [h]

theorem editStartTime_valid (libc : LibC) (event : Event) (ins : List String)
    (h : (getInput ins).1 ≠ "")
    (hv : stringToTime libc (getInput ins).1
      (if event.is_all_day then "%Y-%m-%d" else "%Y-%m-%d %H:%M") ≠ 0) :
    (editStartTime libc event ins).1.start_time =
      stringToTime libc (getInput ins).1
        (if event.is_all_day then "%Y-%m-%d" else "%Y-%m-%d %H:%M") ∧
    (editStartTime libc event ins).1.end_time =
      stringToTime libc (getInput ins).1
        (if event.is_all_day then "%Y-%m-%d" else "%Y-%m-%d %H:%M") +
        (event.end_time - event.start_time) := by
  unfold editStartTime
  dsimp only
  rw [if_pos h, if_pos hv]
  exact ⟨rfl, rfl⟩

theorem editPriority_no (event : Event) (ins : List String)
    (h : toLower (getInput ins).1 ≠ "y") : (editPriority event ins).1 = event := by
  unfold editPriority
  dsimp only
  rw [if_neg h]

theorem editPriority_yes (event : Event) (ins : List String)
    (h : toLower (getInput ins).1 = "y") :
    (editPriority event ins).1.priority = (promptPriority (getInput ins).2).1 ∧
    (editPriority event ins).1.color =
      (if (promptPriority (getInput ins).2).1 ≠ event.priority then
        colorOfPriority (promptPriority (getInput ins).2).1 else event.color) := by
  unfold editPriority
  dsimp only
  rw [if_pos h]
  split_ifs <;> exact ⟨rfl, rfl⟩

/-! ### The whole of `editEvent` -/

theorem editFields_after_end (libc : LibC) (event : Event) (ins : List String) :
    (editFields libc event ins).1.id = (editUpToEnd libc event ins).1.id ∧
    (editFields libc event ins).1.title = (editUpToEnd libc event ins).1.title ∧
    (editFields libc event ins).1.start_time = (editUpToEnd libc event ins).1.start_time ∧
    (editFields libc event ins).1.end_time = (editUpToEnd libc event ins).1.end_time := by
  simp only [editFields, editUpToAllDay, editUpToAttendees, editUpToLocation,
    editUpToDescription, editUpToPriority, editRecurrence_keeps, editAllDay_keeps,
    editAttendees_keeps, editLocation_keeps, editDescription_keeps, editPriority_keeps,
    and_self]

theorem editFields_id (libc : LibC) (event : Event) (ins : List String) :
    (editFields libc event ins).1.id = event.id := by
  rw [(editFields_after_end libc event ins).1]
  simp only [editUpToEnd, editUpToStart, editEndTime_keeps, editStartTime_keeps,
    editTitle_keeps]

theorem editFields_order (libc : LibC) (event : Event) (ins : List String)
    (h : event.start_time < event.end_time) :
    (editFields libc event ins).1.start_time < (editFields libc event ins).1.end_time := by
  rw [(editFields_after_end libc event ins).2.2.1, (editFields_after_end libc event ins).2.2.2]
  unfold editUpToEnd
  refine editEndTime_order libc _ _ ?_
  unfold editUpToStart
  have hd := editStartTime_duration libc (editTitle event ins).1 (editTitle event ins).2
  have h1 := (editTitle_keeps event ins).2.1
  have h2 := (editTitle_keeps event ins).2.2.1
  dsimp only
  omega

/-! ### Writing the edited event back to the store -/

theorem findEventIn_some (id : Int) (ev : Event) :
    ∀ l : List Event, findEventIn id l = some ev → ev ∈ l ∧ ev.id = id
  | [], h => by simp [findEventIn] at h
  | e :: es, h => by
    unfold findEventIn at h
    split_ifs at h with he
    · cases h
      exact ⟨List.mem_cons_self _ _, he⟩
    · have := findEventIn_some id ev es h
      exact ⟨List.mem_cons_of_mem _ this.1, this.2⟩

theorem mem_writeBack (id : Int) (ev : Event) :
    ∀ (l : List Event) (e : Event), e ∈ writeBack id ev l → e ∈ l ∨ e = ev
  | [], e, h => by simp [writeBack] at h
  | x :: xs, e, h => by
    unfold writeBack at h
    split_ifs at h
    · rcases List.mem_cons.mp h with h1 | h1
      · exact Or.inr h1
      · exact Or.inl (List.mem_cons_of_mem _ h1)
    · rcases List.mem_cons.mp h with h1 | h1
      · exact Or.inl (h1 ▸ List.mem_cons_self _ _)
      · rcases mem_writeBack id ev xs e h1 with h2 | h2
        · exact Or.inl (List.mem_cons_of_mem _ h2)
        · exact Or.inr h2

theorem findEventIn_writeBack (id : Int) (ev1 : Event) (hid : ev1.id = id) :
    ∀ (l : List Event) (ev : Event), findEventIn id l = some ev →
      findEventIn id (writeBack id ev1 l) = some ev1
  | [], ev, h => by simp [findEventIn] at h
  | x :: xs, ev, h => by
    unfold findEventIn at h
    unfold writeBack
    split_ifs at h ⊢ with hx
    · simp [findEventIn, hid]
    · simp only [findEventIn, hx, if_false]
      exact findEventIn_writeBack id ev1 hid xs ev h

theorem editEvent_found (libc : LibC) (ui : CalendarUI) (ins : List String) (ev : Event)
    (h : ui.calendar.findEvent (safeStoi (getInput ins).1 (-1)) = some ev) :
    (CalendarUI.editEvent libc ui ins).1.calendar.events =
      writeBack (safeStoi (getInput ins).1 (-1)) (editFields libc ev (getInput ins).2).1
        ui.calendar.events ∧
    (CalendarUI.editEvent libc ui ins).1.calendar.findEvent (safeStoi (getInput ins).1 (-1)) =
      some (editFields libc ev (getInput ins).2).1 := by
  have hev : (CalendarUI.editEvent libc ui ins).1.calendar.events =
      writeBack (safeStoi (getInput ins).1 (-1)) (editFields libc ev (getInput ins).2).1
        ui.calendar.events := by
    unfold CalendarUI.editEvent
    simp only [h]
  refine ⟨hev, ?_⟩
  unfold Calendar.findEvent at h ⊢
  rw [hev]
  refine findEventIn_writeBack _ _ ?_ _ ev h
  rw [editFields_id]
  exact (findEventIn_some _ ev _ h).2

theorem editEvent_not_found (libc : LibC) (ui : CalendarUI) (ins : List String)
    (h : ui.calendar.findEvent (safeStoi (getInput ins).1 (-1)) = none) :
    (CalendarUI.editEvent libc ui ins).1 = ui := by
  unfold CalendarUI.editEvent
  simp only [h]

/-! ### The prompts of `addEvent` -/

theorem promptEndLoop_after_start (libc : LibC) (start : Int) :
    ∀ (ins : List String) (end_ : Int) (r : Int × List String),
      promptEndLoop libc start end_ ins = some r → start < r.1
  | [], end_, r, h => by
    unfold promptEndLoop at h
    split_ifs at h with h1 h2
    · cases h
      push_neg at h2
      dsimp only
      omega
    · cases h
      push_neg at h1
      dsimp only
      omega
  | l :: rest, end_, r, h => by
    unfold promptEndLoop at h
    split_ifs at h with h1
    · exact promptEndLoop_after_start libc start rest _ r h
    · cases h
      push_neg at h1
      dsimp only
      omega

theorem promptTimes_order (libc : LibC) (priority : Priority) (start : Int)
    (ins : List String) (r : (Int × Int) × List String)
    (h : promptTimes libc priority start ins = some r) : r.1.1 < r.1.2 := by
  cases priority with
  | LOW =>
    simp only [promptTimes, Option.some.injEq] at h
    subst h
    dsimp only
    omega
  | MEDIUM =>
    simp only [promptTimes, Option.some.injEq] at h
    subst h
    dsimp only
    omega
  | HIGH =>
    simp only [promptTimes] at h
    split_ifs at h with h1
    · split at h
      · cases h
      · rename_i e3 ins3 heq
        simp only [Option.some.injEq] at h
        subst h
        exact promptEndLoop_after_start libc _ _ _ _ heq
    · simp only [Option.some.injEq] at h
      subst h
      dsimp only
      omega

theorem addEvent_order (libc : LibC) (sort : (Event → Event → Bool) → List Event → List Event)
    (now : Int) (ui : CalendarUI) (ins : List String) (r : CalendarUI × Event × List String)
    (h : CalendarUI.addEvent libc sort now ui ins = some r) :
    r.2.1.start_time < r.2.1.end_time ∧
    r.1.calendar = ui.calendar.addEvent sort r.2.1 ∧ r.2.1.id = ui.next_id := by
  unfold CalendarUI.addEvent at h
  split at h
  · cases h
  · rename_i title ins1 htitle
    dsimp only at h
    split at h
    · cases h
    · rename_i times ins3 htimes
      simp only [Option.some.injEq] at h
      subst h
      exact ⟨promptTimes_order libc _ _ _ _ htimes, rfl, rfl⟩

theorem addEvent_returns (libc : LibC)
    (sort : (Event → Event → Bool) → List Event → List Event) (now : Int) (ui : CalendarUI)
    (ins : List String) (p : String × List String) (ht : promptTitle ins = some p)
    (hp : (promptPriority p.2).1 ≠ Priority.HIGH) :
    (CalendarUI.addEvent libc sort now ui ins).isSome = true := by
  obtain ⟨title, ins1⟩ := p
  unfold CalendarUI.addEvent
  simp only [ht]
  cases hpr : (promptPriority ins1).1 with
  | LOW => simp [promptTimes]
  | MEDIUM => simp [promptTimes]
  | HIGH => exact absurd hpr hp

/-! ## Claims on `CalendarUI::addEvent` and `CalendarUI::editEvent` -/

/-- C7, evaluated on the code: the store holding A (id 1, 2024-03-10 09:00 to 10:00) and B
(id 2, 09:30 to 09:45) is sorted; `editEvent` with id `1`, a blank title, the new start
`2024-03-12 09:00` and blank answers after it moves A in place and does not sort again, and the store `[A', B]` it leaves
is not in non-decreasing `start_time` order. -/
theorem editEvent_start_edit_unsorted :
    sampleUI.calendar.events = [sampleA, sampleB] ∧
    SortedByStart sampleUI.calendar.events ∧
    (CalendarUI.editEvent utcLibC sampleUI moveStartInput).1.calendar.events =
      [{ sampleA with start_time := utcInstant 2024 3 12 9 0,
                      end_time := utcInstant 2024 3 12 10 0 }, sampleB] ∧
    ¬ SortedByStart
      (CalendarUI.editEvent utcLibC sampleUI moveStartInput).1.calendar.events := by
  decide

/-- C8: `end_time > start_time` is an invariant of creation and edit.  Whatever the input,
every event that `CalendarUI::addEvent` produces has `end_time` strictly after `start_time`,
and so has every pair of instants that the priority branches compute for Low, Medium and High;
`editEvent` run on an event with `end_time > start_time` leaves it so, whichever bounds the
input edits; and a store whose events all satisfy it still does after `editEvent`.  An event is
produced whenever the input holds a non-blank title and the priority read is Low or Medium
(`editEvent` always runs to its end). -/
theorem end_after_start_invariant (libc : LibC)
    (sort : (Event → Event → Bool) → List Event → List Event) (now : Int) (ui : CalendarUI)
    (ins : List String) :
    (∀ r, CalendarUI.addEvent libc sort now ui ins = some r →
      r.2.1.start_time < r.2.1.end_time ∧ r.1.calendar = ui.calendar.addEvent sort r.2.1) ∧
    (∀ priority start r, promptTimes libc priority start ins = some r → r.1.1 < r.1.2) ∧
    (∀ event : Event, event.start_time < event.end_time →
      (editFields libc event ins).1.start_time < (editFields libc event ins).1.end_time) ∧
    ((∀ e ∈ ui.calendar.events, e.start_time < e.end_time) →
      ∀ e ∈ (CalendarUI.editEvent libc ui ins).1.calendar.events,
        e.start_time < e.end_time) ∧
    (∀ p, promptTitle ins = some p → (promptPriority p.2).1 ≠ Priority.HIGH →
      (CalendarUI.addEvent libc sort now ui ins).isSome = true) := by
  refine ⟨?_, ?_, ?_, ?_, fun p ht hp => addEvent_returns libc sort now ui ins p ht hp⟩
  · intro r h
    exact ⟨(addEvent_order libc sort now ui ins r h).1, (addEvent_order libc sort now ui ins r h).2.1⟩
  · intro priority start r h
    exact promptTimes_order libc priority start ins r h
  · intro event h
    exact editFields_order libc event ins h
  · intro hall e he
    cases hf : ui.calendar.findEvent (safeStoi (getInput ins).1 (-1)) with
    | none =>
      rw [editEvent_not_found libc ui ins hf] at he
      exact hall e he
    | some ev =>
      rw [(editEvent_found libc ui ins ev hf).1] at he
      rcases mem_writeBack _ _ _ _ he with h1 | h1
      · exact hall e h1
      · rw [h1]
        refine editFields_order libc ev _ (hall ev ?_)
        exact (findEventIn_some _ ev _ hf).1

/-- Witness of C8: a High-priority creation whose first two answers to the end prompt are
rejected (unparsable, then before the start), and an edit of A that moves start and end. -/
theorem end_after_start_invariant_witness :
    (∃ r, CalendarUI.addEvent utcLibC insertionSortBy (utcInstant 2024 3 10 8 0)
        (CalendarUI.init 0)
        ["Review", "high", "2024-03-10 09:00", "soon", "2024-03-10 08:30", "2024-03-10 11:00"]
          = some r ∧
      r.2.1.start_time = utcInstant 2024 3 10 9 0 ∧
      r.2.1.end_time = utcInstant 2024 3 10 11 0 ∧
      r.2.1.start_time < r.2.1.end_time) ∧
    (editFields utcLibC sampleA ["", "2024-03-12 09:00", "2024-03-12 09:10"]).1.start_time <
      (editFields utcLibC sampleA ["", "2024-03-12 09:00", "2024-03-12 09:10"]).1.end_time :=
  ⟨⟨_, rfl, by decide, by decide,
     ((end_after_start_invariant utcLibC insertionSortBy (utcInstant 2024 3 10 8 0)
        (CalendarUI.init 0)
        ["Review", "high", "2024-03-10 09:00", "soon", "2024-03-10 08:30",
          "2024-03-10 11:00"]).1 _ rfl).1⟩,
   (end_after_start_invariant utcLibC insertionSortBy 0 (CalendarUI.init 0)
      ["", "2024-03-12 09:00", "2024-03-12 09:10"]).2.2.1 sampleA (by decide)⟩

/-- C9: an edit whose start answer is blank and whose end answer does not parse
(`stringToTime` yields 0) or is not strictly after the start of the event is rejected:
`start_time` and `end_time` after `editEvent` equal their values before, both on the event
edited and on the event that `findEvent` returns from the store afterwards.  This is so for
every timed event (an all-day event has no end prompt, and its bounds are kept as well). -/
theorem edit_end_rejected (libc : LibC) (event : Event) (l_title l_start l_end : String)
    (rest : List String) (h_start : trim l_start = "")
    (h_bad : stringToTime libc (trim l_end) "%Y-%m-%d %H:%M" = 0 ∨
      stringToTime libc (trim l_end) "%Y-%m-%d %H:%M" ≤ event.start_time) :
    ((editFields libc event (l_title :: l_start :: l_end :: rest)).1.start_time =
        event.start_time ∧
      (editFields libc event (l_title :: l_start :: l_end :: rest)).1.end_time =
        event.end_time) ∧
    (∀ (ui : CalendarUI) (l_id : String),
      ui.calendar.findEvent (safeStoi (trim l_id) (-1)) = some event →
      ∃ e1,
        (CalendarUI.editEvent libc ui (l_id :: l_title :: l_start :: l_end :: rest)).1.calendar.findEvent
          (safeStoi (trim l_id) (-1)) = some e1 ∧
        e1.start_time = event.start_time ∧ e1.end_time = event.end_time) := by
  have hs2 : editUpToStart libc event (l_title :: l_start :: l_end :: rest) =
      ((editTitle event (l_title :: l_start :: l_end :: rest)).1, l_end :: rest) := by
    unfold editUpToStart
    dsimp only
    have hb : (getInput (editTitle event (l_title :: l_start :: l_end :: rest)).2).1 = "" := by
      simpa [editTitle_rest, getInput] using h_start
    refine Prod.ext ?_ ?_
    · exact editStartTime_blank libc _ _ hb
    · rfl
  have hst : (editTitle event (l_title :: l_start :: l_end :: rest)).1.start_time =
      event.start_time := (editTitle_keeps event _).2.1
  have hen : (editTitle event (l_title :: l_start :: l_end :: rest)).1.end_time =
      event.end_time := (editTitle_keeps event _).2.2.1
  have hs3 : (editUpToEnd libc event (l_title :: l_start :: l_end :: rest)).1 =
      (editTitle event (l_title :: l_start :: l_end :: rest)).1 := by
    unfold editUpToEnd
    dsimp only
    rw [hs2]
    refine editEndTime_rejected libc _ _ ?_
    simpa [getInput, hst] using h_bad
  have hmain : (editFields libc event (l_title :: l_start :: l_end :: rest)).1.start_time =
        event.start_time ∧
      (editFields libc event (l_title :: l_start :: l_end :: rest)).1.end_time =
        event.end_time := by
    rw [(editFields_after_end libc event _).2.2.1, (editFields_after_end libc event _).2.2.2,
      hs3]
    exact ⟨hst, hen⟩
  refine ⟨hmain, ?_⟩
  intro ui l_id hf
  refine ⟨_, (editEvent_found libc ui (l_id :: l_title :: l_start :: l_end :: rest) event
    (by simpa [getInput] using hf)).2, ?_⟩
  simpa [getInput] using hmain

/-- Witness of C9: A (09:00 to 10:00) with the end answer `2024-03-10 08:00`. -/
theorem edit_end_rejected_witness :
    (editFields utcLibC sampleA ["", "  ", "2024-03-10 08:00", "n"]).1.start_time =
      sampleA.start_time ∧
    (editFields utcLibC sampleA ["", "  ", "2024-03-10 08:00", "n"]).1.end_time =
      sampleA.end_time :=
  (edit_end_rejected utcLibC sampleA "" "  " "2024-03-10 08:00" ["n"] (by decide)
    (by decide)).1

/-- C10, the claim as stated fails for `end_time` and for `color`.  On the timed event A with
a blank title, the start answer `2024-03-12 09:00` and a blank end answer, `end_time` becomes
2024-03-12 10:00; and with every time answer blank, answering `y` and `low` to the priority
prompts changes the colour from Red to Blue although no colour was entered. -/
theorem editEvent_blank_field_counterexample :
    sampleA.is_all_day = false ∧
    (getInput (editUpToStart utcLibC sampleA ["", "2024-03-12 09:00", ""]).2).1 = "" ∧
    (editFields utcLibC sampleA ["", "2024-03-12 09:00", ""]).1.end_time =
      utcInstant 2024 3 12 10 0 ∧
    (editFields utcLibC sampleA ["", "2024-03-12 09:00", ""]).1.end_time ≠ sampleA.end_time ∧
    sampleA.color = Color.RED ∧
    (editFields utcLibC sampleA ["", "", "", "y", "low"]).1.color = Color.BLUE := by
  decide

/-- C10 as amended: `editEvent` merges field by field.  Whatever is supplied for the other
fields, a blank answer at the prompt of title, start time, priority, description, location,
attendees or all-day leaves `title`, `start_time`, `priority`, `description`, `location`,
`attendees`, `is_all_day` at its previous value.  A blank end answer (or an all-day event, which
has no end prompt) keeps the duration `end_time - start_time`, and keeps `end_time` itself when
the start answer is blank too; a start answer that parses to a valid instant becomes
`start_time` and moves `end_time` to the new start plus the old duration.  The colour has no
prompt: priority and colour are kept when the answer to "Change priority?" is blank (or
anything but `y`); after the answer `y` the priority is the one chosen, and the colour is the
colour of the new priority (Low Blue, Medium Green, High Red) when the priority changed and
is kept when the same priority was chosen. -/
theorem editEvent_blank_keeps (libc : LibC) (event : Event) (ins : List String) :
    ((getInput ins).1 = "" → (editFields libc event ins).1.title = event.title) ∧
    ((getInput (editTitle event ins).2).1 = "" →
      (editFields libc event ins).1.start_time = event.start_time) ∧
    ((event.is_all_day = true ∨ (getInput (editUpToStart libc event ins).2).1 = "") →
      (editFields libc event ins).1.end_time - (editFields libc event ins).1.start_time =
        event.end_time - event.start_time) ∧
    ((getInput (editTitle event ins).2).1 = "" →
      (event.is_all_day = true ∨ (getInput (editUpToStart libc event ins).2).1 = "") →
      (editFields libc event ins).1.end_time = event.end_time) ∧
    ((getInput (editUpToEnd libc event ins).2).1 = "" →
      (editFields libc event ins).1.priority = event.priority ∧
      (editFields libc event ins).1.color = event.color) ∧
    ((getInput (editUpToPriority libc event ins).2).1 = "" →
      (editFields libc event ins).1.description = event.description) ∧
    ((getInput (editUpToDescription libc event ins).2).1 = "" →
      (editFields libc event ins).1.location = event.location) ∧
    ((getInput (editUpToLocation libc event ins).2).1 = "" →
      (editFields libc event ins).1.attendees = event.attendees) ∧
    ((getInput (editUpToAttendees libc event ins).2).1 = "" →
      (editFields libc event ins).1.is_all_day = event.is_all_day) ∧
    ((getInput (editTitle event ins).2).1 ≠ "" →
      stringToTime libc (getInput (editTitle event ins).2).1
        (if event.is_all_day then "%Y-%m-%d" else "%Y-%m-%d %H:%M") ≠ 0 →
      (editFields libc event ins).1.start_time =
        stringToTime libc (getInput (editTitle event ins).2).1
          (if event.is_all_day then "%Y-%m-%d" else "%Y-%m-%d %H:%M") ∧
      ((event.is_all_day = true ∨ (getInput (editUpToStart libc event ins).2).1 = "") →
        (editFields libc event ins).1.end_time =
          stringToTime libc (getInput (editTitle event ins).2).1
            (if event.is_all_day then "%Y-%m-%d" else "%Y-%m-%d %H:%M") +
            (event.end_time - event.start_time))) ∧
    (toLower (getInput (editUpToEnd libc event ins).2).1 ≠ "y" →
      (editFields libc event ins).1.priority = event.priority ∧
      (editFields libc event ins).1.color = event.color) ∧
    (toLower (getInput (editUpToEnd libc event ins).2).1 = "y" →
      (editFields libc event ins).1.priority =
        (promptPriority (getInput (editUpToEnd libc event ins).2).2).1 ∧
      (editFields libc event ins).1.color =
        (if (promptPriority (getInput (editUpToEnd libc event ins).2).2).1 ≠ event.priority then
          colorOfPriority (promptPriority (getInput (editUpToEnd libc event ins).2).2).1
        else event.color)) := by
  have hp1 : (editFields libc event ins).1.priority =
      (editUpToPriority libc event ins).1.priority := by
    simp only [editFields, editUpToAllDay, editUpToAttendees, editUpToLocation,
      editUpToDescription, editRecurrence_keeps, editAllDay_keeps, editAttendees_keeps,
      editLocation_keeps, editDescription_keeps]
  have hp2 : (editFields libc event ins).1.color =
      (editUpToPriority libc event ins).1.color := by
    simp only [editFields, editUpToAllDay, editUpToAttendees, editUpToLocation,
      editUpToDescription, editRecurrence_keeps, editAllDay_keeps, editAttendees_keeps,
      editLocation_keeps, editDescription_keeps]
  have hp3 : (editUpToEnd libc event ins).1.priority = event.priority ∧
      (editUpToEnd libc event ins).1.color = event.color := by
    simp only [editUpToEnd, editUpToStart, editEndTime_keeps, editStartTime_keeps,
      editTitle_keeps, and_self]
  have hallday : (editUpToStart libc event ins).1.is_all_day = event.is_all_day := by
    simp only [editUpToStart, editStartTime_keeps, editTitle_keeps]
  have hdur : (editUpToStart libc event ins).1.end_time -
      (editUpToStart libc event ins).1.start_time = event.end_time - event.start_time := by
    unfold editUpToStart
    dsimp only
    rw [editStartTime_duration, (editTitle_keeps event ins).2.1, (editTitle_keeps event ins).2.2.1]
  have hskip : (event.is_all_day = true ∨ (getInput (editUpToStart libc event ins).2).1 = "") →
      (editUpToEnd libc event ins).1 = (editUpToStart libc event ins).1 := by
    intro h
    unfold editUpToEnd
    dsimp only
    exact editEndTime_skip libc _ _ (by rw [hallday]; exact h)
  have hstart : (getInput (editTitle event ins).2).1 = "" →
      (editUpToStart libc event ins).1 = (editTitle event ins).1 := by
    intro h
    unfold editUpToStart
    dsimp only
    exact editStartTime_blank libc _ _ h
  refine ⟨?_, ?_, ?_, ?_, ?_, ?_, ?_, ?_, ?_, ?_, ?_, ?_⟩
  · intro h
    rw [(editFields_after_end libc event ins).2.1]
    simp only [editUpToEnd, editUpToStart, editEndTime_keeps, editStartTime_keeps]
    rw [editTitle_blank event ins h]
  · intro h
    rw [(editFields_after_end libc event ins).2.2.1]
    simp only [editUpToEnd, editEndTime_keeps]
    rw [hstart h]
    exact (editTitle_keeps event ins).2.1
  · intro h
    rw [(editFields_after_end libc event ins).2.2.1, (editFields_after_end libc event ins).2.2.2,
      hskip h]
    exact hdur
  · intro h1 h2
    rw [(editFields_after_end libc event ins).2.2.2, hskip h2, hstart h1]
    exact (editTitle_keeps event ins).2.2.1
  · intro h
    have e1 : (editFields libc event ins).1.priority =
        (editUpToPriority libc event ins).1.priority := by
      simp only [editFields, editUpToAllDay, editUpToAttendees, editUpToLocation,
        editUpToDescription, editRecurrence_keeps, editAllDay_keeps, editAttendees_keeps,
        editLocation_keeps, editDescription_keeps]
    have e2 : (editFields libc event ins).1.color =
        (editUpToPriority libc event ins).1.color := by
      simp only [editFields, editUpToAllDay, editUpToAttendees, editUpToLocation,
        editUpToDescription, editRecurrence_keeps, editAllDay_keeps, editAttendees_keeps,
        editLocation_keeps, editDescription_keeps]
    have e3 : (editUpToPriority libc event ins).1 = (editUpToEnd libc event ins).1 := by
      unfold editUpToPriority
      dsimp only
      exact editPriority_blank _ _ h
    rw [e1, e2, e3]
    simp only [editUpToEnd, editUpToStart, editEndTime_keeps, editStartTime_keeps,
      editTitle_keeps, and_self]
  · intro h
    have e1 : (editFields libc event ins).1.description =
        (editUpToDescription libc event ins).1.description := by
      simp only [editFields, editUpToAllDay, editUpToAttendees, editUpToLocation,
        editRecurrence_keeps, editAllDay_keeps, editAttendees_keeps, editLocation_keeps]
    have e3 : (editUpToDescription libc event ins).1 = (editUpToPriority libc event ins).1 := by
      unfold editUpToDescription
      dsimp only
      exact editDescription_blank _ _ h
    rw [e1, e3]
    simp only [editUpToPriority, editUpToEnd, editUpToStart, editPriority_keeps,
      editEndTime_keeps, editStartTime_keeps, editTitle_keeps]
  · intro h
    have e1 : (editFields libc event ins).1.location =
        (editUpToLocation libc event ins).1.location := by
      simp only [editFields, editUpToAllDay, editUpToAttendees, editRecurrence_keeps,
        editAllDay_keeps, editAttendees_keeps]
    have e3 : (editUpToLocation libc event ins).1 = (editUpToDescription libc event ins).1 := by
      unfold editUpToLocation
      dsimp only
      exact editLocation_blank _ _ h
    rw [e1, e3]
    simp only [editUpToDescription, editUpToPriority, editUpToEnd, editUpToStart,
      editDescription_keeps, editPriority_keeps, editEndTime_keeps, editStartTime_keeps,
      editTitle_keeps]
  · intro h
    have e1 : (editFields libc event ins).1.attendees =
        (editUpToAttendees libc event ins).1.attendees := by
      simp only [editFields, editUpToAllDay, editRecurrence_keeps, editAllDay_keeps]
    have e3 : (editUpToAttendees libc event ins).1 = (editUpToLocation libc event ins).1 := by
      unfold editUpToAttendees
      dsimp only
      exact editAttendees_blank _ _ h
    rw [e1, e3]
    simp only [editUpToLocation, editUpToDescription, editUpToPriority, editUpToEnd,
      editUpToStart, editLocation_keeps, editDescription_keeps, editPriority_keeps,
      editEndTime_keeps, editStartTime_keeps, editTitle_keeps]
  · intro h
    have e1 : (editFields libc event ins).1.is_all_day =
        (editUpToAllDay libc event ins).1.is_all_day := by
      simp only [editFields, editRecurrence_keeps]
    have e3 : (editUpToAllDay libc event ins).1 = (editUpToAttendees libc event ins).1 := by
      unfold editUpToAllDay
      dsimp only
      exact editAllDay_blank _ _ h
    rw [e1, e3]
    simp only [editUpToAttendees, editUpToLocation, editUpToDescription, editUpToPriority,
      editUpToEnd, editUpToStart, editAttendees_keeps, editLocation_keeps,
      editDescription_keeps, editPriority_keeps, editEndTime_keeps, editStartTime_keeps,
      editTitle_keeps]
  · intro h hv
    have hv1 : stringToTime libc (getInput (editTitle event ins).2).1
        (if (editTitle event ins).1.is_all_day then "%Y-%m-%d" else "%Y-%m-%d %H:%M") ≠ 0 := by
      rw [(editTitle_keeps event ins).2.2.2.2.2.2.2.2]; exact hv
    have hval := editStartTime_valid libc (editTitle event ins).1 (editTitle event ins).2 h hv1
    rw [(editTitle_keeps event ins).2.2.2.2.2.2.2.2, (editTitle_keeps event ins).2.1,
      (editTitle_keeps event ins).2.2.1] at hval
    have hs : (editUpToStart libc event ins).1 =
        (editStartTime libc (editTitle event ins).1 (editTitle event ins).2).1 := rfl
    refine ⟨?_, ?_⟩
    · rw [(editFields_after_end libc event ins).2.2.1]
      simp only [editUpToEnd, editEndTime_keeps]
      rw [hs]; exact hval.1
    · intro hk
      rw [(editFields_after_end libc event ins).2.2.2, hskip hk, hs]
      exact hval.2
  · intro h
    have e3 : (editUpToPriority libc event ins).1 = (editUpToEnd libc event ins).1 := by
      unfold editUpToPriority
      dsimp only
      exact editPriority_no _ _ h
    rw [hp1, hp2, e3]
    exact hp3
  · intro h
    have e3 := editPriority_yes (editUpToEnd libc event ins).1 (editUpToEnd libc event ins).2 h
    rw [hp3.1, hp3.2] at e3
    rw [hp1, hp2]
    exact e3

/-- Witness of C10 as amended: A (09:00 to 10:00, High, Red) edited with a new title, the
start 2024-03-12 09:00, a blank end answer, the priority changed to Low, a blank description,
a new location and new attendees.  The description is kept, the duration is kept, the event
now runs from 2024-03-12 09:00 to 10:00, and it is Low and Blue. -/
theorem editEvent_blank_keeps_witness :
    (editFields utcLibC sampleA
        ["Standup", "2024-03-12 09:00", "", "y", "low", "", "Room 1", "y", "Ann", "", ""]).1.description
      = sampleA.description ∧
    (editFields utcLibC sampleA
        ["Standup", "2024-03-12 09:00", "", "y", "low", "", "Room 1", "y", "Ann", "", ""]).1.end_time -
      (editFields utcLibC sampleA
        ["Standup", "2024-03-12 09:00", "", "y", "low", "", "Room 1", "y", "Ann", "", ""]).1.start_time
      = sampleA.end_time - sampleA.start_time ∧
    (editFields utcLibC sampleA
        ["Standup", "2024-03-12 09:00", "", "y", "low", "", "Room 1", "y", "Ann", "", ""]).1.start_time
      = utcInstant 2024 3 12 9 0 ∧
    (editFields utcLibC sampleA
        ["Standup", "2024-03-12 09:00", "", "y", "low", "", "Room 1", "y", "Ann", "", ""]).1.end_time
      = utcInstant 2024 3 12 10 0 ∧
    (editFields utcLibC sampleA
        ["Standup", "2024-03-12 09:00", "", "y", "low", "", "Room 1", "y", "Ann", "", ""]).1.priority
      = Priority.LOW ∧
    (editFields utcLibC sampleA
        ["Standup", "2024-03-12 09:00", "", "y", "low", "", "Room 1", "y", "Ann", "", ""]).1.color
      = Color.BLUE :=
  ⟨(editEvent_blank_keeps utcLibC sampleA
      ["Standup", "2024-03-12 09:00", "", "y", "low", "", "Room 1", "y", "Ann", "", ""]).2.2.2.2.2.1
      (by decide),
   (editEvent_blank_keeps utcLibC sampleA
      ["Standup", "2024-03-12 09:00", "", "y", "low", "", "Room 1", "y", "Ann", "", ""]).2.2.1
      (Or.inr (by decide)),
   ((editEvent_blank_keeps utcLibC sampleA
      ["Standup", "2024-03-12 09:00", "", "y", "low", "", "Room 1", "y", "Ann", "", ""]).2.2.2.2.2.2.2.2.2.1
      (by decide) (by decide)).1.trans (by decide),
   (((editEvent_blank_keeps utcLibC sampleA
      ["Standup", "2024-03-12 09:00", "", "y", "low", "", "Room 1", "y", "Ann", "", ""]).2.2.2.2.2.2.2.2.2.1
      (by decide) (by decide)).2 (Or.inr (by decide))).trans (by decide),
   ((editEvent_blank_keeps utcLibC sampleA
      ["Standup", "2024-03-12 09:00", "", "y", "low", "", "Room 1", "y", "Ann", "", ""]).2.2.2.2.2.2.2.2.2.2.2
      (by decide)).1.trans (by decide),
   ((editEvent_blank_keeps utcLibC sampleA
      ["Standup", "2024-03-12 09:00", "", "y", "low", "", "Room 1", "y", "Ann", "", ""]).2.2.2.2.2.2.2.2.2.2.2
      (by decide)).2.trans (by decide)⟩

/-! ## The Gregorian calendar: days and dates -/

theorem splitEra_unique (doe n100 n4 n1 doy : Int) (a0 : 0 ≤ n100) (a1 : n100 ≤ 3)
    (b0 : 0 ≤ n4) (b1 : n4 ≤ 24) (c0 : 0 ≤ n1) (c1 : n1 ≤ 3) (d0 : 0 ≤ doy)
    (d1 : doy ≤ 365) (d2 : doy = 365 → n1 = 3 ∧ (n4 ≠ 24 ∨ n100 = 3))
    (hdoe : doe = 36524 * n100 + 1461 * n4 + 365 * n1 + doy) :
    splitEra doe = (n100 * 100 + n4 * 4 + n1, doy) := by
  have e1 : min (doe / 36524) 3 = n100 := by omega
  have e2 : (doe - n100 * 36524) / 1461 = n4 := by omega
  have e3 : (doe - n100 * 36524) % 1461 = 365 * n1 + doy := by omega
  have e4 : min ((365 * n1 + doy) / 365) 3 = n1 := by omega
  simp only [splitEra, e1, e2, e3, e4]
  refine Prod.ext ?_ ?_ <;> simp only <;> omega

theorem splitEra_spec (doe : Int) (h0 : 0 ≤ doe) (h1 : doe < 146097) :
    0 ≤ (splitEra doe).1 ∧ (splitEra doe).1 ≤ 399 ∧ 0 ≤ (splitEra doe).2 ∧
    (splitEra doe).2 ≤ 364 + leapFlag (splitEra doe).1 ∧
    joinEra (splitEra doe).1 (splitEra doe).2 = doe := by
  obtain ⟨n100, hn100⟩ : ∃ n, n = min (doe / 36524) 3 := ⟨_, rfl⟩
  obtain ⟨n4, hn4⟩ : ∃ n, n = (doe - n100 * 36524) / 1461 := ⟨_, rfl⟩
  obtain ⟨n1, hn1⟩ : ∃ n, n = min ((doe - n100 * 36524) % 1461 / 365) 3 := ⟨_, rfl⟩
  obtain ⟨doy, hdoy⟩ : ∃ n, n = (doe - n100 * 36524) % 1461 - n1 * 365 := ⟨_, rfl⟩
  have hs : splitEra doe = (n100 * 100 + n4 * 4 + n1, doy) := by
    simp only [splitEra, ← hn100, ← hn4, ← hn1, ← hdoy]
  rw [hs]
  simp only [joinEra, leapFlag]
  have c100 : n100 = 0 ∨ n100 = 1 ∨ n100 = 2 ∨ n100 = 3 := by omega
  have c1 : n1 = 0 ∨ n1 = 1 ∨ n1 = 2 ∨ n1 = 3 := by omega
  have b4 : 0 ≤ n4 ∧ n4 ≤ 24 := by omega
  rcases c100 with rfl | rfl | rfl | rfl <;> rcases c1 with rfl | rfl | rfl | rfl <;>
    split_ifs <;> omega

theorem splitEra_joinEra (yoe doy : Int) (h0 : 0 ≤ yoe) (h1 : yoe ≤ 399) (h2 : 0 ≤ doy)
    (h3 : doy ≤ 364 + leapFlag yoe) : splitEra (joinEra yoe doy) = (yoe, doy) := by
  have hflag : leapFlag yoe = 0 ∨ (leapFlag yoe = 1 ∧ yoe % 4 = 3 ∧
      (yoe % 100 ≠ 99 ∨ yoe = 399)) := by
    unfold leapFlag
    split_ifs with h
    · exact Or.inr ⟨rfl, h⟩
    · exact Or.inl rfl
  have key := splitEra_unique (joinEra yoe doy) (yoe / 100) (yoe % 100 / 4) (yoe % 4) doy
    (by omega) (by omega) (by omega) (by omega) (by omega) (by omega) h2 (by omega) (by omega)
    (by unfold joinEra; omega)
  rw [key]
  refine Prod.ext ?_ ?_ <;> simp only <;> omega

theorem splitYear_spec (doy : Int) (h0 : 0 ≤ doy) (h1 : doy ≤ 365) :
    1 ≤ (splitYear doy).1 ∧ (splitYear doy).1 ≤ 12 ∧ 1 ≤ (splitYear doy).2 ∧
    joinYear (splitYear doy).1 (splitYear doy).2 = doy := by
  simp only [splitYear, joinYear]
  split_ifs <;> omega

theorem splitYear_joinYear (m d : Int) (hm0 : 1 ≤ m) (hm1 : m ≤ 12) (hd0 : 1 ≤ d)
    (hd1 : d ≤ 31) (hd2 : (m = 4 ∨ m = 6 ∨ m = 9 ∨ m = 11) → d ≤ 30) (hd3 : m = 2 → d ≤ 29) :
    splitYear (joinYear m d) = (m, d) := by
  simp only [splitYear, joinYear]
  have hm : m = 1 ∨ m = 2 ∨ m = 3 ∨ m = 4 ∨ m = 5 ∨ m = 6 ∨ m = 7 ∨ m = 8 ∨ m = 9 ∨ m = 10 ∨
      m = 11 ∨ m = 12 := by omega
  rcases hm with h | h | h | h | h | h | h | h | h | h | h | h <;> subst h <;>
    refine Prod.ext ?_ ?_ <;> simp only <;> omega

theorem civilToDays_daysToCivil (z : Int) :
    civilToDays (daysToCivil z).1 (daysToCivil z).2.1 (daysToCivil z).2.2 = z := by
  have hA := splitEra_spec ((z + 719468) % 146097) (by omega) (by omega)
  have hC := splitYear_spec (splitEra ((z + 719468) % 146097)).2 hA.2.2.1
    (by have := hA.2.2.2.1; unfold leapFlag at this; split_ifs at this <;> omega)
  obtain ⟨yoe, hyoe⟩ : ∃ n, n = (splitEra ((z + 719468) % 146097)).1 := ⟨_, rfl⟩
  obtain ⟨doy, hdoy⟩ : ∃ n, n = (splitEra ((z + 719468) % 146097)).2 := ⟨_, rfl⟩
  obtain ⟨m, hm⟩ : ∃ n, n = (splitYear doy).1 := ⟨_, rfl⟩
  obtain ⟨d, hd⟩ : ∃ n, n = (splitYear doy).2 := ⟨_, rfl⟩
  rw [← hyoe, ← hdoy] at hA
  rw [← hdoy, ← hm, ← hd] at hC
  simp only [civilToDays, daysToCivil, ← hyoe, ← hdoy, ← hm, ← hd]
  rw [hC.2.2.2]
  have e1 : (if m ≤ 2 then yoe + (z + 719468) / 146097 * 400 + (if m ≤ 2 then 1 else 0) - 1
      else yoe + (z + 719468) / 146097 * 400 + (if m ≤ 2 then 1 else 0)) =
      yoe + (z + 719468) / 146097 * 400 := by
    split_ifs <;> omega
  rw [e1]
  have e2 : (yoe + (z + 719468) / 146097 * 400) / 400 = (z + 719468) / 146097 := by omega
  have e3 : (yoe + (z + 719468) / 146097 * 400) % 400 = yoe := by omega
  rw [e2, e3, hA.2.2.2.2]
  omega

theorem leapFlag_eq (y : Int) :
    leapFlag ((y - 1) % 400) = if isLeapYear y then 1 else 0 := by
  unfold leapFlag isLeapYear
  simp only [Bool.decide_or, Bool.decide_and, Bool.or_eq_true, Bool.and_eq_true,
    decide_eq_true_eq, ne_eq, decide_not, Bool.not_eq_true', decide_eq_false_iff_not]
  split_ifs <;> omega

theorem splitYear_day_le (doy : Int) (h0 : 0 ≤ doy) (h1 : doy ≤ 365) :
    ((splitYear doy).1 = 2 → (splitYear doy).2 ≤ doy - 336) ∧
    ((splitYear doy).1 ≠ 2 → (splitYear doy).2 ≤ daysInMonth 0 (splitYear doy).1) := by
  have c : (5 * doy + 2) / 153 = 0 ∨ (5 * doy + 2) / 153 = 1 ∨ (5 * doy + 2) / 153 = 2 ∨
      (5 * doy + 2) / 153 = 3 ∨ (5 * doy + 2) / 153 = 4 ∨ (5 * doy + 2) / 153 = 5 ∨
      (5 * doy + 2) / 153 = 6 ∨ (5 * doy + 2) / 153 = 7 ∨ (5 * doy + 2) / 153 = 8 ∨
      (5 * doy + 2) / 153 = 9 ∨ (5 * doy + 2) / 153 = 10 ∨ (5 * doy + 2) / 153 = 11 := by omega
  rcases c with h | h | h | h | h | h | h | h | h | h | h | h <;>
    simp [splitYear, h, daysInMonth] <;> omega

theorem daysInMonth_not_feb (y m : Int) (h : m ≠ 2) : daysInMonth y m = daysInMonth 0 m := by
  unfold daysInMonth
  simp [h]

theorem daysToCivil_valid (z : Int) :
    1 ≤ (daysToCivil z).2.1 ∧ (daysToCivil z).2.1 ≤ 12 ∧ 1 ≤ (daysToCivil z).2.2 ∧
    (daysToCivil z).2.2 ≤ daysInMonth (daysToCivil z).1 (daysToCivil z).2.1 := by
  have hA := splitEra_spec ((z + 719468) % 146097) (by omega) (by omega)
  have hle : (splitEra ((z + 719468) % 146097)).2 ≤ 365 := by
    have := hA.2.2.2.1; unfold leapFlag at this; split_ifs at this <;> omega
  have hC := splitYear_spec (splitEra ((z + 719468) % 146097)).2 hA.2.2.1 hle
  have hD := splitYear_day_le (splitEra ((z + 719468) % 146097)).2 hA.2.2.1 hle
  obtain ⟨yoe, hyoe⟩ : ∃ n, n = (splitEra ((z + 719468) % 146097)).1 := ⟨_, rfl⟩
  obtain ⟨doy, hdoy⟩ : ∃ n, n = (splitEra ((z + 719468) % 146097)).2 := ⟨_, rfl⟩
  obtain ⟨m, hm⟩ : ∃ n, n = (splitYear doy).1 := ⟨_, rfl⟩
  obtain ⟨d, hd⟩ : ∃ n, n = (splitYear doy).2 := ⟨_, rfl⟩
  rw [← hyoe, ← hdoy] at hA
  rw [← hdoy, ← hm, ← hd] at hC hD
  simp only [daysToCivil, ← hyoe, ← hdoy, ← hm, ← hd]
  refine ⟨hC.1, hC.2.1, hC.2.2.1, ?_⟩
  by_cases h2 : m = 2
  · subst h2
    have hflag := leapFlag_eq (yoe + (z + 719468) / 146097 * 400 + 1)
    have e : (yoe + (z + 719468) / 146097 * 400 + 1 - 1) % 400 = yoe := by omega
    rw [e] at hflag
    have := hD.1 rfl
    have := hA.2.2.2.1
    simp only [daysInMonth, if_true, show ((2 : Int) ≤ 2) from le_refl _]
    split_ifs at hflag ⊢ <;> omega
  · rw [daysInMonth_not_feb _ _ h2]
    exact hD.2 h2

theorem joinYear_bounds (y m d : Int) (hm0 : 1 ≤ m) (hm1 : m ≤ 12) (hd0 : 1 ≤ d)
    (hd1 : d ≤ daysInMonth y m) :
    0 ≤ joinYear m d ∧
    joinYear m d ≤ 364 + leapFlag ((if m ≤ 2 then y - 1 else y) % 400) ∧
    d ≤ 31 ∧ ((m = 4 ∨ m = 6 ∨ m = 9 ∨ m = 11) → d ≤ 30) ∧ (m = 2 → d ≤ 29) := by
  have hflag := leapFlag_eq y
  have hf0 : 0 ≤ leapFlag ((if m ≤ 2 then y - 1 else y) % 400) := by
    unfold leapFlag; split_ifs <;> omega
  have c : m = 1 ∨ m = 2 ∨ m = 3 ∨ m = 4 ∨ m = 5 ∨ m = 6 ∨ m = 7 ∨ m = 8 ∨ m = 9 ∨ m = 10 ∨
      m = 11 ∨ m = 12 := by omega
  rcases c with h | h | h | h | h | h | h | h | h | h | h | h <;> subst h <;>
    simp [joinYear, daysInMonth] at hd1 hf0 ⊢ <;>
    first
    | omega
    | (rw [hflag]; split_ifs at hd1 ⊢ <;> omega)

theorem daysToCivil_civilToDays (y m d : Int) (hm0 : 1 ≤ m) (hm1 : m ≤ 12) (hd0 : 1 ≤ d)
    (hd1 : d ≤ daysInMonth y m) : daysToCivil (civilToDays y m d) = (y, m, d) := by
  have hb := joinYear_bounds y m d hm0 hm1 hd0 hd1
  have hsy := splitYear_joinYear m d hm0 hm1 hd0 hb.2.2.1 hb.2.2.2.1 hb.2.2.2.2
  generalize hy1 : (if m ≤ 2 then y - 1 else y) = y1 at hb
  have hy : y1 + (if m ≤ 2 then 1 else 0) = y := by
    rw [← hy1]; split_ifs <;> omega
  have hfl : leapFlag (y1 % 400) ≤ 1 := by unfold leapFlag; split_ifs <;> omega
  have hse := splitEra_joinEra (y1 % 400) (joinYear m d) (by omega) (by omega) hb.1 hb.2.1
  have hje : 0 ≤ joinEra (y1 % 400) (joinYear m d) ∧
      joinEra (y1 % 400) (joinYear m d) < 146097 := by
    have h1 := hb.1
    have h2 := hb.2.1
    have h3 : leapFlag (y1 % 400) = 1 → (y1 % 400) % 4 = 3 := by
      unfold leapFlag; split_ifs with h <;> simp <;> omega
    unfold joinEra
    omega
  have e1 : (civilToDays y m d + 719468) / 146097 = y1 / 400 := by
    simp only [civilToDays, hy1]; omega
  have e2 : (civilToDays y m d + 719468) % 146097 = joinEra (y1 % 400) (joinYear m d) := by
    simp only [civilToDays, hy1]; omega
  simp only [daysToCivil, e1, e2, hse, hsy]
  refine Prod.ext ?_ rfl
  simp only
  omega

theorem civilToDays_add_day (y m d k : Int) :
    civilToDays y m (d + k) = civilToDays y m d + k := by
  simp only [civilToDays, joinEra, joinYear]
  omega

theorem civilToDays_next_month (y m : Int) (hm0 : 1 ≤ m) (hm1 : m ≤ 12) :
    civilToDays (y + m / 12) (m % 12 + 1) 1 = civilToDays y m 1 + daysInMonth y m := by
  have hflag := leapFlag_eq y
  have c : m = 1 ∨ m = 2 ∨ m = 3 ∨ m = 4 ∨ m = 5 ∨ m = 6 ∨ m = 7 ∨ m = 8 ∨ m = 9 ∨ m = 10 ∨
      m = 11 ∨ m = 12 := by omega
  rcases c with h | h | h | h | h | h | h | h | h | h | h | h <;> subst h <;>
    simp [civilToDays, joinEra, joinYear, daysInMonth] <;>
    first
    | omega
    | (unfold leapFlag at hflag; split_ifs at hflag ⊢ <;> omega)

/-! ## The C library of a zone at a fixed offset -/

theorem zoneLocaltime_eq (offset t : Int) :
    zoneLocaltime offset t = tmAt ((t + offset) / 86400) ((t + offset) % 86400) := rfl

theorem zoneLocaltime_tmAt (offset z r : Int) (h0 : 0 ≤ r) (h1 : r < 86400) :
    zoneLocaltime offset (z * 86400 + r - offset) = tmAt z r := by
  have e1 : (z * 86400 + r - offset + offset) / 86400 = z := by omega
  have e2 : (z * 86400 + r - offset + offset) % 86400 = r := by omega
  rw [zoneLocaltime_eq, e1, e2]

theorem zoneTimeOf_tmAt (offset z r mon d : Int) :
    zoneTimeOf offset { tmAt z r with tm_mon := mon, tm_mday := d } =
      civilToDays ((daysToCivil z).1 + mon / 12) (mon % 12 + 1) d * 86400 + r - offset := by
  simp only [zoneTimeOf, tmAt]
  have e : r / 3600 * 3600 + r / 60 % 60 * 60 + r % 60 = r := by omega
  have e2 : (daysToCivil z).1 - 1900 + 1900 = (daysToCivil z).1 := by omega
  rw [e2]
  omega

theorem zoneMktime_tmAt (offset z r mon d : Int) (h0 : 0 ≤ r) (h1 : r < 86400) :
    zoneMktime offset { tmAt z r with tm_mon := mon, tm_mday := d } =
      (tmAt (civilToDays ((daysToCivil z).1 + mon / 12) (mon % 12 + 1) d) r,
       civilToDays ((daysToCivil z).1 + mon / 12) (mon % 12 + 1) d * 86400 + r - offset) := by
  unfold zoneMktime
  rw [zoneTimeOf_tmAt offset z r mon d, zoneLocaltime_tmAt offset _ r h0 h1]

theorem zoneMktime_tmAt_mday (offset z r d : Int) (h0 : 0 ≤ r) (h1 : r < 86400) :
    zoneMktime offset { tmAt z r with tm_mday := d } =
      (tmAt (z + (d - (daysToCivil z).2.2)) r,
       (z + (d - (daysToCivil z).2.2)) * 86400 + r - offset) := by
  have hv := daysToCivil_valid z
  have hr := civilToDays_daysToCivil z
  have h := zoneMktime_tmAt offset z r ((daysToCivil z).2.1 - 1) d h0 h1
  have e1 : ((daysToCivil z).2.1 - 1) / 12 = 0 := by omega
  have e2 : ((daysToCivil z).2.1 - 1) % 12 + 1 = (daysToCivil z).2.1 := by omega
  have e3 : civilToDays (daysToCivil z).1 (daysToCivil z).2.1 d =
      z + (d - (daysToCivil z).2.2) := by
    have := civilToDays_add_day (daysToCivil z).1 (daysToCivil z).2.1 (daysToCivil z).2.2
      (d - (daysToCivil z).2.2)
    rw [hr] at this
    rw [← this]
    congr 1
    omega
  rw [e1, e2, add_zero, e3] at h
  exact h


theorem tod_range (x : Int) : 0 ≤ x % 86400 ∧ x % 86400 < 86400 := by omega

theorem weekdayOfDay_range (z : Int) : 0 ≤ weekdayOfDay z ∧ weekdayOfDay z ≤ 6 := by
  unfold weekdayOfDay; omega

theorem weekDays_eq (offset reference_day : Int) :
    weekDays (zoneCTime offset) reference_day =
      (List.range 7).map (fun (i : Nat) =>
        tmAt ((reference_day + offset) / 86400 -
          weekdayOfDay ((reference_day + offset) / 86400) + (i : Int))
          ((reference_day + offset) % 86400)) := by
  obtain ⟨h0, h1⟩ := tod_range (reference_day + offset)
  simp only [weekDays, zoneCTime, zoneLocaltime_eq]
  have e1 : zoneMktime offset
      { tmAt ((reference_day + offset) / 86400) ((reference_day + offset) % 86400) with
        tm_mday := (tmAt ((reference_day + offset) / 86400)
          ((reference_day + offset) % 86400)).tm_mday -
          (tmAt ((reference_day + offset) / 86400) ((reference_day + offset) % 86400)).tm_wday } =
      (tmAt ((reference_day + offset) / 86400 - weekdayOfDay ((reference_day + offset) / 86400))
          ((reference_day + offset) % 86400),
       ((reference_day + offset) / 86400 - weekdayOfDay ((reference_day + offset) / 86400)) *
          86400 + (reference_day + offset) % 86400 - offset) := by
    rw [zoneMktime_tmAt_mday offset _ _ _ h0 h1]
    simp only [tmAt]
    have e : (reference_day + offset) / 86400 +
        ((daysToCivil ((reference_day + offset) / 86400)).2.2 -
          weekdayOfDay ((reference_day + offset) / 86400) -
          (daysToCivil ((reference_day + offset) / 86400)).2.2) =
        (reference_day + offset) / 86400 - weekdayOfDay ((reference_day + offset) / 86400) := by
      omega
    rw [e]
  rw [e1]
  refine List.map_congr_left ?_
  intro i _
  simp only
  rw [zoneMktime_tmAt_mday offset _ _ _ h0 h1]
  simp only
  congr 1
  simp only [tmAt]
  omega


theorem daysInMonth_range (y m : Int) : 28 ≤ daysInMonth y m ∧ daysInMonth y m ≤ 31 := by
  unfold daysInMonth
  split_ifs <;> omega

theorem monthDayLoop_layout (ct : CTime) (month_events : List Event) (first_day : Int) :
    ∀ (n : Nat) (day : Int) (t : Tm),
      (monthDayLoop ct month_events first_day n day t).map MonthItem.layout =
        (List.range n).flatMap (fun (i : Nat) =>
          MonthItem.day (day + (i : Int)) false ::
            (if (day + (i : Int) + first_day) % 7 = 0 then [MonthItem.rowBreak] else []))
  | 0, _, _ => by simp [monthDayLoop]
  | n + 1, day, t => by
    rw [List.range_succ_eq_map, List.flatMap_cons, List.flatMap_map]
    simp only [monthDayLoop, List.map_append, List.map_cons, List.map_nil, MonthItem.layout,
      monthDayLoop_layout ct month_events first_day n (day + 1) _]
    have e : ∀ i : Nat, day + 1 + (i : Int) = day + ((Nat.succ i : Nat) : Int) := by
      intro i; push_cast; omega
    simp only [e, Nat.cast_zero, add_zero, Function.comp]
    split_ifs <;> simp [MonthItem.layout]

theorem monthDayLoop_counts (ct : CTime) (month_events : List Event) (first_day : Int) :
    ∀ (n : Nat) (day : Int) (t : Tm),
      ((monthDayLoop ct month_events first_day n day t).filter MonthItem.isDay).length = n ∧
      (monthDayLoop ct month_events first_day n day t).filter MonthItem.isBlank = []
  | 0, _, _ => by simp [monthDayLoop]
  | n + 1, day, t => by
    have ih := monthDayLoop_counts ct month_events first_day n (day + 1)
      (hasEventLoop ct (ct.mktime { t with tm_mday := day }).1 month_events).2
    simp only [monthDayLoop, List.filter_append, List.length_append, ih.1, ih.2]
    split_ifs <;> simp [MonthItem.isDay, MonthItem.isBlank, List.filter_cons] <;> omega

theorem month_first (offset z r : Int) (h0 : 0 ≤ r) (h1 : r < 86400) :
    zoneMktime offset { tmAt z r with tm_mday := 1 } =
      (tmAt (civilToDays (daysToCivil z).1 (daysToCivil z).2.1 1) r,
       civilToDays (daysToCivil z).1 (daysToCivil z).2.1 1 * 86400 + r - offset) ∧
    daysToCivil (civilToDays (daysToCivil z).1 (daysToCivil z).2.1 1) =
      ((daysToCivil z).1, (daysToCivil z).2.1, 1) := by
  have hv := daysToCivil_valid z
  have hr := civilToDays_daysToCivil z
  have hdim := daysInMonth_range (daysToCivil z).1 (daysToCivil z).2.1
  have hZ1 : z + (1 - (daysToCivil z).2.2) =
      civilToDays (daysToCivil z).1 (daysToCivil z).2.1 1 := by
    have := civilToDays_add_day (daysToCivil z).1 (daysToCivil z).2.1 (daysToCivil z).2.2
      (1 - (daysToCivil z).2.2)
    rw [hr] at this
    rw [← this]
    congr 1
    omega
  refine ⟨?_, daysToCivil_civilToDays _ _ 1 hv.1 hv.2.1 (le_refl _) (by omega)⟩
  rw [zoneMktime_tmAt_mday offset z r 1 h0 h1, hZ1]

theorem month_last (offset y m r : Int) (hm0 : 1 ≤ m) (hm1 : m ≤ 12) (h0 : 0 ≤ r)
    (h1 : r < 86400) (hc : daysToCivil (civilToDays y m 1) = (y, m, 1)) :
    zoneMktime offset { tmAt (civilToDays y m 1) r with
        tm_mon := (tmAt (civilToDays y m 1) r).tm_mon + 1, tm_mday := 0 } =
      (tmAt (civilToDays y m (daysInMonth y m)) r,
       civilToDays y m (daysInMonth y m) * 86400 + r - offset) ∧
    daysToCivil (civilToDays y m (daysInMonth y m)) = (y, m, daysInMonth y m) := by
  have hdim := daysInMonth_range y m
  have hZ2 : civilToDays (y + m / 12) (m % 12 + 1) 0 = civilToDays y m (daysInMonth y m) := by
    have a1 := civilToDays_add_day (y + m / 12) (m % 12 + 1) 1 (-1)
    have a2 := civilToDays_next_month y m hm0 hm1
    have a3 := civilToDays_add_day y m 1 (daysInMonth y m - 1)
    have b1 : (1 : Int) + -1 = 0 := by norm_num
    have b3 : (1 : Int) + (daysInMonth y m - 1) = daysInMonth y m := by omega
    rw [b1] at a1
    rw [b3] at a3
    omega
  refine ⟨?_, daysToCivil_civilToDays _ _ _ hm0 hm1 (by omega) (le_refl _)⟩
  rw [zoneMktime_tmAt offset _ r _ 0 h0 h1]
  have m1 : (tmAt (civilToDays y m 1) r).tm_mon + 1 = m := by
    simp only [tmAt, hc]; omega
  rw [m1, hc]
  simp only
  rw [hZ2]

theorem displayMonth_values (offset : Int) (c : Calendar) (current_date : Int) :
    (c.displayMonth (zoneCTime offset) current_date).first_day =
      weekdayOfDay (civilToDays (daysToCivil ((current_date + offset) / 86400)).1
        (daysToCivil ((current_date + offset) / 86400)).2.1 1) ∧
    (c.displayMonth (zoneCTime offset) current_date).days_in_month =
      daysInMonth (daysToCivil ((current_date + offset) / 86400)).1
        (daysToCivil ((current_date + offset) / 86400)).2.1 := by
  obtain ⟨h0, h1⟩ := tod_range (current_date + offset)
  have hv := daysToCivil_valid ((current_date + offset) / 86400)
  have f := month_first offset ((current_date + offset) / 86400)
    ((current_date + offset) % 86400) h0 h1
  have l := month_last offset (daysToCivil ((current_date + offset) / 86400)).1
    (daysToCivil ((current_date + offset) / 86400)).2.1 ((current_date + offset) % 86400)
    hv.1 hv.2.1 h0 h1 f.2
  have hfd : (c.displayMonth (zoneCTime offset) current_date).first_day =
      (zoneMktime offset { tmAt ((current_date + offset) / 86400)
        ((current_date + offset) % 86400) with tm_mday := 1 }).1.tm_wday := rfl
  have hdm : (c.displayMonth (zoneCTime offset) current_date).days_in_month =
      (zoneMktime offset
        { (zoneMktime offset { tmAt ((current_date + offset) / 86400)
            ((current_date + offset) % 86400) with tm_mday := 1 }).1 with
          tm_mon := (zoneMktime offset { tmAt ((current_date + offset) / 86400)
            ((current_date + offset) % 86400) with tm_mday := 1 }).1.tm_mon + 1,
          tm_mday := 0 }).1.tm_mday := rfl
  constructor
  · rw [hfd, f.1]
    rfl
  · rw [hdm, f.1]
    simp only
    rw [l.1]
    simp only [tmAt, l.2]

/-! ## The C library of a zone with daylight saving -/

theorem dstLocaltime_standard (z : DstZone) (h : z.dst_end ≤ z.dst_begin) (t : Int) :
    dstLocaltime z t = zoneLocaltime z.std_offset t := by
  have hd : z.isDst t = false := by
    unfold DstZone.isDst
    by_cases h1 : z.dst_begin ≤ t
    · have h2 : ¬ t < z.dst_end := by omega
      simp [h1, h2]
    · simp [h1]
  unfold dstLocaltime
  rw [hd]
  rfl

theorem dstMktime_standard (z : DstZone) (h : z.dst_end ≤ z.dst_begin) (tm : Tm)
    (hi : tm.tm_isdst ≤ 0) : dstMktime z tm = zoneMktime z.std_offset tm := by
  have hd : ∀ t, z.isDst t = false := by
    intro t
    unfold DstZone.isDst
    by_cases h1 : z.dst_begin ≤ t
    · have h2 : ¬ t < z.dst_end := by omega
      simp [h1, h2]
    · simp [h1]
  have ht : dstTimeOf z tm = zoneTimeOf z.std_offset tm := by
    unfold dstTimeOf
    rw [if_neg (by omega), hd]
    simp
  unfold dstMktime zoneMktime
  rw [ht, dstLocaltime_standard z h]

/-! ## Lemmas on the views -/

theorem firstEventAt_spec (t : Int) :
    ∀ l : List Event,
      (firstEventAt t l = none ↔ ∀ e ∈ l, e.isAtTime t = false) ∧
      (∀ e, firstEventAt t l = some e →
        e.isAtTime t = true ∧
        ∃ l1 l2, l = l1 ++ e :: l2 ∧ ∀ x ∈ l1, x.isAtTime t = false)
  | [] => by simp [firstEventAt]
  | x :: xs => by
    have ih := firstEventAt_spec t xs
    unfold firstEventAt
    split_ifs with hx
    · refine ⟨by simp [hx], ?_⟩
      intro e he
      cases he
      exact ⟨hx, [], xs, rfl, by simp⟩
    · have hx1 : x.isAtTime t = false := by simpa using hx
      refine ⟨by simp [hx1, ih.1], ?_⟩
      intro e he
      obtain ⟨h1, l1, l2, h2, h3⟩ := ih.2 e he
      refine ⟨h1, x :: l1, l2, by simp [h2], ?_⟩
      intro y hy
      rcases List.mem_cons.mp hy with rfl | hy
      · exact hx1
      · exact h3 y hy

theorem displayMonth_items (ct : CTime) (c : Calendar) (current_date : Int) :
    ∃ (evs : List Event) (t : Tm),
      (c.displayMonth ct current_date).items =
        List.replicate (c.displayMonth ct current_date).first_day.toNat MonthItem.blank ++
        monthDayLoop ct evs (c.displayMonth ct current_date).first_day
          (c.displayMonth ct current_date).days_in_month.toNat 1 t :=
  ⟨_, _, rfl⟩


/-! ### What the month and week views compute in a zone at a fixed offset -/

theorem zoneMktime_tmAt_self (offset z r : Int) (h0 : 0 ≤ r) (h1 : r < 86400) :
    zoneMktime offset (tmAt z r) = (tmAt z r, z * 86400 + r - offset) := by
  have h := zoneMktime_tmAt_mday offset z r (tmAt z r).tm_mday h0 h1
  have e : z + ((tmAt z r).tm_mday - (daysToCivil z).2.2) = z := by
    simp only [tmAt]; omega
  rw [e] at h
  exact h

theorem displayMonth_range (offset : Int) (c : Calendar) (current_date : Int) :
    (c.displayMonth (zoneCTime offset) current_date).month_start =
      civilToDays (daysToCivil ((current_date + offset) / 86400)).1
        (daysToCivil ((current_date + offset) / 86400)).2.1
        (daysInMonth (daysToCivil ((current_date + offset) / 86400)).1
          (daysToCivil ((current_date + offset) / 86400)).2.1) * 86400 +
        (current_date + offset) % 86400 - offset ∧
    (c.displayMonth (zoneCTime offset) current_date).month_end =
      (c.displayMonth (zoneCTime offset) current_date).month_start := by
  obtain ⟨h0, h1⟩ := tod_range (current_date + offset)
  have hv := daysToCivil_valid ((current_date + offset) / 86400)
  have f := month_first offset ((current_date + offset) / 86400)
    ((current_date + offset) % 86400) h0 h1
  have l := month_last offset (daysToCivil ((current_date + offset) / 86400)).1
    (daysToCivil ((current_date + offset) / 86400)).2.1 ((current_date + offset) % 86400)
    hv.1 hv.2.1 h0 h1 f.2
  have hms : (c.displayMonth (zoneCTime offset) current_date).month_start =
      (zoneMktime offset (zoneMktime offset
        { (zoneMktime offset { tmAt ((current_date + offset) / 86400)
            ((current_date + offset) % 86400) with tm_mday := 1 }).1 with
          tm_mon := (zoneMktime offset { tmAt ((current_date + offset) / 86400)
            ((current_date + offset) % 86400) with tm_mday := 1 }).1.tm_mon + 1,
          tm_mday := 0 }).1).2 := rfl
  have hme : (c.displayMonth (zoneCTime offset) current_date).month_end =
      (zoneMktime offset
        { (zoneMktime offset (zoneMktime offset
            { (zoneMktime offset { tmAt ((current_date + offset) / 86400)
                ((current_date + offset) % 86400) with tm_mday := 1 }).1 with
              tm_mon := (zoneMktime offset { tmAt ((current_date + offset) / 86400)
                ((current_date + offset) % 86400) with tm_mday := 1 }).1.tm_mon + 1,
              tm_mday := 0 }).1).1 with
          tm_mday := (zoneMktime offset
            { (zoneMktime offset { tmAt ((current_date + offset) / 86400)
                ((current_date + offset) % 86400) with tm_mday := 1 }).1 with
              tm_mon := (zoneMktime offset { tmAt ((current_date + offset) / 86400)
                ((current_date + offset) % 86400) with tm_mday := 1 }).1.tm_mon + 1,
              tm_mday := 0 }).1.tm_mday }).2 := rfl
  have hstart : (c.displayMonth (zoneCTime offset) current_date).month_start =
      civilToDays (daysToCivil ((current_date + offset) / 86400)).1
        (daysToCivil ((current_date + offset) / 86400)).2.1
        (daysInMonth (daysToCivil ((current_date + offset) / 86400)).1
          (daysToCivil ((current_date + offset) / 86400)).2.1) * 86400 +
        (current_date + offset) % 86400 - offset := by
    rw [hms, f.1]
    simp only
    rw [l.1]
    simp only
    rw [zoneMktime_tmAt_self offset _ _ h0 h1]
  refine ⟨hstart, ?_⟩
  rw [hstart, hme, f.1]
  simp only
  rw [l.1]
  simp only
  rw [zoneMktime_tmAt_self offset _ _ h0 h1]
  simp only
  rw [zoneMktime_tmAt_mday offset _ _ _ h0 h1]
  simp only [tmAt]
  omega

theorem weekRow_zone (offset : Int) (c : Calendar) (hour r : Int) (h0 : 0 ≤ r)
    (h1 : r < 86400) :
    ∀ zs : List Int,
      weekRow (zoneCTime offset) c hour (zs.map (fun z => tmAt z r)) =
        (zs.map (fun z => (z * 86400 + r - offset + hour * 3600,
            firstEventAt (z * 86400 + r - offset + hour * 3600) c.events)),
         zs.map (fun z => tmAt z r))
  | [] => rfl
  | z :: zs => by
    have ih := weekRow_zone offset c hour r h0 h1 zs
    have hm : (zoneCTime offset).mktime (tmAt z r) = (tmAt z r, z * 86400 + r - offset) :=
      zoneMktime_tmAt_self offset z r h0 h1
    simp only [List.map_cons, weekRow, hm, ih]

theorem weekRows_zone (offset : Int) (c : Calendar) (r : Int) (h0 : 0 ≤ r) (h1 : r < 86400)
    (zs : List Int) :
    ∀ hours : List Int,
      weekRows (zoneCTime offset) c hours (zs.map (fun z => tmAt z r)) =
        hours.map (fun hour => zs.map (fun z => (z * 86400 + r - offset + hour * 3600,
          firstEventAt (z * 86400 + r - offset + hour * 3600) c.events)))
  | [] => rfl
  | hour :: hours => by
    simp only [weekRows, weekRow_zone offset c hour r h0 h1 zs, List.map_cons,
      weekRows_zone offset c r h0 h1 zs hours]

theorem weekGrid_zone (offset : Int) (c : Calendar) (reference_day : Int) :
    weekGrid (zoneCTime offset) c reference_day =
      (List.range 13).map (fun (k : Nat) => (List.range 7).map (fun (i : Nat) =>
        (reference_day +
            ((i : Int) - (zoneLocaltime offset reference_day).tm_wday) * 86400 +
            (8 + (k : Int)) * 3600,
         firstEventAt (reference_day +
            ((i : Int) - (zoneLocaltime offset reference_day).tm_wday) * 86400 +
            (8 + (k : Int)) * 3600) c.events))) := by
  obtain ⟨h0, h1⟩ := tod_range (reference_day + offset)
  have hwd : (zoneLocaltime offset reference_day).tm_wday =
      weekdayOfDay ((reference_day + offset) / 86400) := rfl
  have hdays : weekDays (zoneCTime offset) reference_day =
      ((List.range 7).map (fun (i : Nat) => (reference_day + offset) / 86400 -
        weekdayOfDay ((reference_day + offset) / 86400) + (i : Int))).map
        (fun z => tmAt z ((reference_day + offset) % 86400)) := by
    rw [weekDays_eq, List.map_map]
    rfl
  unfold weekGrid
  rw [hdays, weekRows_zone offset c _ h0 h1, List.map_map]
  refine List.map_congr_left ?_
  intro k _
  simp only [Function.comp, List.map_map]
  refine List.map_congr_left ?_
  intro i _
  have e : ((reference_day + offset) / 86400 - weekdayOfDay ((reference_day + offset) / 86400) +
      (i : Int)) * 86400 + (reference_day + offset) % 86400 - offset + (8 + (k : Int)) * 3600 =
      reference_day + ((i : Int) - (zoneLocaltime offset reference_day).tm_wday) * 86400 +
        (8 + (k : Int)) * 3600 := by
    rw [hwd]; omega
  show (_, _) = (_, _)
  simp only [Function.comp]
  rw [e]

/-! ### Agenda view -/

theorem agendaEntries_loop (libc : LibC) :
    ∀ (l : List Event) (cur : String), agendaEntries (agendaLoop libc cur l) = l
  | [], _ => rfl
  | e :: es, cur => by
    unfold agendaLoop
    split_ifs <;> simp [agendaEntries, agendaEntries_loop libc es]

theorem agendaHeaders_loop_sublist (libc : LibC) :
    ∀ (l : List Event) (cur : String),
      (agendaHeaders (agendaLoop libc cur l)).Sublist
        (l.map (fun e => dateToString libc e.start_time))
  | [], _ => by simp [agendaLoop, agendaHeaders]
  | e :: es, cur => by
    unfold agendaLoop
    split_ifs
    · simp only [agendaHeaders, List.map_cons]
      exact (agendaHeaders_loop_sublist libc es _).cons₂ _
    · simp only [agendaHeaders, List.map_cons]
      exact (agendaHeaders_loop_sublist libc es _).cons _

theorem agendaHeaders_loop_cover (libc : LibC) :
    ∀ (l : List Event) (cur : String) (e : Event), e ∈ l →
      dateToString libc e.start_time ∈ agendaHeaders (agendaLoop libc cur l) ∨
      dateToString libc e.start_time = cur
  | [], _, e, h => by cases h
  | x :: xs, cur, e, h => by
    unfold agendaLoop
    rcases List.mem_cons.mp h with rfl | hmem
    · split_ifs with hx
      · left; simp [agendaHeaders]
      · right; exact not_not.mp hx
    · split_ifs with hx
      · left
        simp only [agendaHeaders, List.mem_cons]
        rcases agendaHeaders_loop_cover libc xs _ e hmem with h1 | h1
        · exact Or.inr h1
        · exact Or.inl h1
      · simp only [agendaHeaders]
        exact agendaHeaders_loop_cover libc xs cur e hmem

theorem underOwnHeader_loop (libc : LibC) :
    ∀ (l : List Event) (cur : String), underOwnHeader libc cur (agendaLoop libc cur l)
  | [], _ => by simp [agendaLoop, underOwnHeader]
  | e :: es, cur => by
    unfold agendaLoop
    split_ifs with hx
    · simp only [underOwnHeader, true_and]
      exact underOwnHeader_loop libc es _
    · simp only [underOwnHeader]
      exact ⟨not_not.mp hx, underOwnHeader_loop libc es cur⟩

theorem agendaHeaders_loop_nodup (libc : LibC) :
    ∀ (l : List Event) (cur : String), SortedByStart l →
      (∀ a ∈ l, ∀ b ∈ l, ∀ d ∈ l, a.start_time ≤ b.start_time → b.start_time ≤ d.start_time →
        dateToString libc a.start_time = dateToString libc d.start_time →
        dateToString libc b.start_time = dateToString libc a.start_time) →
      (∀ e ∈ l, dateToString libc e.start_time = cur →
        ∀ x ∈ l, x.start_time ≤ e.start_time → dateToString libc x.start_time = cur) →
      cur ∉ agendaHeaders (agendaLoop libc cur l) ∧
      (agendaHeaders (agendaLoop libc cur l)).Nodup
  | [], _, _, _, _ => by simp [agendaLoop, agendaHeaders]
  | e :: es, cur, hs, hconv, hcur => by
    have hmin : ∀ x ∈ es, e.start_time ≤ x.start_time := (List.pairwise_cons.mp hs).1
    have hs1 : SortedByStart es := (List.pairwise_cons.mp hs).2
    have hconv1 : ∀ a ∈ es, ∀ b ∈ es, ∀ d ∈ es, a.start_time ≤ b.start_time →
        b.start_time ≤ d.start_time →
        dateToString libc a.start_time = dateToString libc d.start_time →
        dateToString libc b.start_time = dateToString libc a.start_time :=
      fun a ha b hb d hd => hconv a (List.mem_cons_of_mem _ ha) b (List.mem_cons_of_mem _ hb) d
        (List.mem_cons_of_mem _ hd)
    unfold agendaLoop
    split_ifs with hx
    · -- a new header
      have hnone : ∀ x ∈ es, dateToString libc x.start_time ≠ cur := by
        intro x hxm hxc
        exact hx (hcur x (List.mem_cons_of_mem _ hxm) hxc e (List.mem_cons_self _ _)
          (hmin x hxm))
      have ih := agendaHeaders_loop_nodup libc es (dateToString libc e.start_time) hs1 hconv1
        (by
          intro y hy hyd x hxm hxy
          exact hconv e (List.mem_cons_self _ _) x (List.mem_cons_of_mem _ hxm) y
            (List.mem_cons_of_mem _ hy) (hmin x hxm) hxy hyd.symm)
      have hsub := agendaHeaders_loop_sublist libc es (dateToString libc e.start_time)
      simp only [agendaHeaders, List.mem_cons, List.nodup_cons, not_or]
      refine ⟨⟨fun h => hx h.symm, ?_⟩, ih.1, ih.2⟩
      intro hin
      obtain ⟨x, hxm, hxd⟩ := List.mem_map.mp (hsub.subset hin)
      exact hnone x hxm hxd
    · simp only [agendaHeaders]
      exact agendaHeaders_loop_nodup libc es cur hs1 hconv1
        (fun y hy hyd x hxm hxy => hcur y (List.mem_cons_of_mem _ hy) hyd x
          (List.mem_cons_of_mem _ hxm) hxy)


/-! ## Claims on creation with a fixed duration and on the views -/


/-- The month grid in a zone that does not change its clocks.  In a zone at a fixed offset
from UTC, for every reference instant `displayMonth` computes `first_day` as the weekday
(Sunday = 0) of day 1 of the month that holds the reference instant, and `days_in_month` as the
number of days of that month in the Gregorian calendar; the grid is `first_day` blank cells,
then one cell for each day 1 to `days_in_month`, with a row break after each cell where
`day + first_day` is a multiple of 7.  With daylight saving this fails, see
`displayMonth_dst_short_month`. -/
theorem month_grid (offset : Int) (c : Calendar) (current_date : Int) (t0 : Tm)
    (ht0 : t0 = zoneLocaltime offset current_date) :
    (c.displayMonth (zoneCTime offset) current_date).first_day =
      weekdayOfDay (civilToDays (t0.tm_year + 1900) (t0.tm_mon + 1) 1) ∧
    (c.displayMonth (zoneCTime offset) current_date).days_in_month =
      daysInMonth (t0.tm_year + 1900) (t0.tm_mon + 1) ∧
    (0 ≤ (c.displayMonth (zoneCTime offset) current_date).first_day ∧
      (c.displayMonth (zoneCTime offset) current_date).first_day ≤ 6) ∧
    (28 ≤ (c.displayMonth (zoneCTime offset) current_date).days_in_month ∧
      (c.displayMonth (zoneCTime offset) current_date).days_in_month ≤ 31) ∧
    (c.displayMonth (zoneCTime offset) current_date).items.map MonthItem.layout =
      List.replicate (c.displayMonth (zoneCTime offset) current_date).first_day.toNat
        MonthItem.blank ++
      (List.range (c.displayMonth (zoneCTime offset) current_date).days_in_month.toNat).flatMap
        (fun (i : Nat) => MonthItem.day (1 + (i : Int)) false ::
          (if (1 + (i : Int) + (c.displayMonth (zoneCTime offset) current_date).first_day) % 7 = 0
            then [MonthItem.rowBreak] else [])) ∧
    ((c.displayMonth (zoneCTime offset) current_date).items.filter MonthItem.isBlank).length =
      (c.displayMonth (zoneCTime offset) current_date).first_day.toNat ∧
    ((c.displayMonth (zoneCTime offset) current_date).items.filter MonthItem.isDay).length =
      (c.displayMonth (zoneCTime offset) current_date).days_in_month.toNat := by
  have hv := displayMonth_values offset c current_date
  have hy : t0.tm_year + 1900 = (daysToCivil ((current_date + offset) / 86400)).1 := by
    rw [ht0]; simp only [zoneLocaltime]; omega
  have hm : t0.tm_mon + 1 = (daysToCivil ((current_date + offset) / 86400)).2.1 := by
    rw [ht0]; simp only [zoneLocaltime]; omega
  rw [hy, hm]
  refine ⟨hv.1, hv.2, ?_, ?_, ?_, ?_, ?_⟩
  · rw [hv.1]; exact weekdayOfDay_range _
  · rw [hv.2]; exact daysInMonth_range _ _
  · obtain ⟨evs, t, hitems⟩ := displayMonth_items (zoneCTime offset) c current_date
    rw [hitems, List.map_append, monthDayLoop_layout]
    simp [MonthItem.layout]
  · obtain ⟨evs, t, hitems⟩ := displayMonth_items (zoneCTime offset) c current_date
    rw [hitems, List.filter_append, (monthDayLoop_counts _ _ _ _ _ _).2]
    simp [MonthItem.isBlank]
  · obtain ⟨evs, t, hitems⟩ := displayMonth_items (zoneCTime offset) c current_date
    rw [hitems, List.filter_append, List.length_append, (monthDayLoop_counts _ _ _ _ _ _).1]
    simp [MonthItem.isDay]

/-- The month grid in UTC: April 2025 has 30 days and starts on a Tuesday: 2 leading blanks
and 30 day cells.  February has 29 days in 2024 and 28 in 2100, and December 2024 has 31. -/
theorem month_grid_witness :
    ((Calendar.empty "My Calendar" "User").displayMonth (zoneCTime 0)
      (utcInstant 2025 4 17 14 30)).first_day = 2 ∧
    ((Calendar.empty "My Calendar" "User").displayMonth (zoneCTime 0)
      (utcInstant 2025 4 17 14 30)).days_in_month = 30 ∧
    (((Calendar.empty "My Calendar" "User").displayMonth (zoneCTime 0)
      (utcInstant 2025 4 17 14 30)).items.filter MonthItem.isBlank).length = 2 ∧
    (((Calendar.empty "My Calendar" "User").displayMonth (zoneCTime 0)
      (utcInstant 2025 4 17 14 30)).items.filter MonthItem.isDay).length = 30 ∧
    ((Calendar.empty "My Calendar" "User").displayMonth (zoneCTime 0)
      (utcInstant 2024 2 10 8 0)).days_in_month = 29 ∧
    ((Calendar.empty "My Calendar" "User").displayMonth (zoneCTime 0)
      (utcInstant 2100 2 10 8 0)).days_in_month = 28 ∧
    ((Calendar.empty "My Calendar" "User").displayMonth (zoneCTime 0)
      (utcInstant 2024 12 31 23 59)).days_in_month = 31 := by
  have h := month_grid 0 (Calendar.empty "My Calendar" "User") (utcInstant 2025 4 17 14 30)
    _ rfl
  have h1 : ((Calendar.empty "My Calendar" "User").displayMonth (zoneCTime 0)
      (utcInstant 2025 4 17 14 30)).first_day = 2 := by rw [h.1]; decide
  have h2 : ((Calendar.empty "My Calendar" "User").displayMonth (zoneCTime 0)
      (utcInstant 2025 4 17 14 30)).days_in_month = 30 := by rw [h.2.1]; decide
  refine ⟨h1, h2, ?_, ?_, by decide, by decide, by decide⟩
  · rw [h.2.2.2.2.2.1, h1]; rfl
  · rw [h.2.2.2.2.2.2, h2]; rfl

/-- C12, evaluated on the code in US Eastern time at the reference instant 2024-11-01 00:30
EDT (04:30 UTC), two days before the clocks go back.  `localtime` gives 1 November 00:30 with
`tm_isdst = 1`, and `first_day` is 5, a Friday, as it should be.  For `days_in_month` the code
sets `tm_mon` to December and `tm_mday` to 0 and leaves `tm_isdst = 1`: `mktime` reads 30
November 00:30 as daylight-saving time, which is 29 November 23:30 in the standard time then in
force, so `days_in_month` is 29 where November has 30 days, and the grid has 29 day cells and
no cell for day 30. -/
theorem displayMonth_dst_short_month :
    tmDate (dstLocaltime easternZone2024 (utcInstant 2024 11 1 4 30)) =
      (2024, 11, 1, 0, 30, 1) ∧
    tmDate (dstMktime easternZone2024
      { dstLocaltime easternZone2024 (utcInstant 2024 11 1 4 30) with
        tm_mon := 11, tm_mday := 0 }).1 = (2024, 11, 29, 23, 30, 0) ∧
    (sampleUI.calendar.displayMonth (dstCTime easternZone2024)
      (utcInstant 2024 11 1 4 30)).first_day = 5 ∧
    (sampleUI.calendar.displayMonth (dstCTime easternZone2024)
      (utcInstant 2024 11 1 4 30)).days_in_month = 29 ∧
    daysInMonth 2024 11 = 30 ∧
    ((sampleUI.calendar.displayMonth (dstCTime easternZone2024)
      (utcInstant 2024 11 1 4 30)).items.filter MonthItem.isDay).length = 29 ∧
    MonthItem.day 30 false ∉ (sampleUI.calendar.displayMonth (dstCTime easternZone2024)
      (utcInstant 2024 11 1 4 30)).items.map MonthItem.layout := by
  decide

/-- C13: for the events that `getEventsBetween` returns from a store sorted by `start_time`,
`displayAgenda` lists every event once and in order, prints exactly one header for each
calendar date on which a listed event starts and none for any other date, prints the headers
in chronological order (of two headers, the earlier one has a listed event that starts
strictly before a listed event of the later one), and lists each event under the header of its
own start date.  The date text of the C library is taken to be non-empty and not to return
to an earlier date between the listed instants. -/
theorem displayAgenda_groups (libc : LibC) (c : Calendar) (start end_ : Int)
    (hsorted : SortedByStart c.events)
    (hne : ∀ e ∈ c.getEventsBetween start end_, dateToString libc e.start_time ≠ "")
    (hconv : ∀ a ∈ c.getEventsBetween start end_, ∀ b ∈ c.getEventsBetween start end_,
      ∀ d ∈ c.getEventsBetween start end_, a.start_time ≤ b.start_time →
        b.start_time ≤ d.start_time →
        dateToString libc a.start_time = dateToString libc d.start_time →
        dateToString libc b.start_time = dateToString libc a.start_time) :
    agendaEntries (c.displayAgenda libc start end_) = c.getEventsBetween start end_ ∧
    (agendaHeaders (c.displayAgenda libc start end_)).Nodup ∧
    (∀ d, d ∈ agendaHeaders (c.displayAgenda libc start end_) ↔
      ∃ e ∈ c.getEventsBetween start end_, dateToString libc e.start_time = d) ∧
    (agendaHeaders (c.displayAgenda libc start end_)).Sublist
      ((c.getEventsBetween start end_).map (fun e => dateToString libc e.start_time)) ∧
    (∀ h1 h2, [h1, h2].Sublist (agendaHeaders (c.displayAgenda libc start end_)) →
      ∃ e1 ∈ c.getEventsBetween start end_, ∃ e2 ∈ c.getEventsBetween start end_,
        dateToString libc e1.start_time = h1 ∧ dateToString libc e2.start_time = h2 ∧
        e1.start_time < e2.start_time) ∧
    underOwnHeader libc "" (c.displayAgenda libc start end_) := by
  have hls : SortedByStart (c.getEventsBetween start end_) := by
    unfold Calendar.getEventsBetween
    rw [getEventsBetween_loop]
    simpa using List.Pairwise.filter _ hsorted
  unfold Calendar.displayAgenda
  dsimp only
  split_ifs with hempty
  · rw [hempty]
    simp [agendaEntries, agendaHeaders, underOwnHeader]
  · have hnd := agendaHeaders_loop_nodup libc (c.getEventsBetween start end_) "" hls hconv
      (fun e he hd => absurd hd (hne e he))
    have hsub := agendaHeaders_loop_sublist libc (c.getEventsBetween start end_) ""
    refine ⟨agendaEntries_loop libc _ _, hnd.2, ?_, hsub, ?_, underOwnHeader_loop libc _ _⟩
    · intro d
      constructor
      · intro hd
        obtain ⟨x, hxm, hxd⟩ := List.mem_map.mp (hsub.subset hd)
        exact ⟨x, hxm, hxd⟩
      · rintro ⟨e, he, rfl⟩
        rcases agendaHeaders_loop_cover libc _ "" e he with h1 | h1
        · exact h1
        · exact absurd h1 (hne e he)
    · intro h1 h2 h12
      have hne12 : h1 ≠ h2 := by
        have := List.Nodup.sublist h12 hnd.2
        simpa using this
      obtain ⟨l1, hl1, hmap⟩ := List.sublist_map_iff.mp (h12.trans hsub)
      match l1, hl1, hmap with
      | [e1, e2], hl1, hmap =>
        simp only [List.map_cons, List.map_nil, List.cons.injEq, and_true] at hmap
        have hle : e1.start_time ≤ e2.start_time :=
          (List.pairwise_cons.mp (List.Pairwise.sublist hl1 hls)).1 e2 (by simp)
        refine ⟨e1, hl1.subset (by simp), e2, hl1.subset (by simp), hmap.1.symm, hmap.2.symm,
          lt_of_le_of_ne hle ?_⟩
        intro heq
        apply hne12
        rw [hmap.1, hmap.2, heq]

/-- Witness of C13: A and B on 2024-03-10 and C on 2024-03-12, over the three days
2024-03-10 to 2024-03-12: two headers, none for 2024-03-11. -/
theorem displayAgenda_groups_witness :
    agendaHeaders (agendaCalendar.displayAgenda utcLibC (utcInstant 2024 3 10 0 0)
      (utcInstant 2024 3 12 23 59)) = ["2024-03-10", "2024-03-12"] ∧
    (agendaHeaders (agendaCalendar.displayAgenda utcLibC (utcInstant 2024 3 10 0 0)
      (utcInstant 2024 3 12 23 59))).Nodup ∧
    agendaEntries (agendaCalendar.displayAgenda utcLibC (utcInstant 2024 3 10 0 0)
      (utcInstant 2024 3 12 23 59)) = [sampleA, sampleB, sampleDay3] :=
  ⟨by decide,
   (displayAgenda_groups utcLibC agendaCalendar (utcInstant 2024 3 10 0 0)
      (utcInstant 2024 3 12 23 59) (by decide) (by decide) (by decide)).2.1,
   by decide⟩

/-- C14, evaluated on the code: with A and B of 2024-03-10 in the store and the reference
instant 2024-03-10 14:30, `displayMonth` takes both `month_start` and `month_end` from the last
day of the month (2024-03-31 14:30), `getEventsBetween` gives no event for that range, and the
cell of day 10 is not marked, although A is among the events between the first and the last
day of March and starts on day 10. -/
theorem displayMonth_day_unmarked :
    (sampleUI.calendar.displayMonth (zoneCTime 0) (utcInstant 2024 3 10 14 30)).month_start =
      utcInstant 2024 3 31 14 30 ∧
    (sampleUI.calendar.displayMonth (zoneCTime 0) (utcInstant 2024 3 10 14 30)).month_end =
      utcInstant 2024 3 31 14 30 ∧
    sampleUI.calendar.getEventsBetween (utcInstant 2024 3 31 14 30)
      (utcInstant 2024 3 31 14 30) = [] ∧
    MonthItem.day 10 false ∈
      (sampleUI.calendar.displayMonth (zoneCTime 0) (utcInstant 2024 3 10 14 30)).items ∧
    sampleA ∈ sampleUI.calendar.getEventsBetween (utcInstant 2024 3 1 14 30)
      (utcInstant 2024 3 31 14 30) ∧
    sampleA.isSameDay (zoneCTime 0) (utcInstant 2024 3 10 14 30) = true := by
  decide

/-- C15, evaluated on the code: with A (2024-03-10 09:00 to 10:00) in the store and the
reference instant 2024-03-10 14:30, a Sunday, the cell of Sunday in the row of hour 9 is tested
at 2024-03-10 23:30 (the time of day of the reference plus 9 hours) and is empty, although A is
the first stored event at 2024-03-10 09:00. -/
theorem weekGrid_cell_shifted :
    ((weekGrid (zoneCTime 0) sampleUI.calendar (utcInstant 2024 3 10 14 30))[1]?.bind
      (fun row => row[0]?)) = some (utcInstant 2024 3 10 23 30, none) ∧
    firstEventAt (utcInstant 2024 3 10 9 0) sampleUI.calendar.events = some sampleA ∧
    sampleA.isAtTime (utcInstant 2024 3 10 9 0) = true := by
  decide

/-- The week window in a zone that does not change its clocks.  In a zone at a fixed offset
from UTC, for every reference instant the week window of `displayWeek` is seven consecutive
calendar days from the Sunday on or before the reference day (with daylight saving this fails,
see `weekDays_dst_repeated_day`).  `week_days[i]` is the local time `i - weekday_index(reference)` days from the reference
instant: its weekday is `i` (so `week_days[0]` is a Sunday), its date lies `i` days after the
date that is `weekday_index(reference)` days before the reference date, and its time of day is
that of the reference.  The reference day is `week_days[weekday_index(reference)]`.  Dates are
counted through day numbers, so month and year boundaries are crossed correctly. -/
theorem week_window (offset reference_day : Int) (t0 : Tm)
    (ht0 : t0 = zoneLocaltime offset reference_day) :
    weekDays (zoneCTime offset) reference_day =
      (List.range 7).map (fun (i : Nat) =>
        zoneLocaltime offset (reference_day + ((i : Int) - t0.tm_wday) * 86400)) ∧
    (0 ≤ t0.tm_wday ∧ t0.tm_wday ≤ 6) ∧
    (∀ i : Nat, i < 7 →
      ∃ tm, (weekDays (zoneCTime offset) reference_day)[i]? = some tm ∧
        tm.tm_wday = (i : Int) ∧
        (tm.tm_year + 1900, tm.tm_mon + 1, tm.tm_mday) =
          daysToCivil (civilToDays (t0.tm_year + 1900) (t0.tm_mon + 1) t0.tm_mday -
            t0.tm_wday + (i : Int)) ∧
        tm.tm_hour = t0.tm_hour ∧ tm.tm_min = t0.tm_min ∧ tm.tm_sec = t0.tm_sec) ∧
    (weekDays (zoneCTime offset) reference_day)[t0.tm_wday.toNat]? = some t0 := by
  have hw := weekdayOfDay_range ((reference_day + offset) / 86400)
  have hwd : t0.tm_wday = weekdayOfDay ((reference_day + offset) / 86400) := by rw [ht0]; rfl
  have hr := civilToDays_daysToCivil ((reference_day + offset) / 86400)
  have hday : civilToDays (t0.tm_year + 1900) (t0.tm_mon + 1) t0.tm_mday =
      (reference_day + offset) / 86400 := by
    have e1 : t0.tm_year + 1900 = (daysToCivil ((reference_day + offset) / 86400)).1 := by
      rw [ht0]; simp only [zoneLocaltime]; omega
    have e2 : t0.tm_mon + 1 = (daysToCivil ((reference_day + offset) / 86400)).2.1 := by
      rw [ht0]; simp only [zoneLocaltime]; omega
    have e3 : t0.tm_mday = (daysToCivil ((reference_day + offset) / 86400)).2.2 := by
      rw [ht0]; rfl
    rw [e1, e2, e3, hr]
  have hwk := weekDays_eq offset reference_day
  refine ⟨?_, by rw [hwd]; exact hw, ?_, ?_⟩
  · rw [hwk]
    refine List.map_congr_left ?_
    intro i _
    rw [zoneLocaltime_eq, hwd]
    congr 1 <;> omega
  · intro i hi
    refine ⟨_, by rw [hwk, List.getElem?_map, List.getElem?_range hi]; rfl, ?_, ?_, ?_, ?_, ?_⟩
    · simp only [tmAt, weekdayOfDay]
      omega
    · rw [hday, hwd]
      simp only [tmAt]
      refine Prod.ext ?_ (Prod.ext ?_ rfl)
      · simp only; omega
      · simp only; omega
    · rw [ht0]; rfl
    · rw [ht0]; rfl
    · rw [ht0]; rfl
  · have hlt : t0.tm_wday.toNat < 7 := by omega
    have hcast : ((t0.tm_wday.toNat : Nat) : Int) = t0.tm_wday :=
      Int.toNat_of_nonneg (by omega)
    have hz : (reference_day + offset) / 86400 -
        weekdayOfDay ((reference_day + offset) / 86400) + t0.tm_wday =
        (reference_day + offset) / 86400 := by omega
    rw [hwk, List.getElem?_map, List.getElem?_range hlt]
    simp only [Option.map_some']
    rw [hcast, hz, ht0, zoneLocaltime_eq]

/-- The week window in UTC at the reference instant 2025-01-01 14:30, a Wednesday: the
window runs from Sunday 2024-12-29 to Saturday 2025-01-04. -/
theorem week_window_witness :
    (weekDays (zoneCTime 0) (utcInstant 2025 1 1 14 30)).map
        (fun tm => (tm.tm_year + 1900, tm.tm_mon + 1, tm.tm_mday, tm.tm_wday)) =
      [(2024, 12, 29, 0), (2024, 12, 30, 1), (2024, 12, 31, 2), (2025, 1, 1, 3),
       (2025, 1, 2, 4), (2025, 1, 3, 5), (2025, 1, 4, 6)] ∧
    (weekDays (zoneCTime 0) (utcInstant 2025 1 1 14 30))[3]? =
      some (zoneLocaltime 0 (utcInstant 2025 1 1 14 30)) :=
  ⟨by decide,
   (week_window 0 (utcInstant 2025 1 1 14 30) (zoneLocaltime 0 (utcInstant 2025 1 1 14 30))
      rfl).2.2.2⟩

/-- C16, evaluated on the code in US Eastern time at the reference instant 2024-11-03 00:30
EDT (04:30 UTC), the Sunday on which the clocks go back at 02:00.  `localtime` gives Sunday 3
November 00:30 with `tm_isdst = 1`, and every `week_days[i]` is made from it with
`tm_mday + i` and the same `tm_isdst`: `mktime` reads 4 November 00:30 as daylight-saving
time, which is Sunday 3 November 23:30 in the standard time then in force, and so on.  The
window is Sunday 3, Sunday 3, Monday 4, up to Friday 8 November: `week_days[1]` is not the day
after `week_days[0]`, `week_days[i]` is not a day of weekday `i`, and Saturday 9 November is
missing. -/
theorem weekDays_dst_repeated_day :
    tmDate (dstLocaltime easternZone2024 (utcInstant 2024 11 3 4 30)) =
      (2024, 11, 3, 0, 30, 1) ∧
    (dstLocaltime easternZone2024 (utcInstant 2024 11 3 4 30)).tm_wday = 0 ∧
    (weekDays (dstCTime easternZone2024) (utcInstant 2024 11 3 4 30)).map
        (fun d => (d.tm_wday, tmDate d)) =
      [(0, 2024, 11, 3, 0, 30, 1), (0, 2024, 11, 3, 23, 30, 0), (1, 2024, 11, 4, 23, 30, 0),
       (2, 2024, 11, 5, 23, 30, 0), (3, 2024, 11, 6, 23, 30, 0), (4, 2024, 11, 7, 23, 30, 0),
       (5, 2024, 11, 8, 23, 30, 0)] := by
  decide

end CalendarApp
